import Mathlib

/-!
# cfbfinfo: directory and sector-walk verification

A shallow embedding of the directory code (`cfbf_dir.c`), the sector walker
(`cfbf_walk.c`) and the sector addressing of `cfbf_file.c`, with the
properties of the specification proved (or refuted) against it.

Conventions of the embedding

* C unsigned integers are `Nat`, reduced `% 2 ^ w` where the C arithmetic can
  wrap; C `int` values that may be negative are `Int`.
* A C pointer to a directory entry is represented by the entry's id (the
  returned entry of a lookup, the `parent` argument of the walk callback) or by
  an `Option DirEntry` (the owner recorded in the sector map); `NULL` is `none`.
* Recursion and loops that the C code does not bound take a `fuel` argument.
  `Run.outOfFuel` means that the code was still running when the fuel ran out;
  `Run.fault` means that the C code performed an operation without defined
  behaviour (a division by zero, a read outside the object it indexes).
-/

namespace Cfbf

/-! ## Constants and records (from `cfbf.h`, which is not among the sources) -/

/-- Modelled from the spec: `cfbf.h` is missing; section 3 gives
`NOSTREAM = 0xFFFFFFFF`. -/
def CFBF_NOSTREAM : Nat := 0xFFFFFFFF

/-- Modelled from the spec: `cfbf.h` is missing; section 3 gives
`ENDOFCHAIN = 0xFFFFFFFE`. -/
def CFBF_END_OF_CHAIN : Nat := 0xFFFFFFFE

/-- Modelled from the spec: `cfbf.h` is missing; section 3 gives
`FREESECT = 0xFFFFFFFF`. -/
def CFBF_FREESECT : Nat := 0xFFFFFFFF

/-- Modelled from the spec: `cfbf.h` is missing; section 3 gives
`FATSECT = 0xFFFFFFFD`. -/
def CFBF_FATSECT : Nat := 0xFFFFFFFD

/-- Modelled from the spec: `cfbf.h` is missing; section 3 gives
`DIFSECT = 0xFFFFFFFC`. -/
def CFBF_DIFSECT : Nat := 0xFFFFFFFC

/-- Modelled from the spec: `struct DirEntry` of the missing `cfbf.h`, with the
fields the sources use. `name` is the array of UTF-16 code units (32 of them
in a real entry), `name_length` a 16-bit byte count, `object_type` a byte, the
three ids and `start_sector` 32-bit values, `stream_size` an unsigned 64-bit
value. -/
structure DirEntry where
  name : List Nat
  name_length : Nat
  object_type : Nat
  left_sibling_id : Nat
  right_sibling_id : Nat
  child_id : Nat
  start_sector : Nat
  stream_size : Nat
deriving DecidableEq, Repr

/-- Outcome of running a piece of C code under a fuel bound. -/
inductive Run (α : Type) where
  | done (a : α)
  | fault
  | outOfFuel
deriving DecidableEq, Repr

/-! ## UTF-16 string helpers of `cfbf_dir.c`

A NUL-terminated UTF-16 string is a list of code units; the terminator is
either an explicit `0` in the list or the end of the list. -/

/-- Source `strlen_utf16`: number of code units before the terminator. -/
def strlen_utf16 : List Nat → Nat
  | [] => 0
  | c :: s => if c = 0 then 0 else strlen_utf16 s + 1

/-- Source `strchr_utf16`: index of the first occurrence of `c` before the
terminator, `none` for the `NULL` result. -/
def strchr_utf16 : List Nat → Nat → Option Nat
  | [], _ => none
  | x :: s, c =>
    if x = 0 then none
    else if x = c then some 0
    else (strchr_utf16 s c).map (· + 1)

/-- Source `strncmp_utf16 (s1, s2, n)`. `s1` is a NUL-terminated string (the
sought path), `s2` is the `name` array of a directory entry, which has no
terminator of its own: reading past its end is a read outside the array and
gives `none`. -/
def strncmp_utf16 : List Nat → List Nat → Nat → Option Int
  | _, _, 0 => some 0
  | _, [], _ + 1 => none
  | s1, b :: s2, n + 1 =>
    let a := s1.headD 0
    if a < b then some (-1)
    else if a > b then some 1
    else if a = 0 then some 0
    else strncmp_utf16 s1.tail s2 n

/-! ## Directory -/

/-- The entry `((struct DirEntry *) dir_chain[sector]) + entry_within_sector`;
`none` when the read falls outside the directory chain. -/
def dirEntryAt (dir_chain : List (List DirEntry)) (sector within : Nat) :
    Option DirEntry :=
  match dir_chain[sector]? with
  | none => none
  | some page => page[within]?

/-- The test of `cfbf_find_path_in_tree`, lines 80-81:
`(e->name_length - 1) / 2 == path_component_length &&
 !strncmp_utf16(sought_path_utf16, e->name, path_component_length)`.
`name_length` is promoted to `int` and the division truncates toward zero.
`none` when the comparison reads past the `name` array. -/
def nameMatches (e : DirEntry) (sought_path_utf16 : List Nat)
    (path_component_length : Nat) : Option Bool :=
  if Int.tdiv ((e.name_length : Int) - 1) 2 = (path_component_length : Int) then
    match strncmp_utf16 sought_path_utf16 e.name path_component_length with
    | none => none
    | some r => some (r = 0)
  else some false

/-- Length of the first path component and whether it is the last one
(lines 61-67 of `cfbf_find_path_in_tree`). -/
def pathComponent (sought_path_utf16 : List Nat) : Nat × Bool :=
  match strchr_utf16 sought_path_utf16 47 with
  | some k => (k, false)
  | none => (strlen_utf16 sought_path_utf16, true)

/-- Source `cfbf_find_path_in_tree`. The result `some id` stands for the
pointer to entry `id`, `none` for `NULL`. The directory chain length is not
consulted by the C code, so an id outside the chain is a read outside it. -/
def cfbf_find_path_in_tree (dir_chain : List (List DirEntry))
    (entries_per_sector : Nat) :
    Nat → Nat → List Nat → Run (Option Nat)
  | 0, _, _ => Run.outOfFuel
  | fuel + 1, entry_id, sought_path_utf16 =>
    if entries_per_sector = 0 then Run.fault
    else
      let sector := (entry_id / entries_per_sector) % 2 ^ 32
      let entry_within_sector := entry_id % entries_per_sector
      if entry_id = CFBF_NOSTREAM then Run.done none
      else
        match dirEntryAt dir_chain sector entry_within_sector with
        | none => Run.fault
        | some e =>
          let pc := pathComponent sought_path_utf16
          if e.object_type ≠ 1 ∧ e.object_type ≠ 2 ∧ e.object_type ≠ 5 then
            Run.done none
          else
            match nameMatches e sought_path_utf16 pc.1 with
            | none => Run.fault
            | some true =>
              if pc.2 then Run.done (some entry_id)
              else
                cfbf_find_path_in_tree dir_chain entries_per_sector fuel
                  e.child_id (sought_path_utf16.drop (pc.1 + 1))
            | some false =>
              match cfbf_find_path_in_tree dir_chain entries_per_sector fuel
                  e.left_sibling_id sought_path_utf16 with
              | Run.done none =>
                cfbf_find_path_in_tree dir_chain entries_per_sector fuel
                  e.right_sibling_id sought_path_utf16
              | r => r

/-- Modelled from the spec: the header fields of `struct
StructuredStorageHeader` (missing `cfbf.h`) that the sources read. -/
structure Header where
  uSectorShift : Nat
  uMiniSectorShift : Nat
  csectFat : Nat
  sectDirStart : Nat
  ulMiniSectorCutoff : Nat
  sectMiniFatStart : Nat
  csectMiniFat : Nat
  sectDifStart : Nat
  csectDif : Nat
  sectFat : List Nat
deriving DecidableEq, Repr

/-- Source `cfbf_dir_stored_in_mini_stream`; the header is the only part of
`struct cfbf` it reads. -/
def cfbf_dir_stored_in_mini_stream (header : Header) (entry : DirEntry) : Int :=
  if entry.object_type = 2 ∧ entry.stream_size > 0 ∧
      entry.stream_size < header.ulMiniSectorCutoff then 1
  else 0

/-! ## Directory walk (`cfbf_walk_dir_tree`) -/

/-- The checks `if (ret <= 0) return ret;` that follow each recursive call of
`cfbf_walk_dir_tree_from_chain`: go on with `k` only after a positive result. -/
def Run.thenIfPositive {σ : Type} (r : Run (Int × σ)) (k : σ → Run (Int × σ)) :
    Run (Int × σ) :=
  match r with
  | Run.done (ret, s) => if ret ≤ 0 then Run.done (ret, s) else k s
  | Run.fault => Run.fault
  | Run.outOfFuel => Run.outOfFuel

/-- Source `cfbf_walk_dir_tree_from_chain`. The callback and its cookie are a
state-passing function `callback s entry parent entry_id depth`, which gives
the returned `int` and the new cookie state; `parent` is the id of the parent
entry (`none` for `NULL`). `dir_chain_length` is the length of `dir_chain`.
The depth is the mathematical value of the C `int` (no entry chain of a real
file reaches `INT_MAX`). -/
def cfbf_walk_dir_tree_from_chain {σ : Type} (dir_chain : List (List DirEntry))
    (entries_per_sector : Nat)
    (callback : σ → DirEntry → Option Nat → Nat → Int → Int × σ) :
    Nat → Nat → Option Nat → Int → σ → Run (Int × σ)
  | 0, _, _, _, _ => Run.outOfFuel
  | fuel + 1, entry_id, parent, depth, s =>
    if entries_per_sector = 0 then Run.fault
    else
      let sector := (entry_id / entries_per_sector) % 2 ^ 32
      let entry_within_sector := entry_id % entries_per_sector
      if sector ≥ dir_chain.length then Run.done (-1, s)
      else
        match dirEntryAt dir_chain sector entry_within_sector with
        | none => Run.fault
        | some entry =>
          if entry.object_type = 0 then Run.done (-1, s)
          else
            let r := callback s entry parent entry_id depth
            if r.1 = 0 then Run.done (0, r.2)
            else if r.1 < 0 then Run.done (r.1, r.2)
            else
              Run.thenIfPositive
                (if entry.child_id ≠ CFBF_NOSTREAM then
                  cfbf_walk_dir_tree_from_chain dir_chain entries_per_sector
                    callback fuel entry.child_id (some entry_id) (depth + 1) r.2
                 else Run.done (1, r.2))
                (fun s1 =>
                  Run.thenIfPositive
                    (if entry.left_sibling_id ≠ CFBF_NOSTREAM then
                      cfbf_walk_dir_tree_from_chain dir_chain entries_per_sector
                        callback fuel entry.left_sibling_id parent depth s1
                     else Run.done (1, s1))
                    (fun s2 =>
                      Run.thenIfPositive
                        (if entry.right_sibling_id ≠ CFBF_NOSTREAM then
                          cfbf_walk_dir_tree_from_chain dir_chain
                            entries_per_sector callback fuel
                            entry.right_sibling_id parent depth s2
                         else Run.done (1, s2))
                        (fun s3 => Run.done (1, s3))))

/-- Source `cfbf_get_sector_size`: `1 << uSectorShift`. -/
def cfbf_get_sector_size (header : Header) : Nat := 2 ^ header.uSectorShift

/-- Source `cfbf_get_mini_fat_sector_size`: `1 << uMiniSectorShift`. -/
def cfbf_get_mini_fat_sector_size (header : Header) : Nat :=
  2 ^ header.uMiniSectorShift

/-- Size in bytes of `struct DirEntry` (spec section 3: 128 bytes). -/
def sizeofDirEntry : Nat := 128

/-- Source `cfbf_walk_dir_tree`. `dir_chain` is the result of
`cfbf_get_chain_ptrs (cfbf, sectDirStart, &num_dir_secs)` (a function of the
missing `cfbf_fat.c`), `none` for `NULL`. -/
def cfbf_walk_dir_tree {σ : Type} (header : Header)
    (dir_chain : Option (List (List DirEntry)))
    (callback : σ → DirEntry → Option Nat → Nat → Int → Int × σ)
    (fuel : Nat) (cookie : σ) : Run (Int × σ) :=
  match dir_chain with
  | none => Run.done (-1, cookie)
  | some chain =>
    cfbf_walk_dir_tree_from_chain chain
      (cfbf_get_sector_size header / sizeofDirEntry) callback fuel 0 none 0 cookie

/-! ## Sector walker (`cfbf_walk.c`) -/

/-- Source `struct walk_sector`; `entry` is the owner pointer. -/
structure WalkSector where
  entry : Option DirEntry
  sector_index : Nat
  is_difsect : Bool
  is_fatsect : Bool
  is_visited : Bool
deriving DecidableEq, Repr

/-- The all-zero map element left by `memset (sector_map, 0, ...)`. -/
def WalkSector.zero : WalkSector :=
  { entry := none, sector_index := 0, is_difsect := false, is_fatsect := false,
    is_visited := false }

/-- Source `visit_sector`: the returned `int` and the sector map after the
call. `sector_map` is the array of `num_sectors` elements allocated by
`cfbf_walk`. -/
def visit_sector (sector_map : List WalkSector) (num_sectors sector_num
    sector_index : Nat) (ent : Option DirEntry) (special : Nat) :
    Int × List WalkSector :=
  if sector_num ≥ num_sectors then (-1, sector_map)
  else
    let sector := sector_map.getD sector_num WalkSector.zero
    if sector.entry.isSome then (-1, sector_map)
    else if sector.is_visited then (-1, sector_map)
    else
      let sector1 :=
        match ent with
        | some e => { sector with entry := some e, sector_index := sector_index }
        | none =>
          if special = CFBF_FATSECT then { sector with is_fatsect := true }
          else if special = CFBF_DIFSECT then { sector with is_difsect := true }
          else sector
      (0, sector_map.set sector_num { sector1 with is_visited := true })

/-- Modelled from the spec: `struct cfbf_fat` of the missing `cfbf.h` and its
lookup `cfbf_fat_get_sector_entry` of the missing `cfbf_fat.c` (spec 4.2,
`fat_next`), taken as a function from sector number to table entry. -/
structure Fat where
  sector_size : Nat
  get_sector_entry : Nat → Nat

/-- The parts of `struct cfbf` that the walker reads. `file_sect off` is the
32-bit value stored at byte offset `off` of the mapped file (`none` outside the
mapping); `dir_chain` is the result of `cfbf_get_chain_ptrs` for the directory
(missing `cfbf_fat.c`), `none` for `NULL`; `utf16_to_utf8_ok` tells whether
`iconv` converts the name of an entry. -/
structure CfbfFile where
  header : Header
  file_size : Nat
  fat : Fat
  mini_fat : Fat
  file_sect : Nat → Option Nat
  dir_chain : Option (List (List DirEntry))
  utf16_to_utf8_ok : DirEntry → Bool

/-- The `return` statement through which `cfbf_walk_entry` leaves:
`visitRejected` is line 111, `moreSectors` line 116, `lengthMismatch` line 133
and `ok` line 136. -/
inductive WalkEntryExit where
  | ok
  | visitRejected
  | moreSectors
  | lengthMismatch
deriving DecidableEq, Repr

/-- The `int` returned at each exit of `cfbf_walk_entry`. -/
def WalkEntryExit.retval : WalkEntryExit → Int
  | WalkEntryExit.ok => 0
  | _ => -1

/-- State of `cfbf_walk_entry` when it returns. `sectors_examined` counts the
iterations of the loop that were entered. -/
structure WalkEntryResult where
  exit : WalkEntryExit
  sector_map : List WalkSector
  bytes_read : Nat
  sector_index : Nat
  last_sect : Nat
  sectors_examined : Nat
deriving DecidableEq, Repr

/-- The `for` loop of `cfbf_walk_entry` (lines 106-124) and the check after it.
`bytes_read` never exceeds `stream_size`, so the 64-bit arithmetic does not
wrap; `sector_index` is a 32-bit counter. -/
def cfbf_walk_entry_loop (fat : Fat) (use_mini : Bool) (num_sectors : Nat)
    (ent : DirEntry) :
    Nat → Nat → List WalkSector → Nat → Nat → Nat → Nat → Run WalkEntryResult
  | 0, _, _, _, _, _, _ => Run.outOfFuel
  | fuel + 1, sect, sector_map, sector_index, bytes_read, last_sect, examined =>
    if sect = CFBF_END_OF_CHAIN then
      Run.done
        { exit := if bytes_read ≠ ent.stream_size then WalkEntryExit.lengthMismatch
                  else WalkEntryExit.ok,
          sector_map := sector_map, bytes_read := bytes_read,
          sector_index := sector_index, last_sect := last_sect,
          sectors_examined := examined }
    else
      let v := if use_mini then (0, sector_map)
               else visit_sector sector_map num_sectors sect sector_index (some ent) 0
      if v.1 < 0 then
        Run.done
          { exit := WalkEntryExit.visitRejected, sector_map := v.2,
            bytes_read := bytes_read, sector_index := sector_index,
            last_sect := last_sect, sectors_examined := examined + 1 }
      else if bytes_read ≥ ent.stream_size then
        Run.done
          { exit := WalkEntryExit.moreSectors, sector_map := v.2,
            bytes_read := bytes_read, sector_index := sector_index,
            last_sect := last_sect, sectors_examined := examined + 1 }
      else
        cfbf_walk_entry_loop fat use_mini num_sectors ent fuel
          (fat.get_sector_entry sect) v.2 ((sector_index + 1) % 2 ^ 32)
          (if ent.stream_size - bytes_read < fat.sector_size then
            bytes_read + (ent.stream_size - bytes_read)
           else bytes_read + fat.sector_size)
          sect (examined + 1)

/-- The choice of allocation table of `cfbf_walk_entry` (lines 94-101). -/
def walkEntryUsesMini (cfbf : CfbfFile) (ent : DirEntry) : Bool :=
  decide (ent.object_type ≠ 0 ∧ ent.object_type ≠ 5 ∧
    ent.stream_size < cfbf.header.ulMiniSectorCutoff)

/-- Source `cfbf_walk_entry`. -/
def cfbf_walk_entry (cfbf : CfbfFile) (sector_map : List WalkSector)
    (num_sectors : Nat) (ent : DirEntry) (fuel : Nat) : Run WalkEntryResult :=
  let use_mini := walkEntryUsesMini cfbf ent
  let fat := if use_mini then cfbf.mini_fat else cfbf.fat
  cfbf_walk_entry_loop fat use_mini num_sectors ent fuel ent.start_sector
    sector_map 0 0 CFBF_END_OF_CHAIN 0

/-- Source `cfbf_get_sector_ptr`: the byte offset of the returned pointer in
the mapped file, `none` for `NULL`. `(sect + 1) * sect_size` is computed in
32-bit unsigned arithmetic before it is widened to `unsigned long long`. -/
def cfbf_get_sector_ptr (header : Header) (file_size : Nat) (sect : Nat) :
    Option Nat :=
  let sect_size := cfbf_get_sector_size header
  let offset := (((sect + 1) % 2 ^ 32) * sect_size) % 2 ^ 32
  if offset ≥ file_size then none else some offset

/-- The map and `retval` of `cfbf_walk` while it runs; `failed` records a
`goto fail`. -/
structure WalkState where
  retval : Int
  sector_map : List WalkSector
  failed : Bool
deriving DecidableEq, Repr

/-- The entry that `cfbf_walk` builds for the directory chain (lines 168-171):
all zero but for `start_sector` and `stream_size`. -/
def fake_dir_entry_for_dir_chain (header : Header) (num_dir_secs : Nat) :
    DirEntry :=
  { name := List.replicate 32 0, name_length := 0, object_type := 0,
    left_sibling_id := 0, right_sibling_id := 0, child_id := 0,
    start_sector := header.sectDirStart,
    stream_size := num_dir_secs * cfbf_get_sector_size header }

/-- The body of the two nested `for` loops over the directory entries
(lines 184-217 of `cfbf_walk`), run over the entries in order; an element
`none` is a slot that lies outside its directory page. -/
def cfbf_walk_dir_entries (cfbf : CfbfFile) (num_sectors fuel : Nat) :
    List (Option DirEntry) → Int → List WalkSector → Run WalkState
  | [], retval, sector_map =>
    Run.done { retval := retval, sector_map := sector_map, failed := false }
  | none :: _, _, _ => Run.fault
  | some ent :: rest, retval, sector_map =>
    if ent.object_type = 0 then
      cfbf_walk_dir_entries cfbf num_sectors fuel rest retval sector_map
    else if ent.object_type = 1 ∨ ent.object_type = 2 ∨ ent.object_type = 5 then
      if cfbf.utf16_to_utf8_ok ent = false then
        Run.done { retval := -1, sector_map := sector_map, failed := true }
      else if ent.object_type = 1 then
        cfbf_walk_dir_entries cfbf num_sectors fuel rest retval sector_map
      else
        match cfbf_walk_entry cfbf sector_map num_sectors ent fuel with
        | Run.done r =>
          if r.exit.retval < 0 then
            Run.done { retval := -1, sector_map := r.sector_map, failed := true }
          else
            cfbf_walk_dir_entries cfbf num_sectors fuel rest retval r.sector_map
        | Run.fault => Run.fault
        | Run.outOfFuel => Run.outOfFuel
    else if ent.object_type = 5 then
      cfbf_walk_dir_entries cfbf num_sectors fuel rest retval sector_map
    else
      cfbf_walk_dir_entries cfbf num_sectors fuel rest (-1) sector_map

/-- The directory slots in the order of the loops of lines 184-188: for each
sector of the chain, the slots `0 .. entries_per_sec - 1`. -/
def dirSlots (dir_chain : List (List DirEntry)) (entries_per_sec : Nat) :
    List (Option DirEntry) :=
  dir_chain.flatMap (fun page => (List.range entries_per_sec).map (fun i => page[i]?))

/-- The loop over the header-listed FAT pages (lines 226-239 of `cfbf_walk`),
run over the first `num_start_fat_sectors` elements of `_sectFat`. -/
def cfbf_walk_header_fat (fat : Fat) (num_sectors : Nat) :
    List Nat → Int → List WalkSector → Int × List WalkSector
  | [], retval, sector_map => (retval, sector_map)
  | sect :: rest, retval, sector_map =>
    let fat_entry := fat.get_sector_entry sect
    let v := visit_sector sector_map num_sectors sect 0 none CFBF_FATSECT
    let retval1 := if v.1 < 0 then -1 else retval
    let retval2 := if fat_entry ≠ CFBF_FATSECT then -1 else retval1
    cfbf_walk_header_fat fat num_sectors rest retval2 v.2

/-- State of the DIFAT traversal of `cfbf_walk`. -/
structure DifatState where
  retval : Int
  sector_map : List WalkSector
  num_difat_sectors_seen : Nat
  num_fat_sectors_seen : Nat
deriving DecidableEq, Repr

/-- The inner `for` loop over one DIFAT sector (lines 275-290), run over the
slot numbers `0 .. num_entries_in_sect - 2`; `offset` is the byte offset of the
sector in the mapped file. -/
def cfbf_walk_difat_slots (cfbf : CfbfFile) (num_sectors offset : Nat) :
    List Nat → Int → List WalkSector → Nat → Run (Int × List WalkSector × Nat)
  | [], retval, sector_map, seen => Run.done (retval, sector_map, seen)
  | i :: rest, retval, sector_map, seen =>
    match cfbf.file_sect (offset + 4 * i) with
    | none => Run.fault
    | some fat_sect =>
      if fat_sect = CFBF_FREESECT ∧ seen ≥ cfbf.header.csectFat then
        cfbf_walk_difat_slots cfbf num_sectors offset rest retval sector_map seen
      else
        let v := visit_sector sector_map num_sectors fat_sect 0 none CFBF_FATSECT
        cfbf_walk_difat_slots cfbf num_sectors offset rest
          (if v.1 < 0 then -1 else retval) v.2 (seen + 1)

/-- The `while` loop over the DIFAT chain (lines 259-299 of `cfbf_walk`). -/
def cfbf_walk_difat (cfbf : CfbfFile) (num_sectors : Nat) :
    Nat → Nat → DifatState → Run DifatState
  | 0, _, _ => Run.outOfFuel
  | fuel + 1, difat_sect, st =>
    if difat_sect = CFBF_END_OF_CHAIN then Run.done st
    else
      let v := visit_sector st.sector_map num_sectors difat_sect 0 none CFBF_DIFSECT
      let retval1 := if v.1 < 0 then -1 else st.retval
      match cfbf_get_sector_ptr cfbf.header cfbf.file_size difat_sect with
      | none => Run.done { st with retval := -1, sector_map := v.2 }
      | some offset =>
        let num_entries_in_sect := cfbf_get_sector_size cfbf.header / 4
        if num_entries_in_sect = 0 then Run.fault
        else
          match cfbf_walk_difat_slots cfbf num_sectors offset
              (List.range (num_entries_in_sect - 1)) retval1 v.2
              st.num_fat_sectors_seen with
          | Run.done (retval2, sector_map2, seen2) =>
            match cfbf.file_sect (offset + 4 * (num_entries_in_sect - 1)) with
            | none => Run.fault
            | some next =>
              cfbf_walk_difat cfbf num_sectors fuel next
                { retval := retval2, sector_map := sector_map2,
                  num_difat_sectors_seen := st.num_difat_sectors_seen + 1,
                  num_fat_sectors_seen := seen2 }
          | Run.fault => Run.fault
          | Run.outOfFuel => Run.outOfFuel

/-- The final loop over the sector map (lines 318-337 of `cfbf_walk`): the
sectors that were not visited, in increasing order. -/
def unvisitedSectors (sector_map : List WalkSector) (num_sectors : Nat) :
    List Nat :=
  (List.range num_sectors).filter
    (fun sec => (sector_map.getD sec WalkSector.zero).is_visited = false)

/-- The unvisited sectors whose FAT entry is not `FREESECT`, counted by
`num_unvisited_not_unused`. -/
def unvisitedNotUnused (fat : Fat) (sector_map : List WalkSector)
    (num_sectors : Nat) : List Nat :=
  (unvisitedSectors sector_map num_sectors).filter
    (fun sec => fat.get_sector_entry sec ≠ CFBF_FREESECT)

/-- How `cfbf_walk` ends: `noDirChain` is the `return -1` of line 165, `failed`
a `goto fail`, `finished` the fall through to `end` with the values of the
local variables. -/
inductive WalkOutcome where
  | noDirChain
  | failed (sector_map : List WalkSector)
  | finished (retval : Int) (sector_map : List WalkSector)
      (num_difat_sectors_seen num_fat_sectors_seen num_unvisited_sectors
        num_unvisited_not_unused : Nat)
deriving DecidableEq, Repr

/-- The `int` returned by `cfbf_walk`. -/
def WalkOutcome.retval : WalkOutcome → Int
  | WalkOutcome.noDirChain => -1
  | WalkOutcome.failed _ => -1
  | WalkOutcome.finished retval _ _ _ _ _ => retval

/-- The sector map when `cfbf_walk` ends. -/
def WalkOutcome.sector_map : WalkOutcome → List WalkSector
  | WalkOutcome.noDirChain => []
  | WalkOutcome.failed m => m
  | WalkOutcome.finished _ m _ _ _ _ => m

/-- `num_sectors = (cfbf->file_size - sector_size) / sector_size`, a `long
long` quotient stored in a 32-bit `SECT`. -/
def walkNumSectors (cfbf : CfbfFile) : Nat :=
  (Int.emod (Int.tdiv ((cfbf.file_size : Int) - (cfbf_get_sector_size cfbf.header : Int))
    (cfbf_get_sector_size cfbf.header : Int)) (2 ^ 32)).toNat

/-- `num_start_fat_sectors` of `cfbf_walk` (lines 219-221). -/
def walkNumStartFatSectors (header : Header) : Nat :=
  if 109 > header.csectFat then header.csectFat else 109

/-- Source `cfbf_walk`. The same `fuel` bounds each loop that the C code
leaves unbounded. `_sectFat` is the 109-element array of the header. -/
def cfbf_walk (cfbf : CfbfFile) (fuel : Nat) : Run WalkOutcome :=
  let sector_size := cfbf_get_sector_size cfbf.header
  let num_sectors := walkNumSectors cfbf
  let sector_map0 := List.replicate num_sectors WalkSector.zero
  match cfbf.dir_chain with
  | none => Run.done WalkOutcome.noDirChain
  | some dir_chain =>
    match cfbf_walk_entry cfbf sector_map0 num_sectors
        (fake_dir_entry_for_dir_chain cfbf.header dir_chain.length) fuel with
    | Run.fault => Run.fault
    | Run.outOfFuel => Run.outOfFuel
    | Run.done r0 =>
      if r0.exit.retval < 0 then Run.done (WalkOutcome.failed r0.sector_map)
      else
        match cfbf_walk_dir_entries cfbf num_sectors fuel
            (dirSlots dir_chain (sector_size / sizeofDirEntry)) 0 r0.sector_map with
        | Run.fault => Run.fault
        | Run.outOfFuel => Run.outOfFuel
        | Run.done st1 =>
          if st1.failed then Run.done (WalkOutcome.failed st1.sector_map)
          else
            let h := cfbf_walk_header_fat cfbf.fat num_sectors
              (cfbf.header.sectFat.take (walkNumStartFatSectors cfbf.header))
              st1.retval st1.sector_map
            match cfbf_walk_difat cfbf num_sectors fuel cfbf.header.sectDifStart
                { retval := h.1, sector_map := h.2, num_difat_sectors_seen := 0,
                  num_fat_sectors_seen := walkNumStartFatSectors cfbf.header } with
            | Run.fault => Run.fault
            | Run.outOfFuel => Run.outOfFuel
            | Run.done d =>
              let retval1 :=
                if d.num_difat_sectors_seen ≠ cfbf.header.csectDif then -1
                else d.retval
              let retval2 :=
                if d.num_fat_sectors_seen ≠ cfbf.header.csectFat then -1
                else retval1
              Run.done
                (WalkOutcome.finished retval2 d.sector_map
                  d.num_difat_sectors_seen d.num_fat_sectors_seen
                  (unvisitedSectors d.sector_map num_sectors).length
                  (unvisitedNotUnused cfbf.fat d.sector_map num_sectors).length)

/-! ## Notions of the specification -/

/-- Spec 3 and 4.5, in the words of the specification: `nameLength` is the
byte length of the name with its trailing NUL, so an entry is named `comp` when
`nameLength = 2 * (code units of comp + 1)` and the first code units of the
name field are those of `comp`. -/
def specNameEquals (e : DirEntry) (comp : List Nat) : Prop :=
  e.name_length = 2 * (comp.length + 1) ∧ e.name.take comp.length = comp

instance (e : DirEntry) (comp : List Nat) : Decidable (specNameEquals e comp) := by
  unfold specNameEquals; infer_instance

/-- The first component of a sought path, as delimited by
`cfbf_find_path_in_tree`. -/
def firstComponent (sought_path_utf16 : List Nat) : List Nat :=
  sought_path_utf16.take (pathComponent sought_path_utf16).1

/-- An entry with the odd `nameLength` 3 whose name field starts with `A`. -/
def oddLengthEntry : DirEntry :=
  { name := 65 :: List.replicate 31 0, name_length := 3, object_type := 5,
    left_sibling_id := CFBF_NOSTREAM, right_sibling_id := CFBF_NOSTREAM,
    child_id := CFBF_NOSTREAM, start_sector := CFBF_END_OF_CHAIN,
    stream_size := 0 }

/-- A stream entry named `A` (`nameLength` 4). -/
def entryNamedA : DirEntry :=
  { name := 65 :: List.replicate 31 0, name_length := 4, object_type := 2,
    left_sibling_id := CFBF_NOSTREAM, right_sibling_id := CFBF_NOSTREAM,
    child_id := CFBF_NOSTREAM, start_sector := CFBF_END_OF_CHAIN,
    stream_size := 0 }

/-- The `i`-th sector of the chain that starts at `start` in the table `fat`
(spec 4.2: "a stream's chain is obtained by repeatedly applying `fat_next`"). -/
def chainSector (fat : Fat) (start i : Nat) : Nat :=
  (fat.get_sector_entry^[i]) start

/-- The chain from `start` has exactly `n` sectors up to `ENDOFCHAIN`. -/
def chainHasLength (fat : Fat) (start n : Nat) : Prop :=
  chainSector fat start n = CFBF_END_OF_CHAIN ∧
    ∀ i < n, chainSector fat start i ≠ CFBF_END_OF_CHAIN

/-- Spec 8, invariant 2: `ceil (streamSize / sector_size)`. -/
def ceilDiv (size s : Nat) : Nat := (size + s - 1) / s

/-- The allocation table that `cfbf_walk_entry` follows for `ent`. -/
def walkEntryTable (cfbf : CfbfFile) (ent : DirEntry) : Fat :=
  if walkEntryUsesMini cfbf ent then cfbf.mini_fat else cfbf.fat

/-- Number of sectors that `cfbf_walk_entry` passed to `visit_sector` with
success: every sector it examined, but for the one that was rejected. -/
def WalkEntryResult.sectors_marked (r : WalkEntryResult) : Nat :=
  if r.exit = WalkEntryExit.visitRejected then r.sectors_examined - 1
  else r.sectors_examined

/-! ### A minimal container (scenario E1 of the specification)

Sector size 512: sector 0 is the FAT page, sector 1 the directory, sector 2
the MiniFAT, sector 3 the mini-stream of the root entry; stream `A` has 100
bytes in mini-sectors 0 and 1. -/

/-- Header of the E1 container. -/
def e1Header : Header :=
  { uSectorShift := 9, uMiniSectorShift := 6, csectFat := 1, sectDirStart := 1,
    ulMiniSectorCutoff := 4096, sectMiniFatStart := 2, csectMiniFat := 1,
    sectDifStart := CFBF_END_OF_CHAIN, csectDif := 0,
    sectFat := 0 :: List.replicate 108 CFBF_FREESECT }

/-- Root entry of the E1 container, named `Root Entry`. -/
def e1Root : DirEntry :=
  { name := [82, 111, 111, 116, 32, 69, 110, 116, 114, 121] ++ List.replicate 22 0,
    name_length := 22, object_type := 5,
    left_sibling_id := CFBF_NOSTREAM, right_sibling_id := CFBF_NOSTREAM,
    child_id := 1, start_sector := 3, stream_size := 128 }

/-- Stream `A` of the E1 container: 100 bytes, in the mini-stream. -/
def e1StreamA : DirEntry :=
  { name := 65 :: List.replicate 31 0, name_length := 4, object_type := 2,
    left_sibling_id := CFBF_NOSTREAM, right_sibling_id := CFBF_NOSTREAM,
    child_id := CFBF_NOSTREAM, start_sector := 0, stream_size := 100 }

/-- An unused directory slot. -/
def unusedEntry : DirEntry :=
  { name := List.replicate 32 0, name_length := 0, object_type := 0,
    left_sibling_id := CFBF_NOSTREAM, right_sibling_id := CFBF_NOSTREAM,
    child_id := CFBF_NOSTREAM, start_sector := 0, stream_size := 0 }

/-- The E1 container: its FAT is `[FATSECT, ENDOFCHAIN, ENDOFCHAIN,
ENDOFCHAIN]`, its MiniFAT `[1, ENDOFCHAIN]`. -/
def e1File : CfbfFile :=
  { header := e1Header, file_size := 2560,
    fat := { sector_size := 512,
             get_sector_entry := fun s =>
               [CFBF_FATSECT, CFBF_END_OF_CHAIN, CFBF_END_OF_CHAIN,
                CFBF_END_OF_CHAIN].getD s CFBF_FREESECT },
    mini_fat := { sector_size := 64,
                  get_sector_entry := fun s =>
                    [1, CFBF_END_OF_CHAIN].getD s CFBF_FREESECT },
    file_sect := fun _ => none,
    dir_chain := some [[e1Root, e1StreamA, unusedEntry, unusedEntry]],
    utf16_to_utf8_ok := fun _ => true }

/-- Sector `S` is marked as visited in the sector map. -/
def isVisited (m : List WalkSector) (S : Nat) : Prop :=
  (m.getD S WalkSector.zero).is_visited = true

/-- The chain that starts at `start` in `fat` references sector `S`: `S` is
one of its sectors, met before the chain ends. -/
def chainReferences (fat : Fat) (start S : Nat) : Prop :=
  ∃ j, chainSector fat start j = S ∧
    ∀ i ≤ j, chainSector fat start i ≠ CFBF_END_OF_CHAIN

/-- Fuel that lets `cfbf_walk_entry` finish on `ent`: one unit for each of the
at most `ceil (streamSize / s) + 1` iterations of its loop. -/
def walkEntryFuel (cfbf : CfbfFile) (ent : DirEntry) : Nat :=
  ceilDiv ent.stream_size (walkEntryTable cfbf ent).sector_size + 1

/-- The directory slots that `cfbf_walk` goes through. -/
def walkSlots (cfbf : CfbfFile) (dir_chain : List (List DirEntry)) :
    List (Option DirEntry) :=
  dirSlots dir_chain (cfbf_get_sector_size cfbf.header / sizeofDirEntry)

/-- The loops of `cfbf_walk` over the directory have what they need to finish
with `fuel`: every slot lies in its page, the tables have a sector size of at
least 1, and `fuel` covers the walk of the directory chain and of each
entry. -/
def walkDirFuelOk (cfbf : CfbfFile) (dir_chain : List (List DirEntry))
    (fuel : Nat) : Prop :=
  (∀ x ∈ walkSlots cfbf dir_chain, x ≠ none) ∧
  1 ≤ cfbf.fat.sector_size ∧ 1 ≤ cfbf.mini_fat.sector_size ∧
  walkEntryFuel cfbf (fake_dir_entry_for_dir_chain cfbf.header dir_chain.length) ≤ fuel ∧
  ∀ e, some e ∈ walkSlots cfbf dir_chain → walkEntryFuel cfbf e ≤ fuel

/-- A stream of 512 bytes in sector 3. -/
def sharedStream1 : DirEntry :=
  { name := 65 :: List.replicate 31 0, name_length := 4, object_type := 2,
    left_sibling_id := CFBF_NOSTREAM, right_sibling_id := 2,
    child_id := CFBF_NOSTREAM, start_sector := 3, stream_size := 512 }

/-- A second stream of 512 bytes, also in sector 3. -/
def sharedStream2 : DirEntry :=
  { name := 66 :: List.replicate 31 0, name_length := 4, object_type := 2,
    left_sibling_id := CFBF_NOSTREAM, right_sibling_id := CFBF_NOSTREAM,
    child_id := CFBF_NOSTREAM, start_sector := 3, stream_size := 512 }

/-- A corrupted container (scenario E5): sector size 512, mini cutoff 64, two
streams whose chains both consist of sector 3. -/
def sharedSectorFile : CfbfFile :=
  { header := { e1Header with ulMiniSectorCutoff := 64,
                              sectMiniFatStart := CFBF_END_OF_CHAIN,
                              csectMiniFat := 0 },
    file_size := 2560,
    fat := { sector_size := 512,
             get_sector_entry := fun s =>
               [CFBF_FATSECT, CFBF_END_OF_CHAIN, CFBF_FREESECT,
                CFBF_END_OF_CHAIN].getD s CFBF_FREESECT },
    mini_fat := { sector_size := 64, get_sector_entry := fun _ => CFBF_FREESECT },
    file_sect := fun _ => none,
    dir_chain := some [[{ e1Root with start_sector := CFBF_END_OF_CHAIN,
                                       stream_size := 0 },
                        sharedStream1, sharedStream2, unusedEntry]],
    utf16_to_utf8_ok := fun _ => true }

/-- What the final loop of `cfbf_walk` reports when the walk runs to its end:
the returned value and the unvisited sectors whose FAT entry is not
`FREESECT`. -/
def walkReport (cfbf : CfbfFile) (fuel : Nat) : Option (Int × List Nat) :=
  match cfbf_walk cfbf fuel with
  | Run.done (WalkOutcome.finished retval sector_map _ _ _ _) =>
    some (retval, unvisitedNotUnused cfbf.fat sector_map (walkNumSectors cfbf))
  | _ => none

/-! ### A container whose FAT has 110 pages

Sector size 512 and 112 sectors: sectors 0 to 108 are the FAT pages listed in
the header, sector 109 is the only DIFAT sector (at byte offset 56320), which
lists FAT page 110 in its first slot, and sector 111 holds the directory. The
FAT entry of the DIFAT-listed page 110 is `ENDOFCHAIN`, not `FATSECT`. -/

/-- The container with a DIFAT-listed FAT page whose FAT entry is wrong. -/
def difatFile : CfbfFile :=
  { header :=
      { uSectorShift := 9, uMiniSectorShift := 6, csectFat := 110,
        sectDirStart := 111, ulMiniSectorCutoff := 4096,
        sectMiniFatStart := CFBF_END_OF_CHAIN, csectMiniFat := 0,
        sectDifStart := 109, csectDif := 1, sectFat := List.range 109 },
    file_size := 57856,
    fat := { sector_size := 512,
             get_sector_entry := fun s =>
               if s < 109 then CFBF_FATSECT
               else if s = 109 then CFBF_DIFSECT
               else if s = 110 then CFBF_END_OF_CHAIN
               else if s = 111 then CFBF_END_OF_CHAIN
               else CFBF_FREESECT },
    mini_fat := { sector_size := 64, get_sector_entry := fun _ => CFBF_FREESECT },
    file_sect := fun off =>
      if off = 56320 then some 110
      else if off = 56320 + 4 * 127 then some CFBF_END_OF_CHAIN
      else if 56320 ≤ off ∧ off < 56832 then some CFBF_FREESECT
      else none,
    dir_chain := some [[{ e1Root with child_id := CFBF_NOSTREAM,
                                       start_sector := CFBF_END_OF_CHAIN,
                                       stream_size := 0 },
                        unusedEntry, unusedEntry, unusedEntry]],
    utf16_to_utf8_ok := fun _ => true }

/-! ### Directory trees

The shape that the child and sibling links of a directory unfold to, used to
say that the links "form a finite tree". -/

/-- A finite tree of directory entries: a node carries the entry id and the
subtrees of its child, left sibling and right sibling links; `nil` is an
absent link. -/
inductive DTree where
  | nil
  | node (id : Nat) (child left right : DTree)
deriving DecidableEq, Repr

/-- The entry with the given id, as both directory functions address it
(`dir_chain[id / entries_per_sector][id % entries_per_sector]`); `none` when it
is not inside the directory chain. -/
def entryOf (dir_chain : List (List DirEntry)) (entries_per_sector id : Nat) :
    Option DirEntry :=
  if entries_per_sector = 0 then none
  else dirEntryAt dir_chain ((id / entries_per_sector) % 2 ^ 32)
    (id % entries_per_sector)

/-- The links of the directory, followed from `link`, unfold to the tree `t`:
an absent link (`NOSTREAM`) is `nil`, any other link is a node whose entry lies
inside the directory chain, satisfies `P`, and whose three links unfold to the
three subtrees. -/
def DTree.Rep (dir_chain : List (List DirEntry)) (entries_per_sector : Nat)
    (P : DirEntry → Prop) : DTree → Nat → Prop
  | DTree.nil, link => link = CFBF_NOSTREAM
  | DTree.node id c l r, link =>
    link = id ∧ id ≠ CFBF_NOSTREAM ∧
      ∃ e, entryOf dir_chain entries_per_sector id = some e ∧ P e ∧
        DTree.Rep dir_chain entries_per_sector P c e.child_id ∧
        DTree.Rep dir_chain entries_per_sector P l e.left_sibling_id ∧
        DTree.Rep dir_chain entries_per_sector P r e.right_sibling_id

/-- The entry ids of a tree. -/
def DTree.ids : DTree → List Nat
  | DTree.nil => []
  | DTree.node id c l r => id :: (c.ids ++ l.ids ++ r.ids)

/-- Height of a tree. -/
def DTree.height : DTree → Nat
  | DTree.nil => 0
  | DTree.node _ c l r => max (max c.height l.height) r.height + 1

/-- The callback invocations that spec 4.5 prescribes for a tree, as
`(entry id, parent, depth)`: the node itself, then the subtree of its child
(parent: the node, depth + 1), then the subtree of its left sibling and the
subtree of its right sibling (same parent, same depth). -/
def DTree.calls : DTree → Option Nat → Int → List (Nat × Option Nat × Int)
  | DTree.nil, _, _ => []
  | DTree.node id c l r, parent, depth =>
    (id, parent, depth) ::
      (c.calls (some id) (depth + 1) ++ l.calls parent depth ++ r.calls parent depth)

/-- The cookie state after the callback was invoked, in order, on the given
entries. -/
def applyCalls {σ : Type} (dir_chain : List (List DirEntry)) (entries_per_sector : Nat)
    (callback : σ → DirEntry → Option Nat → Nat → Int → Int × σ) (s : σ)
    (calls : List (Nat × Option Nat × Int)) : σ :=
  calls.foldl
    (fun s c =>
      match entryOf dir_chain entries_per_sector c.1 with
      | some e => (callback s e c.2.1 c.1 c.2.2).2
      | none => s)
    s

/-- Entry `b` is designated by the child, left sibling or right sibling link
of entry `a`. -/
def dirLink (dir_chain : List (List DirEntry)) (entries_per_sector : Nat)
    (a b : Nat) : Prop :=
  ∃ e, entryOf dir_chain entries_per_sector a = some e ∧ b ≠ CFBF_NOSTREAM ∧
    (b = e.child_id ∨ b = e.left_sibling_id ∨ b = e.right_sibling_id)

/-- Entry `b` is reachable from entry `a` through the links of the directory. -/
def dirReachable (dir_chain : List (List DirEntry)) (entries_per_sector : Nat)
    (a b : Nat) : Prop :=
  Relation.ReflTransGen (dirLink dir_chain entries_per_sector) a b

/-- The object types of a directory entry that is in use: storage, stream,
root. -/
def typeInUse (e : DirEntry) : Prop :=
  e.object_type = 1 ∨ e.object_type = 2 ∨ e.object_type = 5

instance (e : DirEntry) : Decidable (typeInUse e) := by
  unfold typeInUse; infer_instance

/-- A callback that records its arguments `(entry id, parent, depth)` and
signals continue. -/
def recordCall (s : List (Nat × Option Nat × Int)) (_ : DirEntry)
    (parent : Option Nat) (entry_id : Nat) (depth : Int) :
    Int × List (Nat × Option Nat × Int) :=
  (1, s ++ [(entry_id, parent, depth)])

/-- A storage entry with the given one-unit name and links. -/
def storageEntry (c left right child : Nat) : DirEntry :=
  { name := c :: List.replicate 31 0, name_length := 4, object_type := 1,
    left_sibling_id := left, right_sibling_id := right, child_id := child,
    start_sector := 0, stream_size := 0 }

/-- A directory whose root has the children 1, 2 and 3, chained through left
sibling links only (1 to 2 to 3); entry 3 has the child 4. -/
def leftChainDir : List (List DirEntry) :=
  [[{ e1Root with child_id := 1 },
    storageEntry 67 2 CFBF_NOSTREAM CFBF_NOSTREAM,
    storageEntry 66 3 CFBF_NOSTREAM CFBF_NOSTREAM,
    storageEntry 65 CFBF_NOSTREAM CFBF_NOSTREAM 4],
   [storageEntry 68 CFBF_NOSTREAM CFBF_NOSTREAM CFBF_NOSTREAM,
    unusedEntry, unusedEntry, unusedEntry]]

/-- The tree of `leftChainDir`. -/
def leftChainTree : DTree :=
  DTree.node 0
    (DTree.node 1 DTree.nil
      (DTree.node 2 DTree.nil
        (DTree.node 3 (DTree.node 4 DTree.nil DTree.nil DTree.nil) DTree.nil DTree.nil)
        DTree.nil)
      DTree.nil)
    DTree.nil DTree.nil

/-! ### Path resolution, in the words of the specification -/

/-- Entry `b` is designated by the left or right sibling link of entry `a`. -/
def sibLink (dir_chain : List (List DirEntry)) (entries_per_sector : Nat)
    (a b : Nat) : Prop :=
  ∃ e, entryOf dir_chain entries_per_sector a = some e ∧ b ≠ CFBF_NOSTREAM ∧
    (b = e.left_sibling_id ∨ b = e.right_sibling_id)

/-- Entry `b` is reachable from entry `a` through left/right sibling links. -/
def sibReachable (dir_chain : List (List DirEntry)) (entries_per_sector : Nat)
    (a b : Nat) : Prop :=
  Relation.ReflTransGen (sibLink dir_chain entries_per_sector) a b

/-- The entry `e1` is named as the first component of `path` (in the sense of
the comparison that `cfbf_find_path_in_tree` makes, `nameMatches`). -/
def matchesFirstComponent (e : DirEntry) (path : List Nat) : Prop :=
  nameMatches e path (pathComponent path).1 = some true

instance (e : DirEntry) (path : List Nat) : Decidable (matchesFirstComponent e path) := by
  unfold matchesFirstComponent; infer_instance

/-- `PathResolves dir eps start path e`: there are entries `e1 .. ek = e`, one
for each component `c1/../ck` of `path`, such that `ei` is named `ci`, `e1` is
reachable from the link `start` through sibling links and each `e (i+1)` is
reachable from the child link of `ei` through sibling links. -/
inductive PathResolves (dir_chain : List (List DirEntry)) (entries_per_sector : Nat) :
    Nat → List Nat → Nat → Prop where
  | last (start e1 : Nat) (path : List Nat) (ent : DirEntry) :
      start ≠ CFBF_NOSTREAM →
      sibReachable dir_chain entries_per_sector start e1 →
      entryOf dir_chain entries_per_sector e1 = some ent →
      matchesFirstComponent ent path →
      (pathComponent path).2 = true →
      PathResolves dir_chain entries_per_sector start path e1
  | descend (start e1 e : Nat) (path : List Nat) (ent : DirEntry) :
      start ≠ CFBF_NOSTREAM →
      sibReachable dir_chain entries_per_sector start e1 →
      entryOf dir_chain entries_per_sector e1 = some ent →
      matchesFirstComponent ent path →
      (pathComponent path).2 = false →
      PathResolves dir_chain entries_per_sector ent.child_id
        (path.drop ((pathComponent path).1 + 1)) e →
      PathResolves dir_chain entries_per_sector start path e

/-- The code units that the lookup compares lie inside the name field
(`nameLength ≤ 66` for the field of 32 code units). -/
def nameInField (e : DirEntry) : Prop :=
  e.name_length ≤ 2 * e.name.length + 2

instance (e : DirEntry) : Decidable (nameInField e) := by
  unfold nameInField; infer_instance

/-- A directory whose root entry is its own left sibling. -/
def cyclicDir : List (List DirEntry) :=
  [[{ e1Root with left_sibling_id := 0, child_id := CFBF_NOSTREAM },
    unusedEntry, unusedEntry, unusedEntry]]

/-! ### Well-formed directories and the paths of their entries -/

/-- The name of an entry in the sense of spec 3: the `nameLength / 2 - 1` code
units before the trailing NUL. -/
def entryName (e : DirEntry) : List Nat :=
  e.name.take (e.name_length / 2 - 1)

/-- `nameLength = 2 * (code units + 1)`, the code units lie in the name field
and hold neither `/` nor NUL. -/
def nameWellFormed (e : DirEntry) : Prop :=
  e.name_length % 2 = 0 ∧ 2 ≤ e.name_length ∧
    e.name_length / 2 - 1 ≤ e.name.length ∧
    ∀ x ∈ entryName e, x ≠ 0 ∧ x ≠ 47

instance (e : DirEntry) : Decidable (nameWellFormed e) := by
  unfold nameWellFormed; infer_instance

/-- An entry of a well-formed directory: of type 1, 2 or 5, with a well-formed
name. -/
def entryWellFormed (e : DirEntry) : Prop :=
  typeInUse e ∧ nameWellFormed e

instance (e : DirEntry) : Decidable (entryWellFormed e) := by
  unfold entryWellFormed; infer_instance

/-- The name of the entry with the given id. -/
def nameOf (dir_chain : List (List DirEntry)) (entries_per_sector id : Nat) :
    List Nat :=
  match entryOf dir_chain entries_per_sector id with
  | some e => entryName e
  | none => []

/-- The names of the siblings at the top of a tree: the root and the nodes
linked to it through left and right sibling links. -/
def DTree.sibNames (dir_chain : List (List DirEntry)) (entries_per_sector : Nat) :
    DTree → List (List Nat)
  | DTree.nil => []
  | DTree.node id _ l r =>
    nameOf dir_chain entries_per_sector id ::
      (l.sibNames dir_chain entries_per_sector ++ r.sibNames dir_chain entries_per_sector)

/-- Below every node of the tree, the names of the children are pairwise
distinct. -/
def DTree.childNamesDistinct (dir_chain : List (List DirEntry))
    (entries_per_sector : Nat) : DTree → Prop
  | DTree.nil => True
  | DTree.node _ c l r =>
    (c.sibNames dir_chain entries_per_sector).Nodup ∧
      c.childNamesDistinct dir_chain entries_per_sector ∧
      l.childNamesDistinct dir_chain entries_per_sector ∧
      r.childNamesDistinct dir_chain entries_per_sector

/-- The path of every entry of a tree, as `(entry id, path)`: the names on the
parent chain down to the entry, joined with `/`. A child of a node has the
path of the node, a `/` and its own name; a sibling has the same parent path
`pre`. The order is that of `DTree.calls`. -/
def DTree.paths (dir_chain : List (List DirEntry)) (entries_per_sector : Nat) :
    DTree → List Nat → List (Nat × List Nat)
  | DTree.nil, _ => []
  | DTree.node id c l r, pre =>
    (id, pre ++ nameOf dir_chain entries_per_sector id) ::
      (c.paths dir_chain entries_per_sector
          (pre ++ nameOf dir_chain entries_per_sector id ++ [47]) ++
        l.paths dir_chain entries_per_sector pre ++
        r.paths dir_chain entries_per_sector pre)

/-! ### Sector addressing (`cfbf_file.c`) -/

/-- Source `cfbf_is_sector_in_file`: `(sect + 1) * sect_size + sect_size` is
computed in 32-bit unsigned arithmetic and compared with the file size. -/
def cfbf_is_sector_in_file (header : Header) (file_size : Nat) (sect : Nat) : Int :=
  let sect_size := cfbf_get_sector_size header
  if ((((sect + 1) % 2 ^ 32) * sect_size) % 2 ^ 32 + sect_size) % 2 ^ 32 > file_size
  then 0 else 1

/-- Source `cfbf_get_sector_ptr_in_mini_stream`: the byte offset of the
returned pointer in the mini-stream buffer, `none` for `NULL`.
`sector * mini_sector_size` is computed in 32-bit unsigned arithmetic before it
is widened to `uint64_t`; `mini_stream_size` is the field of `struct cfbf`. -/
def cfbf_get_sector_ptr_in_mini_stream (header : Header) (mini_stream_size : Nat)
    (sector : Nat) : Option Nat :=
  let mini_sector_size := cfbf_get_mini_fat_sector_size header
  let offset := (sector * mini_sector_size) % 2 ^ 32
  if offset > mini_stream_size then none else some offset

/-- Whether the loop over the directory entries ended through `goto fail`. -/
def walkDirEntriesFailed (r : Run WalkState) : Bool :=
  match r with
  | Run.done st => st.failed
  | _ => false

/-! ### The directory walk with its observable events -/

/-- What an observer of `cfbf_walk_dir_tree_from_chain` sees: an invocation of
the callback on an entry with the value it returned, and the two error reports
of the function, "directory entry id not in chain" (line 183) and "directory
entry id is unused" (line 190). -/
inductive WalkEvent where
  | callback (entry_id : Nat) (ret : Int)
  | unused (entry_id : Nat)
  | notInChain (entry_id : Nat)
deriving DecidableEq, Repr

/-- A run of the directory walk as far as it went: the cookie state, the
events so far, and the returned `int` (`Run.outOfFuel` while still running). -/
structure WalkLog (σ : Type) where
  state : σ
  log : List WalkEvent
  result : Run Int

/-- The checks `if (ret <= 0) return ret;` on a logged run. -/
def WalkLog.thenIfPositive {σ : Type} (w : WalkLog σ)
    (k : σ → List WalkEvent → WalkLog σ) : WalkLog σ :=
  match w.result with
  | Run.done ret => if ret ≤ 0 then w else k w.state w.log
  | _ => w

/-- What `cfbf_walk_dir_tree_from_chain` returns for a logged run. -/
def WalkLog.toRun {σ : Type} (w : WalkLog σ) : Run (Int × σ) :=
  match w.result with
  | Run.done ret => Run.done (ret, w.state)
  | Run.fault => Run.fault
  | Run.outOfFuel => Run.outOfFuel

/-- Source `cfbf_walk_dir_tree_from_chain` once more, keeping the events of the
run, also when the fuel runs out before the function returns. -/
def walkLogged {σ : Type} (dir_chain : List (List DirEntry))
    (entries_per_sector : Nat)
    (callback : σ → DirEntry → Option Nat → Nat → Int → Int × σ) :
    Nat → Nat → Option Nat → Int → σ → List WalkEvent → WalkLog σ
  | 0, _, _, _, s, log => { state := s, log := log, result := Run.outOfFuel }
  | fuel + 1, entry_id, parent, depth, s, log =>
    if entries_per_sector = 0 then { state := s, log := log, result := Run.fault }
    else
      let sector := (entry_id / entries_per_sector) % 2 ^ 32
      let entry_within_sector := entry_id % entries_per_sector
      if sector ≥ dir_chain.length then
        { state := s, log := log ++ [WalkEvent.notInChain entry_id],
          result := Run.done (-1) }
      else
        match dirEntryAt dir_chain sector entry_within_sector with
        | none => { state := s, log := log, result := Run.fault }
        | some entry =>
          if entry.object_type = 0 then
            { state := s, log := log ++ [WalkEvent.unused entry_id],
              result := Run.done (-1) }
          else
            let r := callback s entry parent entry_id depth
            let log1 := log ++ [WalkEvent.callback entry_id r.1]
            if r.1 = 0 then { state := r.2, log := log1, result := Run.done 0 }
            else if r.1 < 0 then { state := r.2, log := log1, result := Run.done r.1 }
            else
              WalkLog.thenIfPositive
                (if entry.child_id ≠ CFBF_NOSTREAM then
                  walkLogged dir_chain entries_per_sector callback fuel
                    entry.child_id (some entry_id) (depth + 1) r.2 log1
                 else { state := r.2, log := log1, result := Run.done 1 })
                (fun s1 l1 =>
                  WalkLog.thenIfPositive
                    (if entry.left_sibling_id ≠ CFBF_NOSTREAM then
                      walkLogged dir_chain entries_per_sector callback fuel
                        entry.left_sibling_id parent depth s1 l1
                     else { state := s1, log := l1, result := Run.done 1 })
                    (fun s2 l2 =>
                      WalkLog.thenIfPositive
                        (if entry.right_sibling_id ≠ CFBF_NOSTREAM then
                          walkLogged dir_chain entries_per_sector callback fuel
                            entry.right_sibling_id parent depth s2 l2
                         else { state := s2, log := l2, result := Run.done 1 })
                        (fun s3 l3 =>
                          { state := s3, log := l3, result := Run.done 1 })))

/-- The value with which an event ends the walk: a callback result `≤ 0`, or
-1 for an error report; `none` for a callback that signals continue. -/
def WalkEvent.stops : WalkEvent → Option Int
  | WalkEvent.callback _ ret => if ret ≤ 0 then some ret else none
  | WalkEvent.unused _ => some (-1)
  | WalkEvent.notInChain _ => some (-1)

/-- The events of a run either all let the walk continue, the walk then not
having returned a value `≤ 0`; or the last of them ends the walk, which has
returned its value. -/
def WalkLog.WellStopped {σ : Type} (w : WalkLog σ) (log0 : List WalkEvent) : Prop :=
  ∃ new, w.log = log0 ++ new ∧
    (((∀ ev ∈ new, ev.stops = none) ∧ ∀ ret, w.result = Run.done ret → 0 < ret) ∨
      ∃ pre ev v, new = pre ++ [ev] ∧ (∀ x ∈ pre, x.stops = none) ∧
        ev.stops = some v ∧ w.result = Run.done v)

/-! ### Directories for the stop conditions of the walk -/

/-- A callback that records the entry ids and returns 0 on entry 2. -/
def stopAtTwo (s : List Nat) (_ : DirEntry) (_ : Option Nat) (entry_id : Nat)
    (_ : Int) : Int × List Nat :=
  (if entry_id = 2 then 0 else 1, s ++ [entry_id])

/-- A directory whose root has the child 9, an id outside the one-sector
chain. -/
def outOfChainDir : List (List DirEntry) :=
  [[{ e1Root with child_id := 9 }, unusedEntry, unusedEntry, unusedEntry]]

/-- A directory whose root has the child 1; entry 1 has the left sibling 2,
an unused entry, and the right sibling 3. -/
def unusedLinkDir : List (List DirEntry) :=
  [[{ e1Root with child_id := 1 },
    storageEntry 65 2 3 CFBF_NOSTREAM,
    unusedEntry,
    storageEntry 66 CFBF_NOSTREAM CFBF_NOSTREAM CFBF_NOSTREAM]]

/-- A directory whose root has the child 1, an entry named `X` of the invalid
object type 3, whose right sibling is the stream `B` (entry 2). -/
def badTypeDir : List (List DirEntry) :=
  [[{ e1Root with child_id := 1 },
    { storageEntry 88 CFBF_NOSTREAM 2 CFBF_NOSTREAM with object_type := 3 },
    { storageEntry 66 CFBF_NOSTREAM CFBF_NOSTREAM CFBF_NOSTREAM with object_type := 2 },
    unusedEntry]]

/-- The tree of `badTypeDir`. -/
def badTypeTree : DTree :=
  DTree.node 0
    (DTree.node 1 DTree.nil DTree.nil (DTree.node 2 DTree.nil DTree.nil DTree.nil))
    DTree.nil DTree.nil

/-! ### The DIFAT chain and its page numbers -/

/-- Steps 1 and 2 of `cfbf_walk` (lines 163-217): the walk of the directory
chain and of the directory entries; `none` when `cfbf_walk` ends there
(`return -1`, `goto fail`) or the walk does not return. -/
def walkDirStage (cfbf : CfbfFile) (fuel : Nat) : Option WalkState :=
  match cfbf.dir_chain with
  | none => none
  | some dir_chain =>
    match cfbf_walk_entry cfbf (List.replicate (walkNumSectors cfbf) WalkSector.zero)
        (walkNumSectors cfbf)
        (fake_dir_entry_for_dir_chain cfbf.header dir_chain.length) fuel with
    | Run.done r0 =>
      if r0.exit.retval < 0 then none
      else
        match cfbf_walk_dir_entries cfbf (walkNumSectors cfbf) fuel
            (dirSlots dir_chain (cfbf_get_sector_size cfbf.header / sizeofDirEntry)) 0
            r0.sector_map with
        | Run.done st1 => if st1.failed then none else some st1
        | _ => none
    | _ => none

/-- The content of the DIFAT sector `s`: the FAT page numbers of its slots
`0 .. n - 2` and the link of its last slot, `n` being the number of 4-byte
slots of a sector; `none` when the sector does not lie inside the file. -/
def difatSector (cfbf : CfbfFile) (s : Nat) : Option (List Nat × Nat) :=
  match cfbf_get_sector_ptr cfbf.header cfbf.file_size s with
  | none => none
  | some offset =>
    let n := cfbf_get_sector_size cfbf.header / 4
    if n = 0 then none
    else if (List.range n).all (fun i => (cfbf.file_sect (offset + 4 * i)).isSome) then
      some ((List.range (n - 1)).map (fun i => (cfbf.file_sect (offset + 4 * i)).getD 0),
        (cfbf.file_sect (offset + 4 * (n - 1))).getD 0)
    else none

/-- The DIFAT chain from `start`: the sectors reached through the last-slot
links up to `ENDOFCHAIN`, and the page-number slots of all of them in order;
`none` when the chain does not end within `fuel` links or leaves the file. -/
def difatChain (cfbf : CfbfFile) : Nat → Nat → Option (List Nat × List Nat)
  | 0, _ => none
  | fuel + 1, start =>
    if start = CFBF_END_OF_CHAIN then some ([], [])
    else
      match difatSector cfbf start with
      | none => none
      | some (slots, next) =>
        match difatChain cfbf fuel next with
        | none => none
        | some (sectors, more) => some (start :: sectors, slots ++ more)

/-- The number of DIFAT-listed FAT page numbers among `slots` when `seen`
pages have been counted before them: a `FREESECT` slot met when at least
`csectFat` pages have been counted is padding, every other slot is a page
number. -/
def difatListedPages (csectFat : Nat) : Nat → List Nat → Nat
  | _, [] => 0
  | seen, v :: rest =>
    if v = CFBF_FREESECT ∧ seen ≥ csectFat then difatListedPages csectFat seen rest
    else 1 + difatListedPages csectFat (seen + 1) rest

/-! ### E2: a container with 200 FAT pages

Sector size 512: sectors 0 to 108 are the FAT pages listed in the header,
sector 109 is the only DIFAT sector (at byte offset 56320), whose slots list
the 91 FAT pages 110 to 200, followed by `FREESECT` padding and `ENDOFCHAIN` in
the last slot; sector 201 holds the directory. -/

/-- The E2 container. -/
def e2File : CfbfFile :=
  { header :=
      { uSectorShift := 9, uMiniSectorShift := 6, csectFat := 200,
        sectDirStart := 201, ulMiniSectorCutoff := 4096,
        sectMiniFatStart := CFBF_END_OF_CHAIN, csectMiniFat := 0,
        sectDifStart := 109, csectDif := 1, sectFat := List.range 109 },
    file_size := 103936,
    fat := { sector_size := 512,
             get_sector_entry := fun s =>
               if s < 109 then CFBF_FATSECT
               else if s = 109 then CFBF_DIFSECT
               else if s < 201 then CFBF_FATSECT
               else if s = 201 then CFBF_END_OF_CHAIN
               else CFBF_FREESECT },
    mini_fat := { sector_size := 64, get_sector_entry := fun _ => CFBF_FREESECT },
    file_sect := fun off =>
      if 56320 ≤ off ∧ off < 56320 + 4 * 91 then some (110 + (off - 56320) / 4)
      else if off = 56320 + 4 * 127 then some CFBF_END_OF_CHAIN
      else if 56320 ≤ off ∧ off < 56832 then some CFBF_FREESECT
      else none,
    dir_chain := some [[{ e1Root with child_id := CFBF_NOSTREAM,
                                       start_sector := CFBF_END_OF_CHAIN,
                                       stream_size := 0 },
                        unusedEntry, unusedEntry, unusedEntry]],
    utf16_to_utf8_ok := fun _ => true }

/-! ### The stages of the sector walk and a container with an orphan sector -/

/-- Step 3 of `cfbf_walk` (lines 226-239) after the directory stage `st1`:
the returned value so far and the sector map. -/
def walkHeaderStage (cfbf : CfbfFile) (st1 : WalkState) : Int × List WalkSector :=
  cfbf_walk_header_fat cfbf.fat (walkNumSectors cfbf)
    (cfbf.header.sectFat.take (walkNumStartFatSectors cfbf.header))
    st1.retval st1.sector_map

/-- Step 4 of `cfbf_walk` (lines 259-299) after the directory stage `st1`. -/
def walkDifatStage (cfbf : CfbfFile) (fuel : Nat) (st1 : WalkState) : Run DifatState :=
  cfbf_walk_difat cfbf (walkNumSectors cfbf) fuel cfbf.header.sectDifStart
    { retval := (walkHeaderStage cfbf st1).1, sector_map := (walkHeaderStage cfbf st1).2,
      num_difat_sectors_seen := 0,
      num_fat_sectors_seen := walkNumStartFatSectors cfbf.header }

/-- A container of three sectors of 512 bytes: sector 0 is the FAT page,
sector 1 the directory (a root entry without stream or child), and sector 2
belongs to no chain although its FAT entry is `ENDOFCHAIN`: an orphan sector. -/
def orphanFile : CfbfFile :=
  { header := { e1Header with sectMiniFatStart := CFBF_END_OF_CHAIN, csectMiniFat := 0 },
    file_size := 2048,
    fat := { sector_size := 512,
             get_sector_entry := fun s =>
               [CFBF_FATSECT, CFBF_END_OF_CHAIN, CFBF_END_OF_CHAIN].getD s CFBF_FREESECT },
    mini_fat := { sector_size := 64, get_sector_entry := fun _ => CFBF_FREESECT },
    file_sect := fun _ => none,
    dir_chain := some [[{ e1Root with child_id := CFBF_NOSTREAM,
                                       start_sector := CFBF_END_OF_CHAIN,
                                       stream_size := 0 },
                        unusedEntry, unusedEntry, unusedEntry]],
    utf16_to_utf8_ok := fun _ => true }

/-! ### The stream dump of `main` and the choice of allocation table -/

/-- What the `-r` branch of `main` (lines 290-316 of `cfbf.c`) does with the
result of the lookup: one of its three refusals, or the call
`cfbf_follow_chain (&cfbf, start_sector, stream_size, use_mini, ...)`, whose
fourth argument selects the MiniFAT. -/
inductive DumpAction where
  | notFound
  | rootRefused
  | notStream
  | followChain (start_sector stream_size : Nat) (use_mini : Bool)
deriving DecidableEq, Repr

/-- The `-r` branch of `main`, lines 290-316 of `cfbf.c`; `entry` is the result
of `cfbf_dir_entry_find_path` (`none` for `NULL`). -/
def mainDump (header : Header) (entry : Option DirEntry) : DumpAction :=
  match entry with
  | none => DumpAction.notFound
  | some e =>
    if e.object_type = 5 then DumpAction.rootRefused
    else if e.object_type ≠ 2 then DumpAction.notStream
    else
      DumpAction.followChain e.start_sector e.stream_size
        (decide (e.stream_size < header.ulMiniSectorCutoff))

/-- The function of the missing `cfbf_fat.c` that
`cfbf_dir_entry_get_sector_ptrs` calls. -/
inductive ChainSource where
  | cfbf_get_chain_ptrs_from_mini_stream
  | cfbf_get_chain_ptrs
deriving DecidableEq, Repr

/-- Source `cfbf_dir_entry_get_sector_ptrs`: the function it calls for the
chain and the value it stores in `*sector_size_r`. -/
def cfbf_dir_entry_get_sector_ptrs (header : Header) (entry : DirEntry) :
    ChainSource × Nat :=
  if cfbf_dir_stored_in_mini_stream header entry ≠ 0 then
    (ChainSource.cfbf_get_chain_ptrs_from_mini_stream, cfbf_get_mini_fat_sector_size header)
  else
    (ChainSource.cfbf_get_chain_ptrs, cfbf_get_sector_size header)

/-- An empty stream: type 2, `streamSize = 0`, no sector. -/
def emptyStream : DirEntry :=
  { e1StreamA with start_sector := CFBF_END_OF_CHAIN, stream_size := 0 }

/-! ### A table with a cycle -/

/-- The E1 container with a FAT in which sector 3 is its own successor. -/
def cycleFile : CfbfFile :=
  { e1File with
    fat := { sector_size := 512,
             get_sector_entry := fun s =>
               [CFBF_FATSECT, CFBF_END_OF_CHAIN, CFBF_END_OF_CHAIN, 3].getD s CFBF_FREESECT } }

/-- A stream of 5000 bytes (above the cutoff) that starts in sector 3. -/
def cycleStream : DirEntry :=
  { e1StreamA with start_sector := 3, stream_size := 5000 }

/-! ### Sequences of `visit_sector` calls -/

/-- The arguments of one call of `visit_sector` besides the map and its
size. -/
structure VisitCall where
  sector_num : Nat
  sector_index : Nat
  ent : Option DirEntry
  special : Nat
deriving DecidableEq, Repr

/-- One call of `visit_sector` with the arguments `c`. -/
def visitCall (num_sectors : Nat) (sector_map : List WalkSector) (c : VisitCall) :
    Int × List WalkSector :=
  visit_sector sector_map num_sectors c.sector_num c.sector_index c.ent c.special

/-- A sequence of calls of `visit_sector` on one map: the returned values in
order and the map after the last call. -/
def visitCalls (num_sectors : Nat) :
    List VisitCall → List WalkSector → List Int × List WalkSector
  | [], m => ([], m)
  | c :: cs, m =>
    ((visitCall num_sectors m c).1 :: (visitCalls num_sectors cs (visitCall num_sectors m c).2).1,
      (visitCalls num_sectors cs (visitCall num_sectors m c).2).2)

/-- The map element that lines 67-77 of `visit_sector` make of an all-zero
element for the call `c`. -/
def VisitCall.mark (c : VisitCall) : WalkSector :=
  match c.ent with
  | some e =>
    { entry := some e, sector_index := c.sector_index, is_difsect := false,
      is_fatsect := false, is_visited := true }
  | none =>
    if c.special = CFBF_FATSECT then
      { entry := none, sector_index := 0, is_difsect := false, is_fatsect := true,
        is_visited := true }
    else if c.special = CFBF_DIFSECT then
      { entry := none, sector_index := 0, is_difsect := true, is_fatsect := false,
        is_visited := true }
    else
      { entry := none, sector_index := 0, is_difsect := false, is_fatsect := false,
        is_visited := true }

/-- The number of kinds recorded in a map element: an owning entry (data),
`is_fatsect`, `is_difsect`. -/
def WalkSector.kinds (w : WalkSector) : Nat :=
  (if w.entry.isSome then 1 else 0) + (if w.is_fatsect then 1 else 0) +
    (if w.is_difsect then 1 else 0)

/-- A map element is all zero until it is visited, has an owner only when
visited, and records at most one kind. -/
def WalkSector.WellMarked (w : WalkSector) : Prop :=
  (w.is_visited = false → w = WalkSector.zero) ∧
  (w.entry.isSome = true → w.is_visited = true) ∧ w.kinds ≤ 1

/-- A map of `n` elements that are all well marked. -/
def MapOk (n : Nat) (m : List WalkSector) : Prop :=
  m.length = n ∧ ∀ S, S < n → (m.getD S WalkSector.zero).WellMarked

/-! ### Containers with a DIFAT sector and a FAT of one page

Three sectors of 512 bytes: sector 0 is the FAT page, sector 1 the directory
and sector 2 (at byte offset 1536) a DIFAT sector whose slots are `FREESECT`;
`csectFat = 1`, `csectDif = 1`, `sectDifStart = 2`. -/

/-- The container whose DIFAT sector ends the chain (`ENDOFCHAIN` in its last
slot). -/
def smallDifatFile : CfbfFile :=
  { header := { e1Header with sectMiniFatStart := CFBF_END_OF_CHAIN, csectMiniFat := 0,
                              sectDifStart := 2, csectDif := 1 },
    file_size := 2048,
    fat := { sector_size := 512,
             get_sector_entry := fun s =>
               [CFBF_FATSECT, CFBF_END_OF_CHAIN, CFBF_DIFSECT].getD s CFBF_FREESECT },
    mini_fat := { sector_size := 64, get_sector_entry := fun _ => CFBF_FREESECT },
    file_sect := fun off =>
      if off = 2044 then some CFBF_END_OF_CHAIN
      else if 1536 ≤ off ∧ off < 2048 then some CFBF_FREESECT
      else none,
    dir_chain := some [[{ e1Root with child_id := CFBF_NOSTREAM,
                                       start_sector := CFBF_END_OF_CHAIN,
                                       stream_size := 0 },
                        unusedEntry, unusedEntry, unusedEntry]],
    utf16_to_utf8_ok := fun _ => true }

/-- The same container with the number of the DIFAT sector itself in its last
slot. -/
def selfDifatFile : CfbfFile :=
  { smallDifatFile with
    file_sect := fun off =>
      if off = 2044 then some 2
      else if 1536 ≤ off ∧ off < 2048 then some CFBF_FREESECT
      else none }

/-- No element of the map is marked as a DIFAT sector. -/
def noDifsect (m : List WalkSector) : Prop :=
  ∀ w ∈ m, w.is_difsect = false

/-! ## Opening a file (`cfbf_open`, `cfbf_file.c`) -/

/-- What `cfbf_open` gets from outside the sources at hand: whether `stat`,
`open` and `mmap` succeed, the size of `struct StructuredStorageHeader`
(missing `cfbf.h`), and the values returned by the three functions of the
missing `cfbf_fat.c` that it calls, as functions of the arguments it passes
(`cfbf_alloc_chain_contents_from_fat` gives `true` for a pointer other than
`NULL`). -/
structure OpenEnv where
  stat_ok : Bool
  fd_ok : Bool
  mmap_ok : Bool
  sizeof_header : Nat
  cfbf_fat_open : List Nat → Nat → Nat → Nat → Nat → Int
  cfbf_mini_fat_open : Nat → Nat → Int
  cfbf_alloc_chain_contents_from_fat : Nat → Nat → Bool

/-- The file that `cfbf_open` maps: its size, its bytes, the header fields
that the overlay of `struct StructuredStorageHeader` on its first bytes gives,
and the `struct DirEntry` overlaid at a byte offset (`none` when the entry does
not lie inside the mapping). -/
structure OpenFile where
  file_size : Nat
  bytes : List Nat
  header : Header
  entry_at : Nat → Option DirEntry

/-- The signature that `cfbf_open` compares with `_abSig` (line 56). -/
def cfbfSignature : List Nat := [0xd0, 0xcf, 0x11, 0xe0, 0xa1, 0xb1, 0x1a, 0xe1]

/-- The 22 bytes `R\0o\0o\0t\0 \0E\0n\0t\0r\0y\0\0\0` of line 91, as 11 UTF-16
code units. -/
def rootEntryName : List Nat := [82, 111, 111, 116, 32, 69, 110, 116, 114, 121, 0]

/-- The value of `num_start_sectors` in `cfbf_open` (lines 61-67):
`num_fat_sectors` is `_csectFat` converted to `unsigned long`, which keeps the
value of a 32-bit field, and the comparison with 109 is unsigned. -/
def openNumStartSectors (header : Header) : Nat :=
  let num_fat_sectors := header.csectFat
  if num_fat_sectors > 109 then 109 else num_fat_sectors

/-- Source `cfbf_open`: the returned `int`. Modelled from the spec for the
layout of the missing `cfbf.h`: `_abSig` is the first field of the header, the
first 8 bytes of the file. -/
def cfbf_open (env : OpenEnv) (f : OpenFile) : Run Int :=
  if env.stat_ok = false then Run.done (-1)
  else if env.fd_ok = false then Run.done (-1)
  else if f.file_size < env.sizeof_header then Run.done (-1)
  else if env.mmap_ok = false then Run.done (-1)
  else if f.bytes.take 8 ≠ cfbfSignature then Run.done (-1)
  else if env.cfbf_fat_open f.header.sectFat (openNumStartSectors f.header)
      f.header.sectDifStart f.header.csectDif f.header.csectFat < 0 then Run.done (-1)
  else if env.cfbf_mini_fat_open f.header.sectMiniFatStart f.header.csectMiniFat < 0 then
    Run.done (-1)
  else
    match cfbf_get_sector_ptr f.header f.file_size f.header.sectDirStart with
    | none => Run.done (-1)
    | some offset =>
      match f.entry_at offset with
      | none => Run.fault
      | some root =>
        if root.name.take 11 ≠ rootEntryName then Run.done (-1)
        else if env.cfbf_alloc_chain_contents_from_fat root.start_sector
            root.stream_size = false then Run.done (-1)
        else Run.done 0

/-- The byte-order mark of the header: the bytes at offsets `0x1c` and `0x1d`
(line 266 of `cfbf.c` prints them under that name). -/
def byteOrderMark (f : OpenFile) : List Nat := (f.bytes.drop 0x1c).take 2

/-- Conversion of a C `int` to `unsigned int`. -/
def intToUnsigned (i : Int) : Nat := (i % 2 ^ 32).toNat

/-- Conversion of a C `unsigned int` to `int`. -/
def unsignedToInt (n : Nat) : Int :=
  if n % 2 ^ 32 < 2 ^ 31 then ((n % 2 ^ 32 : Nat) : Int)
  else ((n % 2 ^ 32 : Nat) : Int) - 2 ^ 32

/-- The value of the `int num_start_fat_sectors` of `cfbf_walk` (lines 219-221)
with the conversions of C: in `num_start_fat_sectors > _csectFat` the `int` is
converted to the unsigned type of `_csectFat`, and the assignment converts
`_csectFat` to `int`. -/
def walkNumStartFatSectorsC (csectFat : Nat) : Int :=
  let num_start_fat_sectors : Int := 109
  if intToUnsigned num_start_fat_sectors > csectFat % 2 ^ 32 then unsignedToInt csectFat
  else num_start_fat_sectors

/-- An environment in which every call made by `cfbf_open` succeeds; the
header has 512 bytes. -/
def okEnv : OpenEnv :=
  { stat_ok := true, fd_ok := true, mmap_ok := true, sizeof_header := 512,
    cfbf_fat_open := fun _ _ _ _ _ => 0,
    cfbf_mini_fat_open := fun _ _ => 0,
    cfbf_alloc_chain_contents_from_fat := fun _ _ => true }

/-- A file of 2560 bytes with the signature, the header of E1 and the root
entry of E1 in sector 1 (byte offset 1024); every byte after the signature is
zero, so the byte-order mark is `00 00`. -/
def noBomFile : OpenFile :=
  { file_size := 2560,
    bytes := cfbfSignature ++ List.replicate 2552 0,
    header := e1Header,
    entry_at := fun off => if off = 1024 then some e1Root else none }

/-- A file of 1024 bytes with the signature and `uSectorShift = 6` (sectors
of 64 bytes); its directory starts in sector 8 (byte offset 576). -/
def smallSectorFile : OpenFile :=
  { file_size := 1024,
    bytes := cfbfSignature ++ [0, 0, 0, 0, 0, 0, 0, 0, 0, 0, 0, 0, 0, 0, 0, 0, 0, 0, 0, 0,
      0xfe, 0xff] ++ List.replicate 994 0,
    header := { e1Header with uSectorShift := 6, sectDirStart := 8 },
    entry_at := fun off => if off = 576 then some e1Root else none }

/-! ## Path lookup from a UTF-8 path (`cfbf_dir_entry_find_path`) -/

/-- What `cfbf_dir_entry_find_path` gets from the C library: whether `malloc`
and `iconv_open` succeed, and the UTF-16LE code units that `iconv` makes of the
UTF-8 bytes (`none` when the conversion fails). -/
structure IconvEnv where
  malloc_ok : Bool
  iconv_open_ok : Bool
  iconv : List Nat → Option (List Nat)

/-- Source `cfbf_dir_entry_find_path`. `sought_path_utf8` holds the bytes of
the C string before its terminator. The buffer has `strlen * 4` bytes: the
write of the terminating code unit after the converted path is a fault when it
falls outside the buffer; after a failed conversion the buffer has no
terminator and the lookup reads it all the same, which is a fault too. -/
def cfbf_dir_entry_find_path (env : IconvEnv) (header : Header)
    (dir_chain : Option (List (List DirEntry))) (fuel : Nat)
    (sought_path_utf8 : List Nat) : Run (Option Nat) :=
  match dir_chain with
  | none => Run.done none
  | some chain =>
    let sought_path_utf16_max := sought_path_utf8.length * 4
    if env.malloc_ok = false then Run.done none
    else if env.iconv_open_ok = false then Run.done none
    else
      match env.iconv sought_path_utf8 with
      | none => Run.fault
      | some units =>
        if 2 * units.length + 2 > sought_path_utf16_max then Run.fault
        else
          cfbf_find_path_in_tree chain (cfbf_get_sector_size header / sizeofDirEntry)
            fuel 0 units

/-- The loop of `main` (lines 186-189 of `cfbf.c`) that advances the argument
of `-r` past its leading `/` characters. -/
def skipLeadingSlashes : List Nat → List Nat
  | [] => []
  | c :: s => if c = 47 then skipLeadingSlashes s else c :: s

/-- The lookup that `main` makes for `-r optarg` (lines 182-190 and 291). -/
def mainDumpLookup (env : IconvEnv) (header : Header)
    (dir_chain : Option (List (List DirEntry))) (fuel : Nat) (optarg : List Nat) :
    Run (Option Nat) :=
  cfbf_dir_entry_find_path env header dir_chain fuel (skipLeadingSlashes optarg)

/-- The conversion of `iconv` on ASCII text, where every byte becomes the code
unit of the same value; no answer is modelled for other bytes. -/
def asciiEnv : IconvEnv :=
  { malloc_ok := true, iconv_open_ok := true,
    iconv := fun s => if s.all (fun b => decide (0 < b ∧ b < 128)) then some s else none }

/-! ### UTF-8 and UTF-16 encodings of a path

`iconv` belongs to the C library, not to the sources; the lengths of the two
encodings of a code point are those of the Unicode standard. -/

/-- The UTF-8 bytes of the code point `c`. -/
def utf8Encode1 (c : Nat) : List Nat :=
  if c < 0x80 then [c]
  else if c < 0x800 then [0xC0 + c / 64, 0x80 + c % 64]
  else if c < 0x10000 then [0xE0 + c / 4096, 0x80 + c / 64 % 64, 0x80 + c % 64]
  else [0xF0 + c / 262144, 0x80 + c / 4096 % 64, 0x80 + c / 64 % 64, 0x80 + c % 64]

/-- The UTF-16 code units of the code point `c`: one unit in the basic plane, a
surrogate pair above it. -/
def utf16Encode1 (c : Nat) : List Nat :=
  if c < 0x10000 then [c]
  else [0xD800 + (c - 0x10000) / 1024, 0xDC00 + (c - 0x10000) % 1024]

/-- The UTF-8 bytes of a path given by its code points. -/
def utf8Encode (cs : List Nat) : List Nat := cs.flatMap utf8Encode1

/-- The UTF-16 code units of a path given by its code points. -/
def utf16Encode (cs : List Nat) : List Nat := cs.flatMap utf16Encode1

/-- The number of bytes that `cfbf_dir_entry_find_path` allocates for the
UTF-16 path (line 128): `strlen (sought_path_utf8) * 4`. -/
def utf16BufferSize (sought_path_utf8 : List Nat) : Nat := sought_path_utf8.length * 4

/-- The number of bytes that `cfbf_dir_entry_find_path` writes into the buffer
when the conversion gives `units` (lines 146-152): two bytes for each code unit
and the two bytes of the terminator. -/
def utf16BytesWritten (units : List Nat) : Nat := 2 * units.length + 2

/-! ### The sectors that `visit_sector` accepts on a walk of a chain -/

/-- The call of `visit_sector` for the `i`-th sector of the chain from `start`
is accepted when the sectors before it were: the sector lies on the map, its
element of the map `m` that the walk received has no owner and is not visited,
and no earlier sector of the chain is the same sector (the walk would have
marked it by then). -/
def sectorAccepted (fat : Fat) (m : List WalkSector) (num_sectors start i : Nat) : Prop :=
  chainSector fat start i < num_sectors ∧
  (m.getD (chainSector fat start i) WalkSector.zero).entry = none ∧
  (m.getD (chainSector fat start i) WalkSector.zero).is_visited = false ∧
  ∀ j < i, chainSector fat start j ≠ chainSector fat start i

/-- No sector of the chain is rejected by `visit_sector`: the loop of
`cfbf_walk_entry` calls `visit_sector` on the `i`-th sector of the chain when
`i ≤ c` (`c` being `ceil (streamSize / s)`) and the sectors `0 .. i` of the
chain are not `ENDOFCHAIN`; each of these calls is accepted. -/
def chainAccepted (fat : Fat) (m : List WalkSector) (num_sectors start c : Nat) : Prop :=
  ∀ i ≤ c, (∀ j ≤ i, chainSector fat start j ≠ CFBF_END_OF_CHAIN) →
    sectorAccepted fat m num_sectors start i

/-! ### The sector walk with its anomalies -/

theorem strlen_utf16_le (s : List Nat) : strlen_utf16 s ≤ s.length := by
  induction s with
  | nil => simp [strlen_utf16]
  | cons c s ih =>
    unfold strlen_utf16
    split
    · simp
    · simp; omega

theorem strlen_utf16_nonzero (s : List Nat) :
    ∀ x ∈ s.take (strlen_utf16 s), x ≠ 0 := by
  induction s with
  | nil => simp
  | cons c s ih =>
    unfold strlen_utf16
    split
    · simp
    · rename_i hc
      intro x hx
      simp only [List.take_succ_cons, List.mem_cons] at hx
      rcases hx with rfl | hx
      · exact hc
      · exact ih x hx

theorem strchr_utf16_le (s : List Nat) (c k : Nat)
    (h : strchr_utf16 s c = some k) : k < s.length := by
  induction s generalizing k with
  | nil => simp [strchr_utf16] at h
  | cons x s ih =>
    unfold strchr_utf16 at h
    split at h
    · simp at h
    · split at h
      · simp at h; subst h; simp
      · simp only [Option.map_eq_some'] at h
        obtain ⟨j, hj, rfl⟩ := h
        have := ih j hj
        simp; omega

theorem strchr_utf16_nonzero (s : List Nat) (c k : Nat)
    (h : strchr_utf16 s c = some k) : ∀ x ∈ s.take k, x ≠ 0 ∧ x ≠ c := by
  induction s generalizing k with
  | nil => simp [strchr_utf16] at h
  | cons x s ih =>
    unfold strchr_utf16 at h
    split at h
    · simp at h
    · rename_i hx0
      split at h
      · simp at h; subst h; simp
      · rename_i hxc
        simp only [Option.map_eq_some'] at h
        obtain ⟨j, hj, rfl⟩ := h
        intro y hy
        simp only [List.take_succ_cons, List.mem_cons] at hy
        rcases hy with rfl | hy
        · exact ⟨hx0, hxc⟩
        · exact ih j hj y hy

theorem strchr_utf16_get (s : List Nat) (c k : Nat)
    (h : strchr_utf16 s c = some k) : s[k]? = some c := by
  induction s generalizing k with
  | nil => simp [strchr_utf16] at h
  | cons x s ih =>
    unfold strchr_utf16 at h
    split at h
    · simp at h
    · split at h
      · rename_i hxc
        simp at h; subst h; simp [hxc]
      · simp only [Option.map_eq_some'] at h
        obtain ⟨j, hj, rfl⟩ := h
        simpa using ih j hj

/-- The first component of a path lies inside the path and holds no NUL. -/
theorem pathComponent_spec (path : List Nat) :
    (pathComponent path).1 ≤ path.length ∧
      ∀ x ∈ path.take (pathComponent path).1, x ≠ 0 := by
  unfold pathComponent
  split
  · rename_i k hk
    exact ⟨Nat.le_of_lt (strchr_utf16_le _ _ _ hk),
      fun x hx => (strchr_utf16_nonzero _ _ _ hk x hx).1⟩
  · exact ⟨strlen_utf16_le _, strlen_utf16_nonzero _⟩

theorem firstComponent_length (path : List Nat) :
    (firstComponent path).length = (pathComponent path).1 := by
  unfold firstComponent
  simp [List.length_take, (pathComponent_spec path).1]

/-- On a string whose first `n` code units are not NUL, and a name array of at
least `n` code units, `strncmp_utf16` is the comparison of the first `n` code
units. -/
theorem strncmp_utf16_eq_zero_iff (s1 s2 : List Nat) (n : Nat)
    (h1 : n ≤ s1.length) (hnz : ∀ x ∈ s1.take n, x ≠ 0) (h2 : n ≤ s2.length) :
    ∃ r, strncmp_utf16 s1 s2 n = some r ∧ (r = 0 ↔ s1.take n = s2.take n) := by
  induction n generalizing s1 s2 with
  | zero => exact ⟨0, by simp [strncmp_utf16]⟩
  | succ n ih =>
    cases s2 with
    | nil => simp at h2
    | cons b s2 =>
      cases s1 with
      | nil => simp at h1
      | cons a s1 =>
        have ha : a ≠ 0 := hnz a (by simp)
        simp only [strncmp_utf16, List.headD_cons, List.tail_cons]
        by_cases hlt : a < b
        · refine ⟨-1, by simp [hlt], ?_⟩
          simp only [List.take_succ_cons, List.cons.injEq]
          constructor
          · intro h; simp at h
          · intro h; omega
        · by_cases hgt : a > b
          · refine ⟨1, by simp [hlt, hgt], ?_⟩
            simp only [List.take_succ_cons, List.cons.injEq]
            constructor
            · intro h; simp at h
            · intro h; omega
          · have hab : a = b := by omega
            obtain ⟨r, hr, hiff⟩ := ih s1 s2 (by simpa using h1)
              (fun x hx => hnz x (by simp [List.take_succ_cons, hx]))
              (by simpa using h2)
            refine ⟨r, by simp [hlt, hgt, ha, hr], ?_⟩
            simp only [List.take_succ_cons, List.cons.injEq, hab, true_and]
            exact hiff

/-- C's `(name_length - 1) / 2` on the promoted `int` is the truncated natural
number quotient. -/
theorem tdiv_name_length (n : Nat) :
    Int.tdiv ((n : Int) - 1) 2 = (((n - 1) / 2 : Nat) : Int) := by
  cases n with
  | zero => decide
  | succ m =>
    have : ((m + 1 : Nat) : Int) - 1 = (m : Int) := by push_cast; ring
    rw [this]
    simp [Int.tdiv]

/-! ### C5: the mini-stream predicate -/

/-- C5: `cfbf_dir_stored_in_mini_stream` returns 1 exactly when the entry is a
stream (`objectType == 2`) with `0 < streamSize < cutoff` and 0 otherwise; a
stream of exactly the cutoff size and an empty stream give 0. -/
theorem stored_in_mini_stream_spec (header : Header) (entry : DirEntry) :
    (cfbf_dir_stored_in_mini_stream header entry = 1 ↔
      (entry.object_type = 2 ∧ 0 < entry.stream_size ∧
        entry.stream_size < header.ulMiniSectorCutoff)) ∧
    (cfbf_dir_stored_in_mini_stream header entry = 0 ↔
      ¬ (entry.object_type = 2 ∧ 0 < entry.stream_size ∧
        entry.stream_size < header.ulMiniSectorCutoff)) ∧
    cfbf_dir_stored_in_mini_stream header
      { entry with stream_size := header.ulMiniSectorCutoff } = 0 ∧
    cfbf_dir_stored_in_mini_stream header { entry with stream_size := 0 } = 0 := by
  unfold cfbf_dir_stored_in_mini_stream
  refine ⟨?_, ?_, ?_, ?_⟩
  · split <;> simp_all
  · split <;> simp_all
  · simp
  · simp

/-! ### C4: the name comparison of the path lookup -/

/-- C4 (as stated, refuted): an entry with `nameLength = 3` is treated as
matching the one-unit component `A`, and the lookup returns it, although a
3-byte name with its trailing NUL has no whole number of code units and so is
not the component in the sense of the specification. -/
theorem nameMatches_odd_length_counterexample :
    nameMatches oddLengthEntry [65] (pathComponent [65]).1 = some true ∧
    cfbf_find_path_in_tree [[oddLengthEntry]] 1 1 0 [65] = Run.done (some 0) ∧
    ¬ specNameEquals oddLengthEntry (firstComponent [65]) := by
  decide

/-- When the compared code units lie inside the name field, the test of the
lookup is the comparison of the component with the first `(nameLength - 1) / 2`
code units of the name field. -/
theorem nameMatches_eq_decide (e : DirEntry) (path : List Nat)
    (h : e.name_length ≤ 2 * e.name.length + 2) :
    nameMatches e path (pathComponent path).1 =
      some (decide ((e.name_length - 1) / 2 = (firstComponent path).length ∧
        e.name.take ((e.name_length - 1) / 2) = firstComponent path)) := by
  have hlen := firstComponent_length path
  unfold nameMatches
  rw [tdiv_name_length, hlen]
  by_cases heq : (e.name_length - 1) / 2 = (pathComponent path).1
  · have hn : (pathComponent path).1 ≤ e.name.length := by omega
    obtain ⟨r, hr, hiff⟩ := strncmp_utf16_eq_zero_iff path e.name
      (pathComponent path).1 (pathComponent_spec path).1
      (pathComponent_spec path).2 hn
    have hcast : (((e.name_length - 1) / 2 : Nat) : Int) =
        ((pathComponent path).1 : Int) := by exact_mod_cast heq
    rw [if_pos hcast, hr]
    simp only [Option.some.injEq, heq, true_and]
    unfold firstComponent
    by_cases hr0 : r = 0
    · have := hiff.1 hr0
      simp [hr0, this]
    · have : ¬ (List.take (pathComponent path).1 e.name =
          List.take (pathComponent path).1 path) := fun hc => hr0 (hiff.2 hc.symm)
      simp [hr0, this]
  · have hcast : ¬ ((((e.name_length - 1) / 2 : Nat) : Int) =
        ((pathComponent path).1 : Int)) := by
      intro hc; exact heq (by exact_mod_cast hc)
    rw [if_neg hcast]
    simp [heq]

/-- C4 (amended): whenever the compared code units lie inside the name field
(`nameLength ≤ 2 * 32 + 2 = 66` for the 32-unit field), the entry matches the
first path component exactly when the component has `(nameLength - 1) / 2` code
units (C division: 0 for `nameLength` 0 and 1) and these are the first code
units of the name field; for an even `nameLength ≥ 2` that is the name in the
sense of the specification, of `nameLength / 2 - 1` code units. -/
theorem nameMatches_spec (e : DirEntry) (path : List Nat)
    (h : e.name_length ≤ 2 * e.name.length + 2) :
    nameMatches e path (pathComponent path).1 =
      some (decide ((e.name_length - 1) / 2 = (firstComponent path).length ∧
        e.name.take ((e.name_length - 1) / 2) = firstComponent path)) ∧
    (e.name_length % 2 = 0 → 2 ≤ e.name_length →
      (nameMatches e path (pathComponent path).1 = some true ↔
        specNameEquals e (firstComponent path))) := by
  have hmain := nameMatches_eq_decide e path h
  refine ⟨hmain, ?_⟩
  intro heven hge
  rw [hmain]
  unfold specNameEquals
  have hhalf : (e.name_length - 1) / 2 = (firstComponent path).length ↔
      e.name_length = 2 * ((firstComponent path).length + 1) := by omega
  constructor
  · intro hd
    simp only [Option.some.injEq, decide_eq_true_eq] at hd
    exact ⟨hhalf.1 hd.1, by rw [← hd.1]; exact hd.2⟩
  · intro hs
    have h1 := hhalf.2 hs.1
    simp only [Option.some.injEq, decide_eq_true_eq]
    exact ⟨h1, by rw [h1]; exact hs.2⟩

/-- C4 (amended), at the entry named `A` and the path `A/B`. -/
theorem nameMatches_spec_witness :
    entryNamedA.name_length ≤ 2 * entryNamedA.name.length + 2 ∧
    nameMatches entryNamedA [65, 47, 66] (pathComponent [65, 47, 66]).1 = some true ∧
    specNameEquals entryNamedA (firstComponent [65, 47, 66]) := by
  have h := nameMatches_spec entryNamedA [65, 47, 66] (by decide)
  have hm : nameMatches entryNamedA [65, 47, 66] (pathComponent [65, 47, 66]).1 =
      some true := by decide
  exact ⟨by decide, hm, (h.2 (by decide) (by decide)).1 hm⟩

/-! ### C6: chain length and byte count of `cfbf_walk_entry` -/

theorem retval_eq_zero_iff (x : WalkEntryExit) :
    x.retval = 0 ↔ x = WalkEntryExit.ok := by
  cases x <;> simp [WalkEntryExit.retval]

theorem chainSector_succ (fat : Fat) (start i : Nat) :
    chainSector fat start (i + 1) = fat.get_sector_entry (chainSector fat start i) := by
  unfold chainSector
  exact Function.iterate_succ_apply' _ _ _

theorem chainHasLength_unique (fat : Fat) (start n m : Nat)
    (hn : chainHasLength fat start n) (hm : chainHasLength fat start m) : n = m := by
  rcases Nat.lt_trichotomy n m with h | h | h
  · exact absurd hn.1 (hm.2 n h)
  · exact h
  · exact absurd hm.1 (hn.2 m h)

theorem lt_ceilDiv_iff (size s k : Nat) (hs : 1 ≤ s) :
    k < ceilDiv size s ↔ k * s < size := by
  unfold ceilDiv
  rw [Nat.lt_iff_add_one_le, Nat.le_div_iff_mul_le (by omega), Nat.add_mul]
  omega

/-- Invariant of the loop of `cfbf_walk_entry`: at the `k`-th iteration the
sector is the `k`-th of the chain and `min (k * s) streamSize` bytes are
counted; the loop ends within `ceilDiv streamSize s + 1` iterations. -/
theorem walk_entry_loop_spec (fat : Fat) (use_mini : Bool) (num_sectors : Nat)
    (ent : DirEntry) (hs : 1 ≤ fat.sector_size) (start : Nat) :
    ∀ (fuel k sect : Nat) (m : List WalkSector) (idx b last ex : Nat),
      sect = chainSector fat start k →
      b = min (k * fat.sector_size) ent.stream_size →
      k ≤ ceilDiv ent.stream_size fat.sector_size →
      (∀ i < k, chainSector fat start i ≠ CFBF_END_OF_CHAIN) →
      ceilDiv ent.stream_size fat.sector_size + 1 ≤ fuel + k →
      ex = k →
      ∃ r, cfbf_walk_entry_loop fat use_mini num_sectors ent fuel sect m idx b
          last ex = Run.done r ∧
        r.sectors_examined ≤ ceilDiv ent.stream_size fat.sector_size + 1 ∧
        (r.exit ≠ WalkEntryExit.visitRejected →
          ((r.exit = WalkEntryExit.ok ↔
              chainHasLength fat start (ceilDiv ent.stream_size fat.sector_size)) ∧
            (r.exit = WalkEntryExit.ok → r.bytes_read = ent.stream_size))) := by
  intro fuel
  induction fuel with
  | zero =>
    intro k sect m idx b last ex _ _ hk _ hf _
    omega
  | succ fuel ih =>
    intro k sect m idx b last ex hsect hb hk hprev hf hex
    have hlt := lt_ceilDiv_iff ent.stream_size fat.sector_size k hs
    have hge_iff : ent.stream_size ≤ b → k = ceilDiv ent.stream_size fat.sector_size := by
      intro hge
      have h1 : ¬ k * fat.sector_size < ent.stream_size := by omega
      have h2 := mt hlt.1 h1
      omega
    unfold cfbf_walk_entry_loop
    by_cases heoc : sect = CFBF_END_OF_CHAIN
    · rw [if_pos heoc]
      have hchain : chainHasLength fat start k := ⟨by rw [← hsect]; exact heoc, hprev⟩
      by_cases hbs : b = ent.stream_size
      · have hkL := hge_iff (by omega)
        have hne : ¬ (b ≠ ent.stream_size) := fun h => h hbs
        rw [if_neg hne]
        refine ⟨_, rfl, by dsimp only; omega, fun _ => ?_⟩
        dsimp only
        exact ⟨⟨fun _ => hkL ▸ hchain, fun _ => rfl⟩, fun _ => hbs⟩
      · rw [if_pos hbs]
        refine ⟨_, rfl, by dsimp only; omega, fun _ => ?_⟩
        show (WalkEntryExit.lengthMismatch = WalkEntryExit.ok ↔ _) ∧
          (WalkEntryExit.lengthMismatch = WalkEntryExit.ok → _)
        refine ⟨⟨(fun h => by cases h), fun h => ?_⟩, (fun h => by cases h)⟩
        have hkL := chainHasLength_unique _ _ _ _ hchain h
        have : ¬ k * fat.sector_size < ent.stream_size := by
          intro hc; have := hlt.2 hc; omega
        omega
    · rw [if_neg heoc]
      dsimp only
      generalize (if use_mini = true then ((0 : Int), m)
        else visit_sector m num_sectors sect idx (some ent) 0) = v
      by_cases hv : v.1 < 0
      · rw [if_pos hv]
        exact ⟨_, rfl, by dsimp only; omega, fun h => absurd rfl h⟩
      · rw [if_neg hv]
        by_cases hge : b ≥ ent.stream_size
        · rw [if_pos hge]
          have hkL := hge_iff hge
          refine ⟨_, rfl, by dsimp only; omega, fun _ => ?_⟩
          show (WalkEntryExit.moreSectors = WalkEntryExit.ok ↔ _) ∧
            (WalkEntryExit.moreSectors = WalkEntryExit.ok → _)
          refine ⟨⟨(fun h => by cases h), fun h => ?_⟩, (fun h => by cases h)⟩
          have h1 := h.1
          rw [← hkL, ← hsect] at h1
          exact absurd h1 heoc
        · rw [if_neg hge]
          have hklt : k * fat.sector_size < ent.stream_size := by omega
          have hk1 := hlt.2 hklt
          apply ih (k + 1)
          · rw [chainSector_succ, ← hsect]
          · rw [Nat.add_mul, Nat.one_mul]
            split <;> omega
          · omega
          · intro i hi
            rcases Nat.lt_succ_iff_lt_or_eq.1 hi with h | h
            · exact hprev i h
            · rw [h, ← hsect]; exact heoc
          · omega
          · omega

/-! ### `visit_sector` -/

/-- The two ways `visit_sector` ends: a rejection that leaves the map as it
is, or a success that rewrites the element of `sector_num` only. -/
theorem visit_sector_cases (m : List WalkSector) (n s idx : Nat)
    (ent : Option DirEntry) (sp : Nat) :
    ((visit_sector m n s idx ent sp).1 = -1 ∧ (visit_sector m n s idx ent sp).2 = m ∧
      (n ≤ s ∨ (m.getD s WalkSector.zero).entry.isSome = true ∨
        (m.getD s WalkSector.zero).is_visited = true)) ∨
    ((visit_sector m n s idx ent sp).1 = 0 ∧ s < n ∧
      (m.getD s WalkSector.zero).entry = none ∧
      (m.getD s WalkSector.zero).is_visited = false ∧
      ∃ w, (visit_sector m n s idx ent sp).2 = m.set s w ∧ w.is_visited = true ∧
        (∀ e, ent = some e → w.entry = some e ∧ w.sector_index = idx) ∧
        (ent = none → w.entry = none)) := by
  unfold visit_sector
  by_cases h1 : s ≥ n
  · left; rw [if_pos h1]; exact ⟨rfl, rfl, Or.inl h1⟩
  · rw [if_neg h1]
    dsimp only
    by_cases h2 : (m.getD s WalkSector.zero).entry.isSome = true
    · left; rw [if_pos h2]; exact ⟨rfl, rfl, Or.inr (Or.inl h2)⟩
    · rw [if_neg h2]
      by_cases h3 : (m.getD s WalkSector.zero).is_visited = true
      · left; rw [if_pos h3]; exact ⟨rfl, rfl, Or.inr (Or.inr h3)⟩
      · rw [if_neg h3]
        right
        have h2n : (m.getD s WalkSector.zero).entry = none := by
          cases h : (m.getD s WalkSector.zero).entry with
          | none => rfl
          | some x => rw [h] at h2; simp at h2
        refine ⟨rfl, by omega, h2n, by simpa using h3, _, rfl, rfl, ?_, ?_⟩
        · intro e he; subst he; exact ⟨rfl, rfl⟩
        · intro he; subst he
          dsimp only
          split
          · exact h2n
          · split
            · exact h2n
            · exact h2n

theorem visit_sector_length (m : List WalkSector) (n s idx : Nat)
    (ent : Option DirEntry) (sp : Nat) :
    (visit_sector m n s idx ent sp).2.length = m.length := by
  rcases visit_sector_cases m n s idx ent sp with ⟨_, h, _⟩ | ⟨_, _, _, _, w, h, _⟩
  · rw [h]
  · rw [h, List.length_set]

/-- An injective family of `k` numbers below `n` has `k ≤ n`. -/
theorem injective_bounded_le (f : Nat → Nat) (k n : Nat)
    (hb : ∀ i < k, f i < n) (hinj : ∀ i < k, ∀ j < k, f i = f j → i = j) : k ≤ n := by
  have h := Finset.card_le_card_of_injOn (s := Finset.range k) (t := Finset.range n) f
    (fun a ha => Finset.mem_range.2 (hb a (Finset.mem_range.1 ha)))
    (fun a ha b hb2 hab => hinj a (Finset.mem_range.1 ha) b (Finset.mem_range.1 hb2) hab)
  simpa using h

/-! ### C9: which table `cfbf_walk_entry` follows, and what it marks -/

/-- With the MiniFAT the loop of `cfbf_walk_entry` never touches the map. -/
theorem walk_entry_loop_mini_map (fat : Fat) (num_sectors : Nat) (ent : DirEntry) :
    ∀ (fuel sect : Nat) (m : List WalkSector) (idx b last ex : Nat)
      (r : WalkEntryResult),
      cfbf_walk_entry_loop fat true num_sectors ent fuel sect m idx b last ex =
        Run.done r → r.sector_map = m := by
  intro fuel
  induction fuel with
  | zero => intro sect m idx b last ex r h; simp [cfbf_walk_entry_loop] at h
  | succ fuel ih =>
    intro sect m idx b last ex r h
    unfold cfbf_walk_entry_loop at h
    by_cases heoc : sect = CFBF_END_OF_CHAIN
    · rw [if_pos heoc] at h
      cases h; rfl
    · rw [if_neg heoc] at h
      simp only [if_true, lt_self_iff_false, if_false] at h
      by_cases hge : b ≥ ent.stream_size
      · rw [if_pos hge] at h
        cases h; rfl
      · rw [if_neg hge] at h
        exact ih _ _ _ _ _ _ _ h

/-- Invariant of the loop of `cfbf_walk_entry` on the main FAT: after `k`
iterations the first `k` sectors of the chain are distinct, lie in the map and
are marked with the entry and their index. -/
theorem walk_entry_loop_marks (fat : Fat) (num_sectors : Nat) (ent : DirEntry)
    (start : Nat) (hn : num_sectors < 2 ^ 32) :
    ∀ (fuel k sect : Nat) (m : List WalkSector) (idx b last ex : Nat)
      (r : WalkEntryResult),
      sect = chainSector fat start k → idx = k → ex = k →
      num_sectors ≤ m.length →
      (∀ i < k, chainSector fat start i < num_sectors ∧
        ∃ w, m[chainSector fat start i]? = some w ∧ w.entry = some ent ∧
          w.sector_index = i ∧ w.is_visited = true) →
      (∀ i < k, ∀ j < k, chainSector fat start i = chainSector fat start j → i = j) →
      cfbf_walk_entry_loop fat false num_sectors ent fuel sect m idx b last ex =
        Run.done r →
      ∀ i < r.sectors_marked,
        ∃ w, r.sector_map[chainSector fat start i]? = some w ∧ w.entry = some ent ∧
          w.sector_index = i ∧ w.is_visited = true := by
  intro fuel
  induction fuel with
  | zero => intro k sect m idx b last ex r _ _ _ _ _ _ h; simp [cfbf_walk_entry_loop] at h
  | succ fuel ih =>
    intro k sect m idx b last ex r hsect hidx hex hlen hmarks hinj h
    unfold cfbf_walk_entry_loop at h
    by_cases heoc : sect = CFBF_END_OF_CHAIN
    · rw [if_pos heoc] at h
      cases h
      intro i hi
      have hne : (if b ≠ ent.stream_size then WalkEntryExit.lengthMismatch
          else WalkEntryExit.ok) ≠ WalkEntryExit.visitRejected := by
        split <;> simp
      simp only [WalkEntryResult.sectors_marked, if_neg hne] at hi
      exact (hmarks i (by omega)).2
    · rw [if_neg heoc] at h
      simp only [Bool.false_eq_true, if_false] at h
      rcases visit_sector_cases m num_sectors sect idx (some ent) 0 with
        ⟨h1, h2, _⟩ | ⟨h1, hlt, hent, hvis, w, hw, hwv, hwe, _⟩
      · rw [if_pos (by rw [h1]; decide), h2] at h
        cases h
        intro i hi
        simp only [WalkEntryResult.sectors_marked, if_true] at hi
        exact (hmarks i (by omega)).2
      · rw [if_neg (by rw [h1]; decide), hw] at h
        have hfresh : ∀ i < k, chainSector fat start i ≠ sect := by
          intro i hi hc
          obtain ⟨_, w0, hw0, _, _, hv0⟩ := hmarks i hi
          rw [hc] at hw0
          rw [List.getD_eq_getElem?_getD, hw0] at hvis
          simp only [Option.getD_some] at hvis
          rw [hvis] at hv0
          cases hv0
        have hmarks1 : ∀ i < k + 1, chainSector fat start i < num_sectors ∧
            ∃ w1, (m.set sect w)[chainSector fat start i]? = some w1 ∧
              w1.entry = some ent ∧ w1.sector_index = i ∧ w1.is_visited = true := by
          intro i hi
          rcases Nat.lt_succ_iff_lt_or_eq.1 hi with hik | hik
          · refine ⟨(hmarks i hik).1, ?_⟩
            rw [List.getElem?_set_ne (Ne.symm (hfresh i hik))]
            exact (hmarks i hik).2
          · subst hik
            rw [← hsect]
            refine ⟨hlt, w, ?_, (hwe ent rfl).1, ?_, hwv⟩
            · exact List.getElem?_set_self (by omega)
            · rw [(hwe ent rfl).2, hidx]
        have hinj1 : ∀ i < k + 1, ∀ j < k + 1,
            chainSector fat start i = chainSector fat start j → i = j := by
          intro i hi j hj hij
          rcases Nat.lt_succ_iff_lt_or_eq.1 hi with hik | hik
          · rcases Nat.lt_succ_iff_lt_or_eq.1 hj with hjk | hjk
            · exact hinj i hik j hjk hij
            · subst hjk
              rw [← hsect] at hij
              exact absurd hij (hfresh i hik)
          · rcases Nat.lt_succ_iff_lt_or_eq.1 hj with hjk | hjk
            · subst hik
              rw [← hsect] at hij
              exact absurd hij.symm (hfresh j hjk)
            · omega
        have hk1 : k + 1 ≤ num_sectors :=
          injective_bounded_le (chainSector fat start) (k + 1) num_sectors
            (fun i hi => (hmarks1 i hi).1) hinj1
        by_cases hge : b ≥ ent.stream_size
        · rw [if_pos hge] at h
          cases h
          intro i hi
          have hne : WalkEntryExit.moreSectors ≠ WalkEntryExit.visitRejected := by simp
          simp only [WalkEntryResult.sectors_marked, if_neg hne] at hi
          exact (hmarks1 i (by omega)).2
        · rw [if_neg hge] at h
          refine ih (k + 1) _ _ _ _ _ _ r ?_ ?_ ?_ ?_ hmarks1 hinj1 h
          · rw [chainSector_succ, ← hsect]
          · rw [hidx]; exact Nat.mod_eq_of_lt (by omega)
          · omega
          · rw [List.length_set]; exact hlen

/-! ### C7: a sector shared by two chains of the main FAT -/

theorem chainSector_shift (fat : Fat) (start i : Nat) :
    chainSector fat (fat.get_sector_entry start) i = chainSector fat start (i + 1) := by
  unfold chainSector
  exact (Function.iterate_succ_apply _ _ _).symm

theorem visit_sector_preserves_visited (m : List WalkSector) (n s idx : Nat)
    (ent : Option DirEntry) (sp S : Nat) (h : isVisited m S) :
    isVisited (visit_sector m n s idx ent sp).2 S := by
  rcases visit_sector_cases m n s idx ent sp with ⟨_, h2, _⟩ | ⟨_, _, _, hv, w, hw, hwv, _⟩
  · rw [h2]; exact h
  · rw [hw]
    unfold isVisited at *
    rw [List.getD_eq_getElem?_getD] at *
    by_cases hs : s = S
    · subst hs
      rw [h] at hv; cases hv
    · rw [List.getElem?_set_ne hs]; exact h

theorem visit_sector_rejects_visited (m : List WalkSector) (n s idx : Nat)
    (ent : Option DirEntry) (sp : Nat) (h : isVisited m s) :
    (visit_sector m n s idx ent sp).1 < 0 := by
  rcases visit_sector_cases m n s idx ent sp with ⟨h1, _, _⟩ | ⟨_, _, _, hv, _⟩
  · rw [h1]; decide
  · unfold isVisited at h
    rw [h] at hv; cases hv

theorem visit_sector_marks (m : List WalkSector) (n s idx : Nat)
    (ent : Option DirEntry) (sp : Nat) (hlen : n ≤ m.length)
    (h : ¬ (visit_sector m n s idx ent sp).1 < 0) :
    isVisited (visit_sector m n s idx ent sp).2 s := by
  rcases visit_sector_cases m n s idx ent sp with ⟨h1, _, _⟩ | ⟨_, hlt, _, _, w, hw, hwv, _⟩
  · rw [h1] at h; exact absurd (by decide) h
  · rw [hw]
    unfold isVisited
    rw [List.getD_eq_getElem?_getD, List.getElem?_set_self (by omega)]
    exact hwv

/-- The loop of `cfbf_walk_entry` keeps the length of the map and the marks it
finds in it. -/
theorem walk_entry_loop_preserves (fat : Fat) (use_mini : Bool) (num_sectors : Nat)
    (ent : DirEntry) :
    ∀ (fuel sect : Nat) (m : List WalkSector) (idx b last ex : Nat)
      (r : WalkEntryResult),
      cfbf_walk_entry_loop fat use_mini num_sectors ent fuel sect m idx b last ex =
        Run.done r →
      r.sector_map.length = m.length ∧ ∀ S, isVisited m S → isVisited r.sector_map S := by
  intro fuel
  induction fuel with
  | zero => intro sect m idx b last ex r h; simp [cfbf_walk_entry_loop] at h
  | succ fuel ih =>
    intro sect m idx b last ex r h
    unfold cfbf_walk_entry_loop at h
    by_cases heoc : sect = CFBF_END_OF_CHAIN
    · rw [if_pos heoc] at h
      cases h; exact ⟨rfl, fun S hS => hS⟩
    · rw [if_neg heoc] at h
      dsimp only at h
      have hv : ((if use_mini = true then ((0 : Int), m)
          else visit_sector m num_sectors sect idx (some ent) 0).2.length = m.length) ∧
          ∀ S, isVisited m S → isVisited (if use_mini = true then ((0 : Int), m)
            else visit_sector m num_sectors sect idx (some ent) 0).2 S := by
        split
        · exact ⟨rfl, fun S hS => hS⟩
        · exact ⟨visit_sector_length _ _ _ _ _ _,
            fun S hS => visit_sector_preserves_visited _ _ _ _ _ _ S hS⟩
      generalize (if use_mini = true then ((0 : Int), m)
        else visit_sector m num_sectors sect idx (some ent) 0) = v at h hv
      by_cases hneg : v.1 < 0
      · rw [if_pos hneg] at h
        cases h; exact hv
      · rw [if_neg hneg] at h
        by_cases hge : b ≥ ent.stream_size
        · rw [if_pos hge] at h
          cases h; exact hv
        · rw [if_neg hge] at h
          obtain ⟨h1, h2⟩ := ih _ _ _ _ _ _ _ h
          exact ⟨h1.trans hv.1, fun S hS => h2 S (hv.2 S hS)⟩

/-- A walk on the main FAT that ends well has marked every sector that the
chain references. -/
theorem walk_entry_loop_ok_marks (fat : Fat) (num_sectors : Nat) (ent : DirEntry) :
    ∀ (fuel sect : Nat) (m : List WalkSector) (idx b last ex : Nat)
      (r : WalkEntryResult) (j : Nat),
      num_sectors ≤ m.length →
      cfbf_walk_entry_loop fat false num_sectors ent fuel sect m idx b last ex =
        Run.done r →
      r.exit = WalkEntryExit.ok →
      (∀ i ≤ j, chainSector fat sect i ≠ CFBF_END_OF_CHAIN) →
      isVisited r.sector_map (chainSector fat sect j) := by
  intro fuel
  induction fuel with
  | zero => intro sect m idx b last ex r j _ h; simp [cfbf_walk_entry_loop] at h
  | succ fuel ih =>
    intro sect m idx b last ex r j hlen h hok hchain
    have heoc : sect ≠ CFBF_END_OF_CHAIN := hchain 0 (Nat.zero_le _)
    unfold cfbf_walk_entry_loop at h
    rw [if_neg heoc] at h
    simp only [Bool.false_eq_true, if_false] at h
    by_cases hneg : (visit_sector m num_sectors sect idx (some ent) 0).1 < 0
    · rw [if_pos hneg] at h
      cases h; cases hok
    · rw [if_neg hneg] at h
      by_cases hge : b ≥ ent.stream_size
      · rw [if_pos hge] at h
        cases h; cases hok
      · rw [if_neg hge] at h
        cases j with
        | zero =>
          exact (walk_entry_loop_preserves _ _ _ _ _ _ _ _ _ _ _ _ h).2 _
            (visit_sector_marks _ _ _ _ _ _ hlen hneg)
        | succ j =>
          rw [← chainSector_shift]
          apply ih _ _ _ _ _ _ r j _ h hok
          · intro i hi
            rw [chainSector_shift]
            exact hchain (i + 1) (by omega)
          · rw [visit_sector_length]; exact hlen

/-- A walk on the main FAT whose chain references a sector that is already
marked does not end well. -/
theorem walk_entry_loop_visited_fails (fat : Fat) (num_sectors : Nat) (ent : DirEntry) :
    ∀ (fuel sect : Nat) (m : List WalkSector) (idx b last ex : Nat)
      (r : WalkEntryResult) (j : Nat),
      cfbf_walk_entry_loop fat false num_sectors ent fuel sect m idx b last ex =
        Run.done r →
      isVisited m (chainSector fat sect j) →
      (∀ i ≤ j, chainSector fat sect i ≠ CFBF_END_OF_CHAIN) →
      r.exit ≠ WalkEntryExit.ok := by
  intro fuel
  induction fuel with
  | zero => intro sect m idx b last ex r j h; simp [cfbf_walk_entry_loop] at h
  | succ fuel ih =>
    intro sect m idx b last ex r j h hvis hchain
    have heoc : sect ≠ CFBF_END_OF_CHAIN := hchain 0 (Nat.zero_le _)
    unfold cfbf_walk_entry_loop at h
    rw [if_neg heoc] at h
    simp only [Bool.false_eq_true, if_false] at h
    by_cases hneg : (visit_sector m num_sectors sect idx (some ent) 0).1 < 0
    · rw [if_pos hneg] at h
      cases h; simp
    · rw [if_neg hneg] at h
      by_cases hge : b ≥ ent.stream_size
      · rw [if_pos hge] at h
        cases h; simp
      · rw [if_neg hge] at h
        cases j with
        | zero =>
          exact absurd (visit_sector_rejects_visited _ _ _ _ _ _ hvis) hneg
        | succ j =>
          apply ih _ _ _ _ _ _ r j h
          · rw [chainSector_shift]
            exact visit_sector_preserves_visited _ _ _ _ _ _ _ hvis
          · intro i hi
            rw [chainSector_shift]
            exact hchain (i + 1) (by omega)

/-- One directory entry of the loop of `cfbf_walk`: either the walk fails, or
it goes on with a map that keeps its length and its marks; a stream of at
least the cutoff size was then walked on the main FAT with success. -/
theorem walk_dir_entries_step (cfbf : CfbfFile) (n fuel : Nat) (ent : DirEntry)
    (rest : List (Option DirEntry)) (retval : Int) (m : List WalkSector)
    (st : WalkState)
    (h : cfbf_walk_dir_entries cfbf n fuel (some ent :: rest) retval m = Run.done st) :
    st.failed = true ∨
    ∃ retval1 m1, cfbf_walk_dir_entries cfbf n fuel rest retval1 m1 = Run.done st ∧
      m1.length = m.length ∧ (∀ S, isVisited m S → isVisited m1 S) ∧
      ((ent.object_type = 2 ∧ cfbf.header.ulMiniSectorCutoff ≤ ent.stream_size) →
        ∃ r, cfbf_walk_entry_loop cfbf.fat false n ent fuel ent.start_sector m 0 0
            CFBF_END_OF_CHAIN 0 = Run.done r ∧
          r.exit = WalkEntryExit.ok ∧ m1 = r.sector_map) := by
  unfold cfbf_walk_dir_entries at h
  by_cases h0 : ent.object_type = 0
  · rw [if_pos h0] at h
    exact Or.inr ⟨retval, m, h, rfl, fun S hS => hS, fun hc => by omega⟩
  · rw [if_neg h0] at h
    by_cases h125 : ent.object_type = 1 ∨ ent.object_type = 2 ∨ ent.object_type = 5
    · rw [if_pos h125] at h
      by_cases hconv : cfbf.utf16_to_utf8_ok ent = false
      · rw [if_pos hconv] at h
        cases h; exact Or.inl rfl
      · rw [if_neg hconv] at h
        by_cases h1 : ent.object_type = 1
        · rw [if_pos h1] at h
          exact Or.inr ⟨retval, m, h, rfl, fun S hS => hS, fun hc => by omega⟩
        · rw [if_neg h1] at h
          cases hw : cfbf_walk_entry cfbf m n ent fuel with
          | fault => rw [hw] at h; cases h
          | outOfFuel => rw [hw] at h; cases h
          | done r =>
            rw [hw] at h
            dsimp only at h
            by_cases hneg : r.exit.retval < 0
            · rw [if_pos hneg] at h
              cases h; exact Or.inl rfl
            · rw [if_neg hneg] at h
              have hpres := walk_entry_loop_preserves _ _ _ _ _ _ _ _ _ _ _ _ hw
              refine Or.inr ⟨retval, r.sector_map, h, hpres.1, hpres.2, fun hc => ?_⟩
              have hu : walkEntryUsesMini cfbf ent = false := by
                unfold walkEntryUsesMini
                simp only [decide_eq_false_iff_not]
                intro hcc; omega
              unfold cfbf_walk_entry at hw
              rw [hu] at hw
              simp only [Bool.false_eq_true, if_false] at hw
              refine ⟨r, hw, ?_, rfl⟩
              cases hx : r.exit with
              | ok => rfl
              | visitRejected => rw [hx] at hneg; exact absurd (by decide) hneg
              | moreSectors => rw [hx] at hneg; exact absurd (by decide) hneg
              | lengthMismatch => rw [hx] at hneg; exact absurd (by decide) hneg
    · rw [if_neg h125] at h
      by_cases h5 : ent.object_type = 5
      · exact absurd (Or.inr (Or.inr h5)) h125
      · rw [if_neg h5] at h
        exact Or.inr ⟨-1, m, h, rfl, fun S hS => hS, fun hc => by omega⟩

/-- Once `S` is marked, a later stream of the main FAT whose chain references
`S` makes the loop over the directory entries fail. -/
theorem walk_dir_entries_visited_fails (cfbf : CfbfFile) (n fuel S : Nat)
    (e2 : DirEntry) (ht : e2.object_type = 2)
    (hc : cfbf.header.ulMiniSectorCutoff ≤ e2.stream_size)
    (href : chainReferences cfbf.fat e2.start_sector S) :
    ∀ (l : List (Option DirEntry)) (retval : Int) (m : List WalkSector)
      (st : WalkState), some e2 ∈ l → isVisited m S →
      cfbf_walk_dir_entries cfbf n fuel l retval m = Run.done st →
      st.failed = true := by
  intro l
  induction l with
  | nil => intro retval m st hmem; simp at hmem
  | cons x rest ih =>
    intro retval m st hmem hvis h
    cases x with
    | none => simp [cfbf_walk_dir_entries] at h
    | some ent =>
      rcases walk_dir_entries_step cfbf n fuel ent rest retval m st h with
        hf | ⟨retval1, m1, h1, _, hpres, hmain⟩
      · exact hf
      · rcases List.mem_cons.1 hmem with heq | hrest
        · have heq2 : e2 = ent := by injection heq
          subst heq2
          obtain ⟨r, hr, hok, _⟩ := hmain ⟨ht, hc⟩
          obtain ⟨j, hj, hchain⟩ := href
          exact absurd hok (walk_entry_loop_visited_fails _ _ _ _ _ _ _ _ _ _ r j hr
            (by rw [hj]; exact hvis) hchain)
        · exact ih retval1 m1 st hrest (hpres S hvis) h1

/-- Two streams of the main FAT whose chains reference the same sector make
the loop over the directory entries fail. -/
theorem walk_dir_entries_shared_fails (cfbf : CfbfFile) (n fuel S : Nat)
    (e1 e2 : DirEntry) (ht1 : e1.object_type = 2)
    (hc1 : cfbf.header.ulMiniSectorCutoff ≤ e1.stream_size)
    (href1 : chainReferences cfbf.fat e1.start_sector S)
    (ht2 : e2.object_type = 2)
    (hc2 : cfbf.header.ulMiniSectorCutoff ≤ e2.stream_size)
    (href2 : chainReferences cfbf.fat e2.start_sector S)
    (rest : List (Option DirEntry)) (hmem : some e2 ∈ rest) :
    ∀ (pre : List (Option DirEntry)) (retval : Int) (m : List WalkSector)
      (st : WalkState), n ≤ m.length →
      cfbf_walk_dir_entries cfbf n fuel (pre ++ some e1 :: rest) retval m =
        Run.done st →
      st.failed = true := by
  intro pre
  induction pre with
  | nil =>
    intro retval m st hlen h
    rcases walk_dir_entries_step cfbf n fuel e1 rest retval m st h with
      hf | ⟨retval1, m1, h1, _, _, hmain⟩
    · exact hf
    · obtain ⟨r, hr, hok, hm1⟩ := hmain ⟨ht1, hc1⟩
      obtain ⟨j, hj, hchain⟩ := href1
      have hvis := walk_entry_loop_ok_marks _ _ _ _ _ _ _ _ _ _ r j hlen hr hok hchain
      rw [hj, ← hm1] at hvis
      exact walk_dir_entries_visited_fails cfbf n fuel S e2 ht2 hc2 href2 rest
        retval1 m1 st hmem hvis h1
  | cons x pre ih =>
    intro retval m st hlen h
    cases x with
    | none => simp [cfbf_walk_dir_entries] at h
    | some ent =>
      rcases walk_dir_entries_step cfbf n fuel ent (pre ++ some e1 :: rest) retval m
        st h with hf | ⟨retval1, m1, h1, hl, _, _⟩
      · exact hf
      · exact ih retval1 m1 st (by omega) h1

/-- With enough fuel, `cfbf_walk_entry` returns. -/
theorem walk_entry_total (cfbf : CfbfFile) (m : List WalkSector) (n : Nat)
    (ent : DirEntry) (fuel : Nat) (hs1 : 1 ≤ cfbf.fat.sector_size)
    (hs2 : 1 ≤ cfbf.mini_fat.sector_size) (hfuel : walkEntryFuel cfbf ent ≤ fuel) :
    ∃ r, cfbf_walk_entry cfbf m n ent fuel = Run.done r := by
  have hs : 1 ≤ (walkEntryTable cfbf ent).sector_size := by
    unfold walkEntryTable; split <;> assumption
  obtain ⟨r, hr, _⟩ := walk_entry_loop_spec (walkEntryTable cfbf ent)
    (walkEntryUsesMini cfbf ent) n ent hs ent.start_sector fuel 0
    ent.start_sector m 0 0 CFBF_END_OF_CHAIN 0 rfl (by simp) (by omega)
    (by intro i hi; omega) (by unfold walkEntryFuel at hfuel; omega) rfl
  exact ⟨r, hr⟩

/-- With enough fuel, the loop over the directory entries returns. -/
theorem walk_dir_entries_total (cfbf : CfbfFile) (n fuel : Nat)
    (hs1 : 1 ≤ cfbf.fat.sector_size) (hs2 : 1 ≤ cfbf.mini_fat.sector_size) :
    ∀ (l : List (Option DirEntry)) (retval : Int) (m : List WalkSector),
      (∀ x ∈ l, x ≠ none) → (∀ e, some e ∈ l → walkEntryFuel cfbf e ≤ fuel) →
      ∃ st, cfbf_walk_dir_entries cfbf n fuel l retval m = Run.done st := by
  intro l
  induction l with
  | nil => intro retval m _ _; exact ⟨_, rfl⟩
  | cons x rest ih =>
    intro retval m hfull hfuel
    have hrest : ∀ retval1 m1, ∃ st,
        cfbf_walk_dir_entries cfbf n fuel rest retval1 m1 = Run.done st :=
      fun retval1 m1 => ih retval1 m1
        (fun y hy => hfull y (List.mem_cons_of_mem _ hy))
        (fun e he => hfuel e (List.mem_cons_of_mem _ he))
    cases x with
    | none => exact absurd rfl (hfull none (List.mem_cons_self _ _))
    | some ent =>
      unfold cfbf_walk_dir_entries
      split
      · exact hrest _ _
      · split
        · split
          · exact ⟨_, rfl⟩
          · split
            · exact hrest _ _
            · obtain ⟨r, hr⟩ := walk_entry_total cfbf m n ent fuel hs1 hs2
                (hfuel ent (List.mem_cons_self _ _))
              rw [hr]
              dsimp only
              split
              · exact ⟨_, rfl⟩
              · exact hrest _ _
        · split
          · exact hrest _ _
          · exact hrest _ _

theorem walkNumSectors_lt (cfbf : CfbfFile) : walkNumSectors cfbf < 2 ^ 32 := by
  unfold walkNumSectors
  generalize Int.tdiv ((cfbf.file_size : Int) -
    (cfbf_get_sector_size cfbf.header : Int)) (cfbf_get_sector_size cfbf.header : Int) = a
  have h := Int.emod_lt_of_pos a (show (0 : Int) < 2 ^ 32 by norm_num)
  have h0 := Int.emod_nonneg a (show (2 : Int) ^ 32 ≠ 0 by norm_num)
  have h1 : a.emod (2 ^ 32) = a % 2 ^ 32 := rfl
  rw [h1]
  omega

/-- C7: when two streams of the main FAT (directory entries `p < q` of type 2
and of at least the cutoff size) have chains that both reference a sector `S`,
every result of `cfbf_walk` is -1: the first chain either fails or marks `S`,
and then `visit_sector` rejects `S` when the second chain reaches it. With
fuel for the loops over the directory, `cfbf_walk` does return. -/
theorem walk_shared_sector_fails (cfbf : CfbfFile) (dir_chain : List (List DirEntry))
    (p q S : Nat) (e1 e2 : DirEntry)
    (hdir : cfbf.dir_chain = some dir_chain)
    (hp : (walkSlots cfbf dir_chain)[p]? = some (some e1))
    (hq : (walkSlots cfbf dir_chain)[q]? = some (some e2))
    (hpq : p < q)
    (ht1 : e1.object_type = 2)
    (hc1 : cfbf.header.ulMiniSectorCutoff ≤ e1.stream_size)
    (href1 : chainReferences cfbf.fat e1.start_sector S)
    (ht2 : e2.object_type = 2)
    (hc2 : cfbf.header.ulMiniSectorCutoff ≤ e2.stream_size)
    (href2 : chainReferences cfbf.fat e2.start_sector S) :
    (∀ fuel out, cfbf_walk cfbf fuel = Run.done out → out.retval = -1) ∧
    (∀ fuel, walkDirFuelOk cfbf dir_chain fuel →
      ∃ out, cfbf_walk cfbf fuel = Run.done out ∧ out.retval = -1) := by
  have hsplit : walkSlots cfbf dir_chain =
      (walkSlots cfbf dir_chain).take p ++
        some e1 :: (walkSlots cfbf dir_chain).drop (p + 1) := by
    have hlt : p < (walkSlots cfbf dir_chain).length := by
      by_contra hc
      rw [List.getElem?_eq_none (by omega)] at hp
      cases hp
    have hget : (walkSlots cfbf dir_chain)[p] = some e1 := by
      rw [List.getElem?_eq_getElem hlt] at hp
      injection hp
    rw [← hget, ← List.drop_eq_getElem_cons hlt, List.take_append_drop]
  have hmem : some e2 ∈ (walkSlots cfbf dir_chain).drop (p + 1) := by
    have : ((walkSlots cfbf dir_chain).drop (p + 1))[q - (p + 1)]? = some (some e2) := by
      rw [List.getElem?_drop]
      have : p + 1 + (q - (p + 1)) = q := by omega
      rw [this]; exact hq
    exact List.getElem?_mem this
  have hevery : ∀ fuel out, cfbf_walk cfbf fuel = Run.done out → out.retval = -1 := by
    intro fuel out h
    unfold cfbf_walk at h
    rw [hdir] at h
    dsimp only at h
    cases hw : cfbf_walk_entry cfbf (List.replicate (walkNumSectors cfbf) WalkSector.zero)
        (walkNumSectors cfbf)
        (fake_dir_entry_for_dir_chain cfbf.header dir_chain.length) fuel with
    | fault => rw [hw] at h; cases h
    | outOfFuel => rw [hw] at h; cases h
    | done r0 =>
      rw [hw] at h
      dsimp only at h
      by_cases hneg : r0.exit.retval < 0
      · rw [if_pos hneg] at h
        cases h; rfl
      · rw [if_neg hneg] at h
        have hlen0 := (walk_entry_loop_preserves _ _ _ _ _ _ _ _ _ _ _ _ hw).1
        cases hd : cfbf_walk_dir_entries cfbf (walkNumSectors cfbf) fuel
            (dirSlots dir_chain (cfbf_get_sector_size cfbf.header / sizeofDirEntry)) 0
            r0.sector_map with
        | fault => rw [hd] at h; cases h
        | outOfFuel => rw [hd] at h; cases h
        | done st1 =>
          rw [hd] at h
          dsimp only at h
          have hfail : st1.failed = true := by
            have hd2 : cfbf_walk_dir_entries cfbf (walkNumSectors cfbf) fuel
                (walkSlots cfbf dir_chain) 0 r0.sector_map = Run.done st1 := hd
            rw [hsplit] at hd2
            exact walk_dir_entries_shared_fails cfbf _ fuel S e1 e2 ht1 hc1 href1
              ht2 hc2 href2 _ hmem _ 0 r0.sector_map st1
              (by rw [hlen0, List.length_replicate]) hd2
          rw [if_pos hfail] at h
          cases h; rfl
  refine ⟨hevery, fun fuel hok => ?_⟩
  obtain ⟨hfull, hs1, hs2, hfake, hfuel⟩ := hok
  have htotal : ∃ out, cfbf_walk cfbf fuel = Run.done out := by
    unfold cfbf_walk
    rw [hdir]
    dsimp only
    obtain ⟨r0, hr0⟩ := walk_entry_total cfbf
      (List.replicate (walkNumSectors cfbf) WalkSector.zero) (walkNumSectors cfbf)
      (fake_dir_entry_for_dir_chain cfbf.header dir_chain.length) fuel hs1 hs2 hfake
    rw [hr0]
    dsimp only
    by_cases hneg : r0.exit.retval < 0
    · rw [if_pos hneg]; exact ⟨_, rfl⟩
    · rw [if_neg hneg]
      obtain ⟨st1, hst1⟩ := walk_dir_entries_total cfbf (walkNumSectors cfbf) fuel hs1
        hs2 (walkSlots cfbf dir_chain) 0 r0.sector_map hfull hfuel
      have hst2 : cfbf_walk_dir_entries cfbf (walkNumSectors cfbf) fuel
          (dirSlots dir_chain (cfbf_get_sector_size cfbf.header / sizeofDirEntry)) 0
          r0.sector_map = Run.done st1 := hst1
      have hfail : st1.failed = true := by
        rw [hsplit] at hst1
        exact walk_dir_entries_shared_fails cfbf _ fuel S e1 e2 ht1 hc1 href1
          ht2 hc2 href2 _ hmem _ 0 r0.sector_map st1
          (by rw [(walk_entry_loop_preserves _ _ _ _ _ _ _ _ _ _ _ _ hr0).1,
            List.length_replicate]) hst1
      rw [hst2]
      dsimp only
      rw [if_pos hfail]
      exact ⟨_, rfl⟩
  obtain ⟨out, hout⟩ := htotal
  exact ⟨out, hout, hevery fuel out hout⟩

/-- C7 at the corrupted container whose two streams both consist of sector
3: `cfbf_walk` returns -1. -/
theorem walk_shared_sector_fails_witness :
    ∃ out, cfbf_walk sharedSectorFile 3 = Run.done out ∧ out.retval = -1 := by
  have hslots : walkSlots sharedSectorFile
      [[{ e1Root with start_sector := CFBF_END_OF_CHAIN, stream_size := 0 },
        sharedStream1, sharedStream2, unusedEntry]] =
      [some { e1Root with start_sector := CFBF_END_OF_CHAIN, stream_size := 0 },
        some sharedStream1, some sharedStream2, some unusedEntry] := by decide
  refine (walk_shared_sector_fails sharedSectorFile
    [[{ e1Root with start_sector := CFBF_END_OF_CHAIN, stream_size := 0 },
      sharedStream1, sharedStream2, unusedEntry]] 1 2 3 sharedStream1 sharedStream2
    rfl (by decide) (by decide) (by decide) (by decide) (by decide)
    ⟨0, by decide, by decide⟩ (by decide) (by decide) ⟨0, by decide, by decide⟩).2 3 ?_
  refine ⟨by decide, by decide, by decide, by decide, ?_⟩
  intro e he
  rw [hslots] at he
  simp only [List.mem_cons, Option.some.injEq, List.mem_singleton, List.not_mem_nil,
    or_false] at he
  rcases he with rfl | rfl | rfl | rfl <;> decide

/-! ### C8: sectors left unvisited by `cfbf_walk` -/

/-- C8 (violated by the code): on the valid container E1, which has a MiniFAT
in sector 2, `cfbf_walk` runs to its end, returns 0, and leaves sector 2
unvisited although its FAT entry is `ENDOFCHAIN`, not `FREESECT`: no step of
the walker follows the chain of the MiniFAT from `sectMiniFatStart`. -/
theorem walk_e1_minifat_sector_unvisited :
    walkReport e1File 3 = some (0, [2]) ∧
    e1File.header.sectMiniFatStart = 2 ∧
    e1File.fat.get_sector_entry 2 = CFBF_END_OF_CHAIN := by
  decide

/-! ### C10: the cross-check of the FAT pages -/

set_option maxRecDepth 100000 in
/-- C10 (violated by the code): the container `difatFile` lists FAT page 110
in its DIFAT sector, the FAT entry of sector 110 is `ENDOFCHAIN` and not
`FATSECT`, and yet `cfbf_walk` runs to its end and returns 0, with no sector
left unvisited: the cross-check `fat_entry != CFBF_FATSECT` is made for the
header-listed pages only. -/
theorem walk_difat_page_not_cross_checked :
    difatFile.file_sect 56320 = some 110 ∧
    cfbf_get_sector_ptr difatFile.header difatFile.file_size
      difatFile.header.sectDifStart = some 56320 ∧
    difatFile.fat.get_sector_entry 110 ≠ CFBF_FATSECT ∧
    walkReport difatFile 3 = some (0, []) := by
  decide

/-! ### The cross-check of the header-listed FAT pages -/

theorem walk_header_fat_sticky (fat : Fat) (n : Nat) :
    ∀ (l : List Nat) (m : List WalkSector),
      (cfbf_walk_header_fat fat n l (-1) m).1 = -1 := by
  intro l
  induction l with
  | nil => intro m; rfl
  | cons x l ih =>
    intro m
    unfold cfbf_walk_header_fat
    dsimp only
    have hr : (if fat.get_sector_entry x ≠ CFBF_FATSECT then (-1 : Int)
        else if (visit_sector m n x 0 none CFBF_FATSECT).1 < 0 then -1 else -1) = -1 := by
      split
      · rfl
      · split <;> rfl
    rw [hr]
    exact ih _

theorem walk_header_fat_checks (fat : Fat) (n p : Nat)
    (hne : fat.get_sector_entry p ≠ CFBF_FATSECT) :
    ∀ (l : List Nat) (retval : Int) (m : List WalkSector), p ∈ l →
      (cfbf_walk_header_fat fat n l retval m).1 = -1 := by
  intro l
  induction l with
  | nil => intro retval m hp; simp at hp
  | cons x l ih =>
    intro retval m hp
    unfold cfbf_walk_header_fat
    dsimp only
    rcases List.mem_cons.1 hp with hx | hl
    · subst hx
      rw [if_pos hne]
      exact walk_header_fat_sticky _ _ _ _
    · exact ih _ _ hl

theorem walk_difat_slots_sticky (cfbf : CfbfFile) (n offset : Nat) :
    ∀ (l : List Nat) (m : List WalkSector) (seen : Nat)
      (r : Int × List WalkSector × Nat),
      cfbf_walk_difat_slots cfbf n offset l (-1) m seen = Run.done r → r.1 = -1 := by
  intro l
  induction l with
  | nil => intro m seen r h; cases h; rfl
  | cons i l ih =>
    intro m seen r h
    unfold cfbf_walk_difat_slots at h
    cases hf : cfbf.file_sect (offset + 4 * i) with
    | none => rw [hf] at h; cases h
    | some fat_sect =>
      rw [hf] at h
      dsimp only at h
      split at h
      · exact ih _ _ _ h
      · have hr : (if (visit_sector m n fat_sect 0 none CFBF_FATSECT).1 < 0 then (-1 : Int)
            else -1) = -1 := by split <;> rfl
        rw [hr] at h
        exact ih _ _ _ h

theorem walk_difat_sticky (cfbf : CfbfFile) (n : Nat) :
    ∀ (fuel difat_sect : Nat) (st d : DifatState), st.retval = -1 →
      cfbf_walk_difat cfbf n fuel difat_sect st = Run.done d → d.retval = -1 := by
  intro fuel
  induction fuel with
  | zero => intro difat_sect st d _ h; simp [cfbf_walk_difat] at h
  | succ fuel ih =>
    intro difat_sect st d hst h
    unfold cfbf_walk_difat at h
    split at h
    · cases h; exact hst
    · dsimp only at h
      split at h
      · cases h; rfl
      · split at h
        · cases h
        · have hr : (if (visit_sector st.sector_map n difat_sect 0 none CFBF_DIFSECT).1 < 0
              then (-1 : Int) else st.retval) = -1 := by
            split
            · rfl
            · exact hst
          rw [hr] at h
          split at h
          · rename_i retval2 sector_map2 seen2 hslots
            have h2 := walk_difat_slots_sticky _ _ _ _ _ _ _ hslots
            dsimp only at h2
            subst h2
            split at h
            · cases h
            · exact ih _ _ _ rfl h
          · cases h
          · cases h

/-- The part of C10 that the code does: when a FAT page listed in the first
`min (109, csectFat)` slots of the header has a FAT entry other than `FATSECT`,
every result of `cfbf_walk` is -1. -/
theorem walk_header_page_cross_checked (cfbf : CfbfFile) (fuel p : Nat)
    (out : WalkOutcome)
    (hp : p ∈ cfbf.header.sectFat.take (walkNumStartFatSectors cfbf.header))
    (hne : cfbf.fat.get_sector_entry p ≠ CFBF_FATSECT)
    (h : cfbf_walk cfbf fuel = Run.done out) : out.retval = -1 := by
  unfold cfbf_walk at h
  dsimp only at h
  split at h
  · cases h; rfl
  · split at h
    · cases h
    · cases h
    · split at h
      · cases h; rfl
      · split at h
        · cases h
        · cases h
        · split at h
          · cases h; rfl
          · split at h
            · cases h
            · cases h
            · rename_i d hd
              have hd1 := walk_difat_sticky _ _ _ _ _ d
                (walk_header_fat_checks _ _ p hne _ _ _ hp) hd
              cases h
              simp only [WalkOutcome.retval, hd1]
              split
              · rfl
              · split <;> rfl

/-! ### C1: the order of the directory walk -/

theorem thenIfPositive_one {σ : Type} (s : σ) (k : σ → Run (Int × σ)) :
    Run.thenIfPositive (Run.done (1, s)) k = k s := by
  simp [Run.thenIfPositive]

theorem entryOf_some (dir_chain : List (List DirEntry)) (eps id : Nat) (e : DirEntry)
    (h : entryOf dir_chain eps id = some e) :
    eps ≠ 0 ∧ ¬ ((id / eps) % 2 ^ 32 ≥ dir_chain.length) ∧
      dirEntryAt dir_chain ((id / eps) % 2 ^ 32) (id % eps) = some e := by
  unfold entryOf at h
  by_cases h0 : eps = 0
  · rw [if_pos h0] at h; cases h
  · rw [if_neg h0] at h
    refine ⟨h0, ?_, h⟩
    intro hge
    unfold dirEntryAt at h
    rw [List.getElem?_eq_none hge] at h
    cases h

theorem applyCalls_append {σ : Type} (dir_chain : List (List DirEntry)) (eps : Nat)
    (cb : σ → DirEntry → Option Nat → Nat → Int → Int × σ) (s : σ)
    (l1 l2 : List (Nat × Option Nat × Int)) :
    applyCalls dir_chain eps cb s (l1 ++ l2) =
      applyCalls dir_chain eps cb (applyCalls dir_chain eps cb s l1) l2 := by
  unfold applyCalls
  rw [List.foldl_append]

/-- The walk of a link that unfolds to a tree: the callback is applied along
`DTree.calls` and the result is 1. -/
theorem walk_from_chain_tree {σ : Type} (dir_chain : List (List DirEntry)) (eps : Nat)
    (cb : σ → DirEntry → Option Nat → Nat → Int → Int × σ)
    (P : DirEntry → Prop) (hP : ∀ e, P e → e.object_type ≠ 0)
    (hcb : ∀ s e p i d, 0 < (cb s e p i d).1) :
    ∀ (t : DTree) (link : Nat) (parent : Option Nat) (depth : Int) (s : σ)
      (fuel : Nat),
      t.Rep dir_chain eps P link → t.height ≤ fuel →
      (if link ≠ CFBF_NOSTREAM then
          cfbf_walk_dir_tree_from_chain dir_chain eps cb fuel link parent depth s
        else Run.done (1, s)) =
        Run.done (1, applyCalls dir_chain eps cb s (t.calls parent depth)) := by
  intro t
  induction t with
  | nil =>
    intro link parent depth s fuel hrep _
    have hl : link = CFBF_NOSTREAM := hrep
    simp [hl, DTree.calls, applyCalls]
  | node id c l r ihc ihl ihr =>
    intro link parent depth s fuel hrep hfuel
    obtain ⟨hlink, hid, e, he, hPe, hc, hl, hr⟩ := hrep
    subst hlink
    rw [if_pos hid]
    obtain ⟨h0, hsec, hent⟩ := entryOf_some _ _ _ _ he
    simp only [DTree.height] at hfuel
    cases fuel with
    | zero => omega
    | succ fuel =>
      unfold cfbf_walk_dir_tree_from_chain
      rw [if_neg h0]
      dsimp only
      rw [if_neg hsec, hent]
      dsimp only
      rw [if_neg (hP e hPe)]
      have hpos := hcb s e parent link depth
      rw [if_neg (by omega), if_neg (by omega)]
      rw [ihc e.child_id (some link) (depth + 1) _ fuel hc (by omega),
        thenIfPositive_one,
        ihl e.left_sibling_id parent depth _ fuel hl (by omega),
        thenIfPositive_one,
        ihr e.right_sibling_id parent depth _ fuel hr (by omega),
        thenIfPositive_one]
      simp only [DTree.calls]
      rw [List.append_assoc]
      have hcons : ∀ (x : Nat × Option Nat × Int) (rest : List (Nat × Option Nat × Int)),
          applyCalls dir_chain eps cb s (x :: rest) =
            applyCalls dir_chain eps cb
              (match entryOf dir_chain eps x.1 with
                | some e => (cb s e x.2.1 x.1 x.2.2).2
                | none => s) rest := fun x rest => rfl
      rw [hcons, applyCalls_append, applyCalls_append]
      simp only [he]

theorem rep_ne_nil_ids (dir_chain : List (List DirEntry)) (eps : Nat)
    (P : DirEntry → Prop) (t : DTree) (link : Nat)
    (hrep : t.Rep dir_chain eps P link) (hne : link ≠ CFBF_NOSTREAM) :
    link ∈ t.ids := by
  cases t with
  | nil => exact absurd hrep hne
  | node id c l r =>
    obtain ⟨hlink, _⟩ := hrep
    simp [DTree.ids, hlink]

/-- The ids of a tree are closed under the links of the directory. -/
theorem rep_ids_closed (dir_chain : List (List DirEntry)) (eps : Nat)
    (P : DirEntry → Prop) :
    ∀ (t : DTree) (link a b : Nat), t.Rep dir_chain eps P link → a ∈ t.ids →
      dirLink dir_chain eps a b → b ∈ t.ids := by
  intro t
  induction t with
  | nil => intro link a b _ ha; simp [DTree.ids] at ha
  | node id c l r ihc ihl ihr =>
    intro link a b hrep ha hab
    obtain ⟨_, _, e, he, _, hc, hl, hr⟩ := hrep
    simp only [DTree.ids, List.mem_cons, List.mem_append] at ha ⊢
    rcases ha with ha | (ha | ha) | ha
    · subst ha
      obtain ⟨e1, he1, hb, hcases⟩ := hab
      rw [he] at he1
      cases he1
      rcases hcases with h | h | h
      · exact Or.inr (Or.inl (Or.inl (rep_ne_nil_ids _ _ _ c b (h ▸ hc) hb)))
      · exact Or.inr (Or.inl (Or.inr (rep_ne_nil_ids _ _ _ l b (h ▸ hl) hb)))
      · exact Or.inr (Or.inr (rep_ne_nil_ids _ _ _ r b (h ▸ hr) hb))
    · exact Or.inr (Or.inl (Or.inl (ihc _ a b hc ha hab)))
    · exact Or.inr (Or.inl (Or.inr (ihl _ a b hl ha hab)))
    · exact Or.inr (Or.inr (ihr _ a b hr ha hab))

/-- Every id of a tree is reachable from the link the tree unfolds. -/
theorem rep_ids_reachable (dir_chain : List (List DirEntry)) (eps : Nat)
    (P : DirEntry → Prop) :
    ∀ (t : DTree) (link b : Nat), t.Rep dir_chain eps P link → b ∈ t.ids →
      dirReachable dir_chain eps link b := by
  intro t
  induction t with
  | nil => intro link b _ hb; simp [DTree.ids] at hb
  | node id c l r ihc ihl ihr =>
    intro link b hrep hb
    obtain ⟨hlink, _, e, he, _, hc, hl, hr⟩ := hrep
    subst hlink
    have hsub : ∀ (sub : DTree) (x : Nat), sub.Rep dir_chain eps P x →
        (x = e.child_id ∨ x = e.left_sibling_id ∨ x = e.right_sibling_id) →
        b ∈ sub.ids →
        (∀ link b, sub.Rep dir_chain eps P link → b ∈ sub.ids →
          dirReachable dir_chain eps link b) →
        dirReachable dir_chain eps link b := by
      intro sub x hx hcase hbs ih
      have hxne : x ≠ CFBF_NOSTREAM := by
        intro hxn
        cases sub with
        | nil => simp [DTree.ids] at hbs
        | node id1 c1 l1 r1 =>
          obtain ⟨h1, h2, _⟩ := hx
          exact h2 (h1 ▸ hxn)
      exact Relation.ReflTransGen.head ⟨e, he, hxne, hcase⟩ (ih x b hx hbs)
    simp only [DTree.ids, List.mem_cons, List.mem_append] at hb
    rcases hb with hb | (hb | hb) | hb
    · subst hb; exact Relation.ReflTransGen.refl
    · exact hsub c _ hc (Or.inl rfl) hb ihc
    · exact hsub l _ hl (Or.inr (Or.inl rfl)) hb ihl
    · exact hsub r _ hr (Or.inr (Or.inr rfl)) hb ihr

theorem calls_ids (t : DTree) (parent : Option Nat) (depth : Int) :
    (t.calls parent depth).map (fun c => c.1) = t.ids := by
  induction t generalizing parent depth with
  | nil => rfl
  | node id c l r ihc ihl ihr =>
    simp [DTree.calls, DTree.ids, ihc, ihl, ihr]

/-- C1: when the child and sibling links of the directory form a finite tree
`t` of entries inside the chain, of type 1, 2 or 5, each entry occurring once,
and the callback always signals continue, `cfbf_walk_dir_tree` (with fuel for
the height of the tree) returns 1 and has applied the callback along
`t.calls none 0`: the node, then the subtree of its child with the node as
parent and depth + 1, then the subtrees of its left and right siblings with the
node's parent and depth, starting with entry 0 at depth 0 without parent. The
entries so visited are distinct and are exactly the entries reachable from
entry 0 through the links, so a chain of left-only or right-only sibling links
is visited in full. -/
theorem walk_dir_tree_preorder {σ : Type} (header : Header)
    (dir_chain : List (List DirEntry))
    (callback : σ → DirEntry → Option Nat → Nat → Int → Int × σ)
    (t : DTree) (fuel : Nat) (cookie : σ)
    (hrep : t.Rep dir_chain (cfbf_get_sector_size header / sizeofDirEntry) typeInUse 0)
    (hnodup : t.ids.Nodup)
    (hcb : ∀ s e p i d, 0 < (callback s e p i d).1)
    (hfuel : t.height ≤ fuel) :
    cfbf_walk_dir_tree header (some dir_chain) callback fuel cookie =
      Run.done (1, applyCalls dir_chain (cfbf_get_sector_size header / sizeofDirEntry)
        callback cookie (t.calls none 0)) ∧
    (t.calls none 0).head? = some (0, none, 0) ∧
    ((t.calls none 0).map (fun c => c.1)).Nodup ∧
    ∀ b, dirReachable dir_chain (cfbf_get_sector_size header / sizeofDirEntry) 0 b ↔
      b ∈ (t.calls none 0).map (fun c => c.1) := by
  have h0 : (0 : Nat) ≠ CFBF_NOSTREAM := by decide
  refine ⟨?_, ?_, ?_, ?_⟩
  · have h := walk_from_chain_tree dir_chain _ callback typeInUse
      (fun e he => by unfold typeInUse at he; omega) hcb t 0 none 0 cookie fuel hrep hfuel
    rw [if_pos h0] at h
    exact h
  · cases t with
    | nil => exact absurd hrep h0
    | node id c l r =>
      obtain ⟨hlink, _⟩ := hrep
      simp [DTree.calls, ← hlink]
  · rw [calls_ids]; exact hnodup
  · intro b
    rw [calls_ids]
    constructor
    · intro hreach
      induction hreach with
      | refl => exact rep_ne_nil_ids _ _ _ t 0 hrep h0
      | tail _ hstep ih => exact rep_ids_closed _ _ _ t 0 _ _ hrep ih hstep
    · exact rep_ids_reachable _ _ _ t 0 b hrep

theorem rep_mono (dir_chain : List (List DirEntry)) (eps : Nat)
    (P Q : DirEntry → Prop) (hPQ : ∀ e, P e → Q e) :
    ∀ (t : DTree) (link : Nat), t.Rep dir_chain eps P link → t.Rep dir_chain eps Q link := by
  intro t
  induction t with
  | nil => intro link h; exact h
  | node id c l r ihc ihl ihr =>
    intro link h
    obtain ⟨h1, h2, e, he, hp, hc, hl, hr⟩ := h
    exact ⟨h1, h2, e, he, hPQ e hp, ihc _ hc, ihl _ hl, ihr _ hr⟩

theorem leftChainTree_rep :
    leftChainTree.Rep leftChainDir (cfbf_get_sector_size e1Header / sizeofDirEntry)
      (fun e => entryWellFormed e ∧ nameInField e) 0 := by
  refine ⟨rfl, by decide, _, rfl, by decide, ?_, rfl, rfl⟩
  refine ⟨rfl, by decide, _, rfl, by decide, rfl, ?_, rfl⟩
  refine ⟨rfl, by decide, _, rfl, by decide, rfl, ?_, rfl⟩
  refine ⟨rfl, by decide, _, rfl, by decide, ?_, rfl, rfl⟩
  exact ⟨rfl, by decide, _, rfl, by decide, rfl, rfl, rfl⟩

/-- C1 on a directory whose root has three children chained through left
sibling links only, the last of them with a child of its own: the recording
callback is invoked on the entries 0, 1, 2, 3, 4 in this order, with the parents
and depths of the specification. -/
theorem walk_dir_tree_preorder_witness :
    cfbf_walk_dir_tree e1Header (some leftChainDir) recordCall 5 [] =
      Run.done (1, [(0, none, 0), (1, some 0, 1), (2, some 0, 1), (3, some 0, 1),
        (4, some 3, 2)]) ∧
    dirReachable leftChainDir (cfbf_get_sector_size e1Header / sizeofDirEntry) 0 3 := by
  have h := walk_dir_tree_preorder e1Header leftChainDir recordCall leftChainTree 5 []
    (rep_mono _ _ _ _ (fun _ he => he.1.1) _ _ leftChainTree_rep) (by decide) (fun _ _ _ _ _ => by simp [recordCall]) (by decide)
  exact ⟨h.1.trans (by decide), (h.2.2.2 3).2 (by decide)⟩

/-! ### C2: path resolution follows the specified search -/

theorem entryOf_eq (dir_chain : List (List DirEntry)) (eps id : Nat) (h0 : eps ≠ 0) :
    entryOf dir_chain eps id = dirEntryAt dir_chain ((id / eps) % 2 ^ 32) (id % eps) := by
  unfold entryOf
  rw [if_neg h0]

theorem pathResolves_of_sibLink (dir_chain : List (List DirEntry)) (eps a b : Nat)
    (path : List Nat) (e : Nat) (ha : a ≠ CFBF_NOSTREAM)
    (hab : sibLink dir_chain eps a b)
    (h : PathResolves dir_chain eps b path e) : PathResolves dir_chain eps a path e := by
  cases h with
  | last _ _ _ ent _ hreach hent hm hl =>
    exact PathResolves.last a e path ent ha (Relation.ReflTransGen.head hab hreach)
      hent hm hl
  | descend _ e1 _ _ ent _ hreach hent hm hl hrest =>
    exact PathResolves.descend a e1 e path ent ha
      (Relation.ReflTransGen.head hab hreach) hent hm hl hrest

/-- Soundness of the lookup: an entry is returned only if the path resolves to
it. -/
theorem find_path_sound (dir_chain : List (List DirEntry)) (eps : Nat) :
    ∀ (fuel link : Nat) (path : List Nat) (e : Nat),
      cfbf_find_path_in_tree dir_chain eps fuel link path = Run.done (some e) →
      PathResolves dir_chain eps link path e := by
  intro fuel
  induction fuel with
  | zero => intro link path e h; simp [cfbf_find_path_in_tree] at h
  | succ fuel ih =>
    intro link path e h
    unfold cfbf_find_path_in_tree at h
    by_cases h0 : eps = 0
    · rw [if_pos h0] at h; cases h
    · rw [if_neg h0] at h
      dsimp only at h
      by_cases hn : link = CFBF_NOSTREAM
      · rw [if_pos hn] at h; cases h
      · rw [if_neg hn] at h
        cases hent : dirEntryAt dir_chain ((link / eps) % 2 ^ 32) (link % eps) with
        | none => rw [hent] at h; cases h
        | some ent =>
          rw [hent] at h
          dsimp only at h
          have hentry : entryOf dir_chain eps link = some ent := by
            rw [entryOf_eq _ _ _ h0]; exact hent
          by_cases hty : ent.object_type ≠ 1 ∧ ent.object_type ≠ 2 ∧ ent.object_type ≠ 5
          · rw [if_pos hty] at h; cases h
          · rw [if_neg hty] at h
            cases hm : nameMatches ent path (pathComponent path).1 with
            | none => rw [hm] at h; cases h
            | some b =>
              rw [hm] at h
              cases b with
              | true =>
                dsimp only at h
                by_cases hlast : (pathComponent path).2 = true
                · rw [if_pos hlast] at h
                  cases h
                  exact PathResolves.last link link path ent hn
                    Relation.ReflTransGen.refl hentry hm hlast
                · rw [if_neg hlast] at h
                  exact PathResolves.descend link link e path ent hn
                    Relation.ReflTransGen.refl hentry hm (by simpa using hlast)
                    (ih _ _ _ h)
              | false =>
                dsimp only at h
                cases hleft : cfbf_find_path_in_tree dir_chain eps fuel
                    ent.left_sibling_id path with
                | fault => rw [hleft] at h; cases h
                | outOfFuel => rw [hleft] at h; cases h
                | done r =>
                  rw [hleft] at h
                  cases r with
                  | none =>
                    dsimp only at h
                    have hr := ih _ _ _ h
                    have hne : ent.right_sibling_id ≠ CFBF_NOSTREAM := by
                      cases hr <;> assumption
                    exact pathResolves_of_sibLink _ _ link _ _ _ hn
                      ⟨ent, hentry, hne, Or.inr rfl⟩ hr
                  | some x =>
                    dsimp only at h
                    cases h
                    have hr := ih _ _ _ hleft
                    have hne : ent.left_sibling_id ≠ CFBF_NOSTREAM := by
                      cases hr <;> assumption
                    exact pathResolves_of_sibLink _ _ link _ _ _ hn
                      ⟨ent, hentry, hne, Or.inl rfl⟩ hr

/-- On a link that unfolds to a finite tree of entries inside the directory
chain whose compared names lie inside the name field, the lookup returns. -/
theorem find_path_total (dir_chain : List (List DirEntry)) (eps : Nat) (h0 : eps ≠ 0) :
    ∀ (t : DTree) (link : Nat) (path : List Nat) (fuel : Nat),
      t.Rep dir_chain eps nameInField link → t.height + 1 ≤ fuel →
      ∃ r, cfbf_find_path_in_tree dir_chain eps fuel link path = Run.done r := by
  intro t
  induction t with
  | nil =>
    intro link path fuel hrep hfuel
    have hl : link = CFBF_NOSTREAM := hrep
    cases fuel with
    | zero => omega
    | succ fuel =>
      unfold cfbf_find_path_in_tree
      rw [if_neg h0]
      dsimp only
      rw [if_pos hl]
      exact ⟨_, rfl⟩
  | node id c l r ihc ihl ihr =>
    intro link path fuel hrep hfuel
    obtain ⟨hlink, hid, e, he, hfield, hc, hl, hr⟩ := hrep
    subst hlink
    simp only [DTree.height] at hfuel
    cases fuel with
    | zero => omega
    | succ fuel =>
      unfold cfbf_find_path_in_tree
      rw [if_neg h0]
      dsimp only
      rw [if_neg hid, (entryOf_some _ _ _ _ he).2.2]
      dsimp only
      by_cases hty : e.object_type ≠ 1 ∧ e.object_type ≠ 2 ∧ e.object_type ≠ 5
      · rw [if_pos hty]; exact ⟨_, rfl⟩
      · rw [if_neg hty]
        rw [nameMatches_eq_decide e path hfield]
        cases decide ((e.name_length - 1) / 2 = (firstComponent path).length ∧
            e.name.take ((e.name_length - 1) / 2) = firstComponent path) with
        | true =>
          dsimp only
          split
          · exact ⟨_, rfl⟩
          · exact ihc _ _ fuel hc (by omega)
        | false =>
          dsimp only
          obtain ⟨rl, hrl⟩ := ihl e.left_sibling_id path fuel hl (by omega)
          rw [hrl]
          cases rl with
          | none => exact ihr _ _ fuel hr (by omega)
          | some x => exact ⟨_, rfl⟩

theorem cyclicDir_sibReachable (b : Nat) (h : sibReachable cyclicDir 4 0 b) : b = 0 := by
  induction h with
  | refl => rfl
  | tail _ hstep ih =>
    subst ih
    obtain ⟨e, he, hb, hcases⟩ := hstep
    have he0 : entryOf cyclicDir 4 0 =
        some { e1Root with left_sibling_id := 0, child_id := CFBF_NOSTREAM } := by decide
    rw [he0] at he
    cases he
    rcases hcases with h | h
    · exact h
    · exact absurd h hb

/-- C2 (as stated, refuted): in the directory whose root entry is its own left
sibling, no entry is named `X`, so no sequence of entries resolves the path
`X`; but the lookup never returns not-found: whatever the fuel, it is still
following the left sibling link. -/
theorem find_path_cyclic_counterexample :
    (∀ fuel, cfbf_find_path_in_tree cyclicDir 4 fuel 0 [88] = Run.outOfFuel) ∧
    ¬ ∃ e, PathResolves cyclicDir 4 0 [88] e := by
  have he0 : dirEntryAt cyclicDir ((0 / 4) % 2 ^ 32) (0 % 4) =
      some { e1Root with left_sibling_id := 0, child_id := CFBF_NOSTREAM } := by decide
  have hm : nameMatches { e1Root with left_sibling_id := 0, child_id := CFBF_NOSTREAM }
      [88] (pathComponent [88]).1 = some false := by decide
  constructor
  · intro fuel
    induction fuel with
    | zero => rfl
    | succ fuel ih =>
      unfold cfbf_find_path_in_tree
      rw [if_neg (by decide)]
      dsimp only
      rw [if_neg (by decide), he0]
      dsimp only
      rw [if_neg (by decide), hm]
      dsimp only
      rw [ih]
  · rintro ⟨e, h⟩
    have he00 : entryOf cyclicDir 4 0 =
        some { e1Root with left_sibling_id := 0, child_id := CFBF_NOSTREAM } := by decide
    cases h with
    | last _ _ _ ent _ hreach hent hmatch _ =>
      have := cyclicDir_sibReachable _ hreach
      subst this
      rw [he00] at hent
      cases hent
      unfold matchesFirstComponent at hmatch
      rw [hm] at hmatch
      cases hmatch
    | descend _ e1 _ _ ent _ hreach hent hmatch _ _ =>
      have := cyclicDir_sibReachable _ hreach
      subst this
      rw [he00] at hent
      cases hent
      unfold matchesFirstComponent at hmatch
      rw [hm] at hmatch
      cases hmatch

/-- C2 (amended): for every directory whose child and sibling links, followed
from entry 0, form a finite tree of entries inside the directory chain with the
compared names inside the name field, and every path, the lookup started at
entry 0 returns (with fuel for the height of the tree); it returns an entry `e`
only if there are entries `e1 .. ek = e` named as the components, `e1`
reachable from entry 0 through sibling links and each next one reachable from
the child link of the one before through sibling links; it returns not-found
when no such entries exist; and at an entry that does not match, a result
found through the left sibling link is the result, the right sibling link
being searched only when the left search gives not-found. -/
theorem find_path_follows_search (dir_chain : List (List DirEntry)) (eps : Nat)
    (t : DTree) (path : List Nat) (fuel : Nat)
    (hrep : t.Rep dir_chain eps nameInField 0) (hfuel : t.height + 1 ≤ fuel) :
    ∃ r, cfbf_find_path_in_tree dir_chain eps fuel 0 path = Run.done r ∧
      (∀ e, r = some e → PathResolves dir_chain eps 0 path e) ∧
      ((¬ ∃ e, PathResolves dir_chain eps 0 path e) → r = none) ∧
      (∀ (fuel1 id : Nat) (ent : DirEntry), id ≠ CFBF_NOSTREAM →
        entryOf dir_chain eps id = some ent → typeInUse ent →
        nameMatches ent path (pathComponent path).1 = some false →
        ((∀ x, cfbf_find_path_in_tree dir_chain eps fuel1 ent.left_sibling_id path =
              Run.done (some x) →
            cfbf_find_path_in_tree dir_chain eps (fuel1 + 1) id path =
              Run.done (some x)) ∧
          (cfbf_find_path_in_tree dir_chain eps fuel1 ent.left_sibling_id path =
              Run.done none →
            cfbf_find_path_in_tree dir_chain eps (fuel1 + 1) id path =
              cfbf_find_path_in_tree dir_chain eps fuel1 ent.right_sibling_id path))) := by
  have h0 : eps ≠ 0 := by
    cases t with
    | nil =>
      have hn : (0 : Nat) = CFBF_NOSTREAM := hrep
      exact absurd hn (by decide)
    | node id c l r =>
      obtain ⟨_, _, e, he, _⟩ := hrep
      exact (entryOf_some _ _ _ _ he).1
  obtain ⟨r, hr⟩ := find_path_total dir_chain eps h0 t 0 path fuel hrep hfuel
  have hsound : ∀ e, r = some e → PathResolves dir_chain eps 0 path e := by
    intro e he
    subst he
    exact find_path_sound _ _ _ _ _ _ hr
  refine ⟨r, hr, hsound, ?_, ?_⟩
  · intro hno
    cases r with
    | none => rfl
    | some e => exact absurd ⟨e, hsound e rfl⟩ hno
  · intro fuel1 id ent hid hent hty hm
    have hstep : cfbf_find_path_in_tree dir_chain eps (fuel1 + 1) id path =
        (match cfbf_find_path_in_tree dir_chain eps fuel1 ent.left_sibling_id path with
          | Run.done none =>
            cfbf_find_path_in_tree dir_chain eps fuel1 ent.right_sibling_id path
          | r => r) := by
      conv => lhs; unfold cfbf_find_path_in_tree
      rw [if_neg h0]
      dsimp only
      rw [if_neg hid, (entryOf_some _ _ _ _ hent).2.2]
      dsimp only
      rw [if_neg (by unfold typeInUse at hty; omega), hm]
    constructor
    · intro x hx
      rw [hstep, hx]
    · intro hx
      rw [hstep, hx]

/-- C2 (amended) on the directory `leftChainDir`: the path `Root Entry/A`
resolves to entry 3, found behind two left sibling links. -/
theorem find_path_follows_search_witness :
    cfbf_find_path_in_tree leftChainDir 4 6 0
      [82, 111, 111, 116, 32, 69, 110, 116, 114, 121, 47, 65] = Run.done (some 3) ∧
    PathResolves leftChainDir 4 0
      [82, 111, 111, 116, 32, 69, 110, 116, 114, 121, 47, 65] 3 := by
  obtain ⟨r, hr, hsound, _⟩ := find_path_follows_search leftChainDir 4 leftChainTree
    [82, 111, 111, 116, 32, 69, 110, 116, 114, 121, 47, 65] 6
    (rep_mono _ _ _ _ (fun _ he => he.2) _ _ leftChainTree_rep) (by decide)
  have hev : cfbf_find_path_in_tree leftChainDir 4 6 0
      [82, 111, 111, 116, 32, 69, 110, 116, 114, 121, 47, 65] = Run.done (some 3) := by
    decide
  rw [hev] at hr
  cases hr
  exact ⟨hev, hsound 3 rfl⟩

/-! ### C3: path resolution round-trips with the directory walk -/

theorem strchr_utf16_slash (n rest : List Nat) (h : ∀ x ∈ n, x ≠ 0 ∧ x ≠ 47) :
    strchr_utf16 (n ++ 47 :: rest) 47 = some n.length := by
  induction n with
  | nil => simp [strchr_utf16]
  | cons a n ih =>
    have ha := h a (by simp)
    have ih1 := ih (fun x hx => h x (by simp [hx]))
    rw [List.cons_append]
    unfold strchr_utf16
    rw [if_neg ha.1, if_neg ha.2, ih1]
    rfl

theorem strchr_utf16_none (n : List Nat) (h : ∀ x ∈ n, x ≠ 47) :
    strchr_utf16 n 47 = none := by
  induction n with
  | nil => rfl
  | cons a n ih =>
    have ha := h a (by simp)
    have ih1 := ih (fun x hx => h x (by simp [hx]))
    unfold strchr_utf16
    by_cases ha0 : a = 0
    · rw [if_pos ha0]
    · rw [if_neg ha0, if_neg ha, ih1]; rfl

theorem strlen_utf16_eq_length (n : List Nat) (h : ∀ x ∈ n, x ≠ 0) :
    strlen_utf16 n = n.length := by
  induction n with
  | nil => rfl
  | cons a n ih =>
    have ha := h a (by simp)
    have ih1 := ih (fun x hx => h x (by simp [hx]))
    simp only [strlen_utf16, if_neg ha, ih1, List.length_cons]

theorem pathComponent_last (n : List Nat) (h : ∀ x ∈ n, x ≠ 0 ∧ x ≠ 47) :
    pathComponent n = (n.length, true) := by
  unfold pathComponent
  rw [strchr_utf16_none n (fun x hx => (h x hx).2),
    strlen_utf16_eq_length n (fun x hx => (h x hx).1)]

theorem pathComponent_slash (n rest : List Nat) (h : ∀ x ∈ n, x ≠ 0 ∧ x ≠ 47) :
    pathComponent (n ++ 47 :: rest) = (n.length, false) := by
  unfold pathComponent
  rw [strchr_utf16_slash n rest h]

theorem entryName_length (e : DirEntry) (h : nameWellFormed e) :
    (entryName e).length = e.name_length / 2 - 1 := by
  unfold entryName
  rw [List.length_take]
  exact Nat.min_eq_left h.2.2.1

/-- For an entry with a well-formed name the test of the lookup compares the
name of the entry with the first component of the path. -/
theorem nameMatches_wellFormed (e : DirEntry) (path : List Nat) (h : nameWellFormed e) :
    nameMatches e path (pathComponent path).1 =
      some (decide (entryName e = firstComponent path)) := by
  have hfield : e.name_length ≤ 2 * e.name.length + 2 := by
    have := h.2.2.1; have := h.1; omega
  rw [nameMatches_eq_decide e path hfield]
  have hk : (e.name_length - 1) / 2 = e.name_length / 2 - 1 := by
    have := h.1; have := h.2.1; omega
  have hlen := entryName_length e h
  rw [hk]
  congr 1
  apply decide_eq_decide.2
  constructor
  · intro hc; exact hc.2
  · intro hc
    refine ⟨?_, hc⟩
    rw [← hlen, hc]

theorem nameOf_eq (dir_chain : List (List DirEntry)) (eps id : Nat) (e : DirEntry)
    (h : entryOf dir_chain eps id = some e) : nameOf dir_chain eps id = entryName e := by
  unfold nameOf
  rw [h]

theorem paths_pre (dir_chain : List (List DirEntry)) (eps : Nat) :
    ∀ (t : DTree) (pre : List Nat),
      t.paths dir_chain eps pre =
        (t.paths dir_chain eps []).map (fun ip => (ip.1, pre ++ ip.2)) := by
  intro t
  induction t with
  | nil => intro pre; rfl
  | node id c l r ihc ihl ihr =>
    intro pre
    simp only [DTree.paths, List.map_cons, List.map_append, List.nil_append]
    rw [ihc (pre ++ nameOf dir_chain eps id ++ [47]), ihl pre, ihr pre,
      ihc (nameOf dir_chain eps id ++ [47])]
    simp [List.map_map, Function.comp_def, List.append_assoc]

/-- The first component of the path of an entry of a tree is the name of one
of the siblings at the top of the tree. -/
theorem paths_firstComponent (dir_chain : List (List DirEntry)) (eps : Nat) :
    ∀ (t : DTree) (link : Nat), t.Rep dir_chain eps entryWellFormed link →
      ∀ ip ∈ t.paths dir_chain eps [],
        firstComponent ip.2 ∈ t.sibNames dir_chain eps := by
  intro t
  induction t with
  | nil => intro link _ ip hip; simp [DTree.paths] at hip
  | node id c l r ihc ihl ihr =>
    intro link hrep ip hip
    obtain ⟨_, _, e, he, hwf, hc, hl, hr⟩ := hrep
    have hname := nameOf_eq _ _ _ _ he
    have hfree := hwf.2.2.2.2
    simp only [DTree.paths, List.nil_append, List.mem_cons, List.mem_append] at hip
    simp only [DTree.sibNames, List.mem_cons, List.mem_append]
    rcases hip with hip | (hip | hip) | hip
    · left
      subst hip
      dsimp only
      rw [hname]
      unfold firstComponent
      rw [pathComponent_last _ hfree]
      simp
    · left
      rw [paths_pre] at hip
      obtain ⟨ip1, _, hip1⟩ := List.mem_map.1 hip
      subst hip1
      dsimp only
      rw [hname]
      unfold firstComponent
      rw [List.append_assoc, List.singleton_append, pathComponent_slash _ _ hfree]
      simp
    · exact Or.inr (Or.inl (ihl _ hl ip hip))
    · exact Or.inr (Or.inr (ihr _ hr ip hip))

/-- A path whose first component is not the name of a sibling at the top of
the tree is not found. -/
theorem find_path_not_in_siblings (dir_chain : List (List DirEntry)) (eps : Nat)
    (h0 : eps ≠ 0) (path : List Nat) :
    ∀ (t : DTree) (link fuel : Nat), t.Rep dir_chain eps entryWellFormed link →
      t.height + 1 ≤ fuel → firstComponent path ∉ t.sibNames dir_chain eps →
      cfbf_find_path_in_tree dir_chain eps fuel link path = Run.done none := by
  intro t
  induction t with
  | nil =>
    intro link fuel hrep hfuel _
    have hl : link = CFBF_NOSTREAM := hrep
    cases fuel with
    | zero => omega
    | succ fuel =>
      unfold cfbf_find_path_in_tree
      rw [if_neg h0]
      dsimp only
      rw [if_pos hl]
  | node id c l r _ ihl ihr =>
    intro link fuel hrep hfuel hnot
    obtain ⟨hlink, hid, e, he, hwf, _, hl, hr⟩ := hrep
    subst hlink
    simp only [DTree.height] at hfuel
    simp only [DTree.sibNames, List.mem_cons, List.mem_append, not_or] at hnot
    rw [nameOf_eq _ _ _ _ he] at hnot
    cases fuel with
    | zero => omega
    | succ fuel =>
      unfold cfbf_find_path_in_tree
      rw [if_neg h0]
      dsimp only
      rw [if_neg hid, (entryOf_some _ _ _ _ he).2.2]
      dsimp only
      have hty := hwf.1
      rw [if_neg (by unfold typeInUse at hty; omega), nameMatches_wellFormed e path hwf.2,
        decide_eq_false (fun hc => hnot.1 hc.symm)]
      dsimp only
      rw [ihl _ fuel hl (by omega) hnot.2.1]
      dsimp only
      exact ihr _ fuel hr (by omega) hnot.2.2

/-- In a well-formed directory, the path of every entry of the tree resolves
to that entry. -/
theorem find_path_of_paths (dir_chain : List (List DirEntry)) (eps : Nat) (h0 : eps ≠ 0) :
    ∀ (t : DTree) (link fuel : Nat), t.Rep dir_chain eps entryWellFormed link →
      t.childNamesDistinct dir_chain eps → (t.sibNames dir_chain eps).Nodup →
      t.height + 1 ≤ fuel →
      ∀ ip ∈ t.paths dir_chain eps [],
        cfbf_find_path_in_tree dir_chain eps fuel link ip.2 = Run.done (some ip.1) := by
  intro t
  induction t with
  | nil => intro link fuel _ _ _ _ ip hip; simp [DTree.paths] at hip
  | node id c l r ihc ihl ihr =>
    intro link fuel hrep hdist hnodup hfuel ip hip
    have hrep0 := hrep
    obtain ⟨hlink, hid, e, he, hwf, hc, hl, hr⟩ := hrep
    subst hlink
    obtain ⟨hcn, hcd, hld, hrd⟩ := hdist
    have hname := nameOf_eq _ _ _ _ he
    have hfree := hwf.2.2.2.2
    have hty := hwf.1
    simp only [DTree.height] at hfuel
    simp only [DTree.sibNames, List.nodup_cons, List.mem_append, not_or,
      List.nodup_append] at hnodup
    rw [hname] at hnodup
    obtain ⟨⟨hnl, hnr⟩, hln, hrn, hdisj⟩ := hnodup
    simp only [DTree.paths, List.nil_append, List.mem_cons, List.mem_append] at hip
    cases fuel with
    | zero => omega
    | succ fuel =>
      unfold cfbf_find_path_in_tree
      rw [if_neg h0]
      dsimp only
      rw [if_neg hid, (entryOf_some _ _ _ _ he).2.2]
      dsimp only
      rw [if_neg (by unfold typeInUse at hty; omega), nameMatches_wellFormed e ip.2 hwf.2]
      rcases hip with hip | (hip | hip) | hip
      · subst hip
        dsimp only
        rw [hname]
        have hfc : firstComponent (entryName e) = entryName e := by
          unfold firstComponent
          rw [pathComponent_last _ hfree]; simp
        rw [hfc, decide_eq_true rfl]
        dsimp only
        rw [pathComponent_last _ hfree]
        simp
      · rw [paths_pre] at hip
        obtain ⟨ip1, hip1, hip2⟩ := List.mem_map.1 hip
        subst hip2
        dsimp only
        rw [hname, List.append_assoc, List.singleton_append]
        have hfc : firstComponent (entryName e ++ 47 :: ip1.2) = entryName e := by
          unfold firstComponent
          rw [pathComponent_slash _ _ hfree]; simp
        rw [hfc, decide_eq_true rfl]
        dsimp only
        rw [pathComponent_slash _ _ hfree]
        simp only [Bool.false_eq_true, if_false]
        have hdrop : List.drop ((entryName e).length + 1) (entryName e ++ 47 :: ip1.2) =
            ip1.2 := by
          rw [List.drop_append_eq_append_drop]
          simp
        rw [hdrop]
        exact ihc _ fuel hc hcd hcn (by omega) ip1 hip1
      · have hfc := paths_firstComponent _ _ l _ hl ip hip
        have hne : ¬ (entryName e = firstComponent ip.2) := by
          intro hc2; rw [← hc2] at hfc; exact hnl hfc
        rw [decide_eq_false hne]
        dsimp only
        rw [ihl _ fuel hl hld hln (by omega) ip hip]
      · have hfc := paths_firstComponent _ _ r _ hr ip hip
        have hne : ¬ (entryName e = firstComponent ip.2) := by
          intro hc2; rw [← hc2] at hfc; exact hnr hfc
        rw [decide_eq_false hne]
        dsimp only
        have hnotl : firstComponent ip.2 ∉ l.sibNames dir_chain eps :=
          fun hc2 => hdisj hc2 hfc
        rw [find_path_not_in_siblings _ _ h0 ip.2 l _ fuel hl (by omega) hnotl]
        dsimp only
        exact ihr _ fuel hr hrd hrn (by omega) ip hip

theorem applyCalls_recordCall (dir_chain : List (List DirEntry)) (eps : Nat)
    (P : DirEntry → Prop) :
    ∀ (t : DTree) (link : Nat) (parent : Option Nat) (depth : Int)
      (s : List (Nat × Option Nat × Int)), t.Rep dir_chain eps P link →
      applyCalls dir_chain eps recordCall s (t.calls parent depth) =
        s ++ t.calls parent depth := by
  intro t
  induction t with
  | nil => intro link parent depth s _; simp [DTree.calls, applyCalls]
  | node id c l r ihc ihl ihr =>
    intro link parent depth s hrep
    obtain ⟨_, _, e, he, _, hc, hl, hr⟩ := hrep
    simp only [DTree.calls]
    have hcons : ∀ (x : Nat × Option Nat × Int) (rest : List (Nat × Option Nat × Int)),
        applyCalls dir_chain eps recordCall s (x :: rest) =
          applyCalls dir_chain eps recordCall
            (match entryOf dir_chain eps x.1 with
              | some e => (recordCall s e x.2.1 x.1 x.2.2).2
              | none => s) rest := fun x rest => rfl
    rw [hcons, applyCalls_append, applyCalls_append]
    simp only [he, recordCall]
    rw [ihc _ _ _ _ hc, ihl _ _ _ _ hl, ihr _ _ _ _ hr]
    simp [List.append_assoc]

theorem paths_ids (dir_chain : List (List DirEntry)) (eps : Nat) :
    ∀ (t : DTree) (pre : List Nat),
      (t.paths dir_chain eps pre).map (fun ip => ip.1) = t.ids := by
  intro t
  induction t with
  | nil => intro pre; rfl
  | node id c l r ihc ihl ihr =>
    intro pre
    simp [DTree.paths, DTree.ids, ihc, ihl, ihr]

/-- C3: in a well-formed directory (the links from entry 0 form a finite tree
`t` of entries inside the chain, of type 1, 2 or 5, whose names have
`nameLength = 2 * (code units + 1)` and hold neither `/` nor NUL, the names of
the siblings being pairwise distinct), `cfbf_walk_dir_tree` visits the entries
of `t.calls none 0`; these are the entries of `t.paths`, which gives each of
them the path made of the names on its parent chain joined with `/`; and
resolving the path of an entry returns exactly that entry. Since the
directory and the tree fix the path of an entry, resolving the path rebuilt
from the result is the same resolution and returns the entry again. -/
theorem find_path_round_trip (header : Header) (dir_chain : List (List DirEntry))
    (t : DTree) (fuel : Nat)
    (hrep : t.Rep dir_chain (cfbf_get_sector_size header / sizeofDirEntry)
      entryWellFormed 0)
    (hdist : t.childNamesDistinct dir_chain (cfbf_get_sector_size header / sizeofDirEntry))
    (hsib : (t.sibNames dir_chain (cfbf_get_sector_size header / sizeofDirEntry)).Nodup)
    (hfuel : t.height + 1 ≤ fuel) :
    cfbf_walk_dir_tree header (some dir_chain) recordCall fuel [] =
      Run.done (1, t.calls none 0) ∧
    (t.paths dir_chain (cfbf_get_sector_size header / sizeofDirEntry) []).map
        (fun ip => ip.1) = (t.calls none 0).map (fun c => c.1) ∧
    ∀ ip ∈ t.paths dir_chain (cfbf_get_sector_size header / sizeofDirEntry) [],
      cfbf_find_path_in_tree dir_chain (cfbf_get_sector_size header / sizeofDirEntry)
        fuel 0 ip.2 = Run.done (some ip.1) := by
  have h0 : (0 : Nat) ≠ CFBF_NOSTREAM := by decide
  have heps : cfbf_get_sector_size header / sizeofDirEntry ≠ 0 := by
    cases t with
    | nil =>
      have hn : (0 : Nat) = CFBF_NOSTREAM := hrep
      exact absurd hn h0
    | node id c l r =>
      obtain ⟨_, _, e, he, _⟩ := hrep
      exact (entryOf_some _ _ _ _ he).1
  refine ⟨?_, ?_, ?_⟩
  · have h := walk_from_chain_tree dir_chain _ recordCall entryWellFormed
      (fun e he => by have := he.1; unfold typeInUse at this; omega)
      (fun _ _ _ _ _ => by simp [recordCall]) t 0 none 0 [] fuel hrep (by omega)
    rw [if_pos h0, applyCalls_recordCall _ _ _ t 0 none 0 [] hrep] at h
    simpa using h
  · rw [paths_ids, calls_ids]
  · exact find_path_of_paths dir_chain _ heps t 0 fuel hrep hdist hsib hfuel

/-- C3 on the directory `leftChainDir`: the walk visits the entries 0 to 4,
and the path of entry 4, `Root Entry/A/D`, resolves to entry 4. -/
theorem find_path_round_trip_witness :
    cfbf_walk_dir_tree e1Header (some leftChainDir) recordCall 6 [] =
      Run.done (1, leftChainTree.calls none 0) ∧
    ((4, [82, 111, 111, 116, 32, 69, 110, 116, 114, 121, 47, 65, 47, 68]) ∈
      leftChainTree.paths leftChainDir
        (cfbf_get_sector_size e1Header / sizeofDirEntry) []) ∧
    cfbf_find_path_in_tree leftChainDir (cfbf_get_sector_size e1Header / sizeofDirEntry)
      6 0 [82, 111, 111, 116, 32, 69, 110, 116, 114, 121, 47, 65, 47, 68] =
      Run.done (some 4) := by
  have h := find_path_round_trip e1Header leftChainDir leftChainTree 6
    (rep_mono _ _ _ _ (fun _ he => he.1) _ _ leftChainTree_rep)
    (by simp only [leftChainTree, DTree.childNamesDistinct, DTree.sibNames]; decide)
    (by simp only [leftChainTree, DTree.sibNames]; decide) (by decide)
  have hmem : (4, [82, 111, 111, 116, 32, 69, 110, 116, 114, 121, 47, 65, 47, 68]) ∈
      leftChainTree.paths leftChainDir
        (cfbf_get_sector_size e1Header / sizeofDirEntry) [] := by decide
  exact ⟨h.1, hmem, h.2.2 _ hmem⟩

/-! ### C18, C19, C20: sector addressing -/

/-- C18 (violated by the code): with sector size 512 and a file of 2560 bytes,
`cfbf_get_sector_ptr` succeeds for `S = 0xFFFFFFFF` and returns byte offset 0,
the file header, although `(S + 1) * 512 = 2 ^ 41`; and for `S = 2 ^ 23` it
returns offset 512, the place of sector 0: the product is reduced modulo
`2 ^ 32` before it is stored in the 64-bit `offset`. -/
theorem get_sector_ptr_wraps :
    cfbf_get_sector_ptr e1Header 2560 0xFFFFFFFF = some 0 ∧
    (0xFFFFFFFF + 1) * cfbf_get_sector_size e1Header = 2 ^ 41 ∧
    cfbf_get_sector_ptr e1Header 2560 (2 ^ 23) = some 512 ∧
    (2 ^ 23 + 1) * cfbf_get_sector_size e1Header = 2 ^ 32 + 512 := by
  decide

/-- C19 (violated by the code): with sector size 512 and a file of 2100 bytes,
sector 3 starts at byte 2048 and would end at byte 2560, past the end of the
file; `cfbf_get_sector_ptr` succeeds all the same, because it only compares
the start of the sector with the file size, whereas `cfbf_is_sector_in_file`
answers 0 for the same sector. -/
theorem get_sector_ptr_truncated_sector :
    cfbf_get_sector_ptr e1Header 2100 3 = some 2048 ∧
    (3 + 1) * cfbf_get_sector_size e1Header + cfbf_get_sector_size e1Header > 2100 ∧
    cfbf_is_sector_in_file e1Header 2100 3 = 0 := by
  decide

/-- C20 (violated by the code): with mini-sectors of 64 bytes and a mini-stream
buffer of 128 bytes, `cfbf_get_sector_ptr_in_mini_stream` succeeds for
mini-sector 2 and returns offset 128, the first byte after the buffer: the test
is `offset > mini_stream_size`, where `cfbf_get_sector_ptr` has `>=`; and for
mini-sector `2 ^ 26` it returns offset 0, the 32-bit product having wrapped. -/
theorem get_sector_ptr_in_mini_stream_past_end :
    cfbf_get_sector_ptr_in_mini_stream e1Header 128 2 = some 128 ∧
    ¬ (2 * cfbf_get_mini_fat_sector_size e1Header < 128) ∧
    cfbf_get_sector_ptr_in_mini_stream e1Header 128 (2 ^ 26) = some 0 ∧
    2 ^ 26 * cfbf_get_mini_fat_sector_size e1Header = 2 ^ 32 := by
  decide

/-! ### C13: storage and root entries in step 2 of `cfbf_walk` -/

/-- C13 (as stated, refuted): in step 2 of `cfbf_walk` on the E1 container the
root entry (type 5) is not skipped: its chain is followed in the main FAT and
sector 3 is marked with the root entry as owner; a root entry whose chain does
not match its `streamSize` makes the walk fail; and a storage entry (type 1)
whose name does not convert makes the walk fail too. -/
theorem walk_root_entry_is_walked :
    cfbf_walk_dir_entries e1File 4 3 [some e1Root] 0 (List.replicate 4 WalkSector.zero) =
      Run.done
        { retval := 0,
          sector_map := (List.replicate 4 WalkSector.zero).set 3
            { entry := some e1Root, sector_index := 0, is_difsect := false,
              is_fatsect := false, is_visited := true },
          failed := false } ∧
    walkDirEntriesFailed
      (cfbf_walk_dir_entries e1File 4 3 [some { e1Root with stream_size := 1000 }] 0
        (List.replicate 4 WalkSector.zero)) = true ∧
    walkDirEntriesFailed
      (cfbf_walk_dir_entries { e1File with utf16_to_utf8_ok := fun _ => false } 4 3
        [some (storageEntry 65 CFBF_NOSTREAM CFBF_NOSTREAM CFBF_NOSTREAM)] 0
        (List.replicate 4 WalkSector.zero)) = true := by
  decide

/-- C13 (amended): in step 2 of `cfbf_walk`, a storage entry (type 1) whose
name converts is skipped: the loop goes on with the same map and the same
`retval`, as if the entry were not there. A storage or root entry whose name
does not convert makes the walk fail. The root entry (type 5) is not skipped:
it is passed to `cfbf_walk_entry`, which follows its chain in the main FAT,
and a failure of that walk makes `cfbf_walk` fail. -/
theorem walk_dir_entries_storage_root (cfbf : CfbfFile) (n fuel : Nat) (ent : DirEntry)
    (rest : List (Option DirEntry)) (retval : Int) (m : List WalkSector) :
    (ent.object_type = 1 → cfbf.utf16_to_utf8_ok ent = true →
      cfbf_walk_dir_entries cfbf n fuel (some ent :: rest) retval m =
        cfbf_walk_dir_entries cfbf n fuel rest retval m) ∧
    ((ent.object_type = 1 ∨ ent.object_type = 5) → cfbf.utf16_to_utf8_ok ent = false →
      cfbf_walk_dir_entries cfbf n fuel (some ent :: rest) retval m =
        Run.done { retval := -1, sector_map := m, failed := true }) ∧
    (ent.object_type = 5 → cfbf.utf16_to_utf8_ok ent = true →
      (walkEntryTable cfbf ent = cfbf.fat ∧
        cfbf_walk_dir_entries cfbf n fuel (some ent :: rest) retval m =
          match cfbf_walk_entry cfbf m n ent fuel with
          | Run.done r =>
            if r.exit.retval < 0 then
              Run.done { retval := -1, sector_map := r.sector_map, failed := true }
            else cfbf_walk_dir_entries cfbf n fuel rest retval r.sector_map
          | Run.fault => Run.fault
          | Run.outOfFuel => Run.outOfFuel)) := by
  refine ⟨?_, ?_, ?_⟩
  · intro h1 hok
    conv => lhs; unfold cfbf_walk_dir_entries
    rw [if_neg (by omega), if_pos (Or.inl h1), if_neg (by rw [hok]; decide), if_pos h1]
  · intro h15 hbad
    conv => lhs; unfold cfbf_walk_dir_entries
    rw [if_neg (by omega), if_pos (by omega), if_pos hbad]
  · intro h5 hok
    constructor
    · unfold walkEntryTable walkEntryUsesMini
      simp [h5]
    · conv => lhs; unfold cfbf_walk_dir_entries
      rw [if_neg (by omega), if_pos (Or.inr (Or.inr h5)), if_neg (by rw [hok]; decide),
        if_neg (by omega)]

/-- C13 (amended) on the E1 container: a storage entry in front of the root
entry leaves step 2 as it is without it. -/
theorem walk_dir_entries_storage_root_witness :
    cfbf_walk_dir_entries e1File 4 3
        [some (storageEntry 65 CFBF_NOSTREAM CFBF_NOSTREAM CFBF_NOSTREAM), some e1Root] 0
        (List.replicate 4 WalkSector.zero) =
      cfbf_walk_dir_entries e1File 4 3 [some e1Root] 0
        (List.replicate 4 WalkSector.zero) :=
  (walk_dir_entries_storage_root e1File 4 3
    (storageEntry 65 CFBF_NOSTREAM CFBF_NOSTREAM CFBF_NOSTREAM) [some e1Root] 0
    (List.replicate 4 WalkSector.zero)).1 (by decide) (by decide)

/-! ### The logged directory walk -/

theorem toRun_thenIfPositive {σ : Type} (w : WalkLog σ)
    (k : σ → List WalkEvent → WalkLog σ) :
    (w.thenIfPositive k).toRun =
      Run.thenIfPositive w.toRun (fun s => (k s w.log).toRun) := by
  obtain ⟨state, log, result⟩ := w
  cases result with
  | done ret =>
    by_cases hle : ret ≤ 0
    · simp [WalkLog.thenIfPositive, WalkLog.toRun, Run.thenIfPositive, hle]
    · simp [WalkLog.thenIfPositive, WalkLog.toRun, Run.thenIfPositive, hle]
  | fault => rfl
  | outOfFuel => rfl

/-- The logged walk returns what `cfbf_walk_dir_tree_from_chain` returns. -/
theorem walkLogged_toRun {σ : Type} (dir_chain : List (List DirEntry)) (eps : Nat)
    (cb : σ → DirEntry → Option Nat → Nat → Int → Int × σ) :
    ∀ (fuel entry_id : Nat) (parent : Option Nat) (depth : Int) (s : σ)
      (log : List WalkEvent),
      (walkLogged dir_chain eps cb fuel entry_id parent depth s log).toRun =
        cfbf_walk_dir_tree_from_chain dir_chain eps cb fuel entry_id parent depth s := by
  intro fuel
  induction fuel with
  | zero => intro entry_id parent depth s log; rfl
  | succ fuel ih =>
    intro entry_id parent depth s log
    unfold walkLogged cfbf_walk_dir_tree_from_chain
    by_cases h0 : eps = 0
    · rw [if_pos h0, if_pos h0]; rfl
    · rw [if_neg h0, if_neg h0]
      dsimp only
      by_cases hsec : (entry_id / eps) % 2 ^ 32 ≥ dir_chain.length
      · rw [if_pos hsec, if_pos hsec]; rfl
      · rw [if_neg hsec, if_neg hsec]
        cases hent : dirEntryAt dir_chain ((entry_id / eps) % 2 ^ 32) (entry_id % eps) with
        | none => rfl
        | some entry =>
          dsimp only
          by_cases hty : entry.object_type = 0
          · rw [if_pos hty, if_pos hty]; rfl
          · rw [if_neg hty, if_neg hty]
            by_cases hr0 : (cb s entry parent entry_id depth).1 = 0
            · rw [if_pos hr0, if_pos hr0]; rfl
            · rw [if_neg hr0, if_neg hr0]
              by_cases hrn : (cb s entry parent entry_id depth).1 < 0
              · rw [if_pos hrn, if_pos hrn]; rfl
              · rw [if_neg hrn, if_neg hrn]
                have hlink : ∀ (link : Nat) (p : Option Nat) (d : Int) (s1 : σ)
                    (l1 : List WalkEvent),
                    (if link ≠ CFBF_NOSTREAM then
                        walkLogged dir_chain eps cb fuel link p d s1 l1
                      else { state := s1, log := l1, result := Run.done 1 }).toRun =
                    (if link ≠ CFBF_NOSTREAM then
                        cfbf_walk_dir_tree_from_chain dir_chain eps cb fuel link p d s1
                      else Run.done (1, s1)) := by
                  intro link p d s1 l1
                  split
                  · exact ih _ _ _ _ _
                  · rfl
                rw [toRun_thenIfPositive, hlink]
                congr 1
                funext s1
                rw [toRun_thenIfPositive, hlink]
                congr 1
                funext s2
                rw [toRun_thenIfPositive, hlink]
                congr 1

theorem stops_callback_pos (id : Nat) (ret : Int) (h : 0 < ret) :
    (WalkEvent.callback id ret).stops = none := by
  simp only [WalkEvent.stops]
  rw [if_neg (by omega)]

theorem stops_callback_le (id : Nat) (ret : Int) (h : ret ≤ 0) :
    (WalkEvent.callback id ret).stops = some ret := by
  simp only [WalkEvent.stops]
  rw [if_pos h]

theorem stops_le (ev : WalkEvent) (v : Int) (h : ev.stops = some v) : v ≤ 0 := by
  cases ev with
  | callback id ret =>
    by_cases hle : ret ≤ 0
    · rw [stops_callback_le id ret hle] at h
      cases h; exact hle
    · rw [stops_callback_pos id ret (by omega)] at h
      cases h
  | unused id => simp only [WalkEvent.stops] at h; cases h; decide
  | notInChain id => simp only [WalkEvent.stops] at h; cases h; decide

theorem wellStopped_thenIfPositive {σ : Type} (w : WalkLog σ)
    (k : σ → List WalkEvent → WalkLog σ) (log0 : List WalkEvent)
    (hw : w.WellStopped log0) (hk : ∀ s, (k s w.log).WellStopped w.log) :
    (w.thenIfPositive k).WellStopped log0 := by
  obtain ⟨new, hlog, hcase⟩ := hw
  unfold WalkLog.thenIfPositive
  cases hr : w.result with
  | done ret =>
    dsimp only
    by_cases hle : ret ≤ 0
    · rw [if_pos hle]; exact ⟨new, hlog, hcase⟩
    · rw [if_neg hle]
      rcases hcase with ⟨hall, _⟩ | ⟨pre, ev, v, _, _, hst, hres⟩
      · obtain ⟨new2, hlog2, hcase2⟩ := hk w.state
        refine ⟨new ++ new2, by rw [hlog2, hlog, List.append_assoc], ?_⟩
        rcases hcase2 with ⟨hall2, hres2⟩ | ⟨pre2, ev2, v2, hnew2, hpre2, hst2, hres2⟩
        · left
          refine ⟨?_, hres2⟩
          intro ev hev
          rcases List.mem_append.1 hev with h | h
          · exact hall ev h
          · exact hall2 ev h
        · right
          refine ⟨new ++ pre2, ev2, v2, by rw [hnew2, List.append_assoc], ?_, hst2, hres2⟩
          intro x hx
          rcases List.mem_append.1 hx with h | h
          · exact hall x h
          · exact hpre2 x h
      · rw [hr] at hres
        cases hres
        exact absurd (stops_le ev _ hst) hle
  | fault => dsimp only; exact ⟨new, hlog, hcase⟩
  | outOfFuel => dsimp only; exact ⟨new, hlog, hcase⟩

/-- Every run of the logged walk is well stopped. -/
theorem walkLogged_wellStopped {σ : Type} (dir_chain : List (List DirEntry)) (eps : Nat)
    (cb : σ → DirEntry → Option Nat → Nat → Int → Int × σ) :
    ∀ (fuel entry_id : Nat) (parent : Option Nat) (depth : Int) (s : σ)
      (log : List WalkEvent),
      (walkLogged dir_chain eps cb fuel entry_id parent depth s log).WellStopped log := by
  intro fuel
  induction fuel with
  | zero =>
    intro entry_id parent depth s log
    exact ⟨[], by simp [walkLogged], Or.inl ⟨by simp, by intro ret h; cases h⟩⟩
  | succ fuel ih =>
    intro entry_id parent depth s log
    have hstop : ∀ (ev : WalkEvent) (v : Int) (s1 : σ), ev.stops = some v →
        WalkLog.WellStopped
          { state := s1, log := log ++ [ev], result := Run.done v } log := by
      intro ev v s1 hev
      exact ⟨[ev], rfl, Or.inr ⟨[], ev, v, rfl, by simp, hev, rfl⟩⟩
    unfold walkLogged
    by_cases h0 : eps = 0
    · rw [if_pos h0]
      exact ⟨[], by simp, Or.inl ⟨by simp, by intro ret h; cases h⟩⟩
    · rw [if_neg h0]
      dsimp only
      by_cases hsec : (entry_id / eps) % 2 ^ 32 ≥ dir_chain.length
      · rw [if_pos hsec]; exact hstop _ _ _ rfl
      · rw [if_neg hsec]
        cases hent : dirEntryAt dir_chain ((entry_id / eps) % 2 ^ 32) (entry_id % eps) with
        | none =>
          exact ⟨[], by simp, Or.inl ⟨by simp, by intro ret h; cases h⟩⟩
        | some entry =>
          dsimp only
          by_cases hty : entry.object_type = 0
          · rw [if_pos hty]; exact hstop _ _ _ rfl
          · rw [if_neg hty]
            by_cases hr0 : (cb s entry parent entry_id depth).1 = 0
            · rw [if_pos hr0]
              exact hstop _ 0 _ (by rw [stops_callback_le _ _ (by omega), hr0])
            · rw [if_neg hr0]
              by_cases hrn : (cb s entry parent entry_id depth).1 < 0
              · rw [if_pos hrn]
                exact hstop _ _ _ (stops_callback_le _ _ (by omega))
              · rw [if_neg hrn]
                have hlink : ∀ (link : Nat) (p : Option Nat) (d : Int) (s1 : σ)
                    (l1 : List WalkEvent),
                    WalkLog.WellStopped
                      (if link ≠ CFBF_NOSTREAM then
                        walkLogged dir_chain eps cb fuel link p d s1 l1
                      else { state := s1, log := l1, result := Run.done 1 }) l1 := by
                  intro link p d s1 l1
                  split
                  · exact ih _ _ _ _ _
                  · exact ⟨[], by simp, Or.inl ⟨by simp, by
                      intro ret h; cases h; decide⟩⟩
                have hdone : ∀ (s1 : σ) (l1 : List WalkEvent),
                    WalkLog.WellStopped
                      ({ state := s1, log := l1, result := Run.done 1 } : WalkLog σ) l1 :=
                  fun s1 l1 => ⟨[], by simp, Or.inl ⟨by simp, by
                    intro ret h; cases h; decide⟩⟩
                have hfirst : WalkLog.WellStopped
                    (if entry.child_id ≠ CFBF_NOSTREAM then
                      walkLogged dir_chain eps cb fuel entry.child_id (some entry_id)
                        (depth + 1) (cb s entry parent entry_id depth).2
                        (log ++ [WalkEvent.callback entry_id
                          (cb s entry parent entry_id depth).1])
                    else { state := (cb s entry parent entry_id depth).2,
                           log := log ++ [WalkEvent.callback entry_id
                             (cb s entry parent entry_id depth).1],
                           result := Run.done 1 }) log := by
                  obtain ⟨new, hl, hc⟩ := hlink entry.child_id (some entry_id) (depth + 1)
                    (cb s entry parent entry_id depth).2
                    (log ++ [WalkEvent.callback entry_id (cb s entry parent entry_id depth).1])
                  have hcont : (WalkEvent.callback entry_id
                      (cb s entry parent entry_id depth).1).stops = none :=
                    stops_callback_pos _ _ (by omega)
                  refine ⟨WalkEvent.callback entry_id (cb s entry parent entry_id depth).1
                    :: new, by rw [hl]; simp, ?_⟩
                  rcases hc with ⟨hall, hres⟩ | ⟨pre, ev, v, hnew, hpre, hst, hres⟩
                  · left
                    refine ⟨?_, hres⟩
                    intro ev hev
                    rcases List.mem_cons.1 hev with h | h
                    · rw [h]; exact hcont
                    · exact hall ev h
                  · right
                    refine ⟨WalkEvent.callback entry_id
                      (cb s entry parent entry_id depth).1 :: pre, ev, v,
                      by rw [hnew]; simp, ?_, hst, hres⟩
                    intro x hx
                    rcases List.mem_cons.1 hx with h | h
                    · rw [h]; exact hcont
                    · exact hpre x h
                apply wellStopped_thenIfPositive _ _ _ hfirst
                intro s1
                apply wellStopped_thenIfPositive _ _ _ (hlink _ _ _ _ _)
                intro s2
                apply wellStopped_thenIfPositive _ _ _ (hlink _ _ _ _ _)
                intro s3
                exact hdone _ _

/-- In a well-stopped run, an event that ends the walk is the last event, and
the walk has returned its value. -/
theorem wellStopped_stop {σ : Type} (w : WalkLog σ) (hw : w.WellStopped [])
    (pre post : List WalkEvent) (ev : WalkEvent) (v : Int)
    (hlog : w.log = pre ++ ev :: post) (hst : ev.stops = some v) :
    post = [] ∧ w.result = Run.done v := by
  obtain ⟨new, hnew, hcase⟩ := hw
  rw [List.nil_append] at hnew
  rw [hnew] at hlog
  rcases hcase with ⟨hall, _⟩ | ⟨pre1, ev1, v1, hn1, hpre1, hst1, hres1⟩
  · have := hall ev (by rw [hlog]; simp)
    rw [this] at hst; cases hst
  · rw [hn1] at hlog
    rcases List.eq_nil_or_concat post with hp | ⟨init, lst, hp⟩
    · subst hp
      have h := List.append_inj' hlog rfl
      have h2 : ev1 = ev := by
        have := h.2; injection this
      subst h2
      rw [hst] at hst1
      cases hst1
      exact ⟨rfl, hres1⟩
    · rw [List.concat_eq_append] at hp
      subst hp
      have hre : pre ++ ev :: (init ++ [lst]) = (pre ++ ev :: init) ++ [lst] := by simp
      rw [hre] at hlog
      have h := List.append_inj' hlog rfl
      have hmem : ev ∈ pre1 := by rw [h.1]; simp
      have := hpre1 ev hmem
      rw [this] at hst; cases hst

/-! ### C14: a callback that stops the walk -/

/-- C14: when an invocation of the callback returns a value `v ≤ 0`, this is
the last event of the walk, whatever the directory and the callback (no
further callback invocation is made, no pending child or sibling subtree is
entered), and `cfbf_walk_dir_tree` has returned exactly `v`. -/
theorem walk_dir_tree_callback_stop {σ : Type} (header : Header)
    (dir_chain : List (List DirEntry))
    (callback : σ → DirEntry → Option Nat → Nat → Int → Int × σ)
    (fuel : Nat) (cookie : σ) (pre post : List WalkEvent) (entry_id : Nat) (v : Int)
    (hlog : (walkLogged dir_chain (cfbf_get_sector_size header / sizeofDirEntry)
      callback fuel 0 none 0 cookie []).log = pre ++ WalkEvent.callback entry_id v :: post)
    (hv : v ≤ 0) :
    post = [] ∧
    cfbf_walk_dir_tree header (some dir_chain) callback fuel cookie =
      Run.done (v, (walkLogged dir_chain (cfbf_get_sector_size header / sizeofDirEntry)
        callback fuel 0 none 0 cookie []).state) := by
  have hstop := wellStopped_stop _
    (walkLogged_wellStopped dir_chain (cfbf_get_sector_size header / sizeofDirEntry)
      callback fuel 0 none 0 cookie []) pre post _ v hlog (stops_callback_le _ _ hv)
  refine ⟨hstop.1, ?_⟩
  unfold cfbf_walk_dir_tree
  dsimp only
  rw [← walkLogged_toRun dir_chain _ callback fuel 0 none 0 cookie []]
  unfold WalkLog.toRun
  rw [hstop.2]

/-- C14 on the directory `leftChainDir` with a callback that returns 0 on
entry 2: the third invocation is the last one and the walk returns 0. -/
theorem walk_dir_tree_callback_stop_witness :
    cfbf_walk_dir_tree e1Header (some leftChainDir) stopAtTwo 5 [] =
      Run.done (0, [0, 1, 2]) := by
  have h := walk_dir_tree_callback_stop e1Header leftChainDir stopAtTwo 5 []
    [WalkEvent.callback 0 1, WalkEvent.callback 1 1] [] 2 0 (by decide) (by decide)
  exact h.2.trans (by decide)

/-! ### C15: the value returned when the callback always continues -/

/-- C16 (as stated, refuted): in `unusedLinkDir` entry 1 has the unused entry
2 as left sibling and entry 3 as right sibling. The walk invokes the callback
on the entries 0 and 1, meets the unused entry 2 and stops with -1: entry 3,
still to be visited and reachable through the links, is never visited. -/
theorem walk_dir_tree_unused_counterexample :
    cfbf_walk_dir_tree e1Header (some unusedLinkDir) recordCall 4 [] =
      Run.done (-1, [(0, none, 0), (1, some 0, 1)]) ∧
    dirReachable unusedLinkDir (cfbf_get_sector_size e1Header / sizeofDirEntry) 0 3 := by
  refine ⟨by decide, ?_⟩
  have h01 : dirLink unusedLinkDir (cfbf_get_sector_size e1Header / sizeofDirEntry) 0 1 :=
    ⟨_, rfl, by decide, Or.inl rfl⟩
  have h13 : dirLink unusedLinkDir (cfbf_get_sector_size e1Header / sizeofDirEntry) 1 3 :=
    ⟨_, rfl, by decide, Or.inr (Or.inr rfl)⟩
  exact Relation.ReflTransGen.tail (Relation.ReflTransGen.single h01) h13

/-- C16 (amended): an entry whose object type is 0 is not passed to the
callback: `cfbf_walk_dir_tree_from_chain` returns -1 on it with the cookie
state unchanged; and when the walk meets such an entry (the report "directory
entry id is unused"), this is its last event: the remaining pending entries
are not visited and `cfbf_walk_dir_tree` returns -1. -/
theorem walk_dir_tree_unused_stop {σ : Type} (header : Header)
    (dir_chain : List (List DirEntry))
    (callback : σ → DirEntry → Option Nat → Nat → Int → Int × σ) :
    (∀ (fuel entry_id : Nat) (parent : Option Nat) (depth : Int) (s : σ) (u : DirEntry),
      entryOf dir_chain (cfbf_get_sector_size header / sizeofDirEntry) entry_id = some u →
      u.object_type = 0 →
      cfbf_walk_dir_tree_from_chain dir_chain
        (cfbf_get_sector_size header / sizeofDirEntry) callback (fuel + 1) entry_id
        parent depth s = Run.done (-1, s)) ∧
    (∀ (fuel : Nat) (cookie : σ) (pre post : List WalkEvent) (entry_id : Nat),
      (walkLogged dir_chain (cfbf_get_sector_size header / sizeofDirEntry)
        callback fuel 0 none 0 cookie []).log = pre ++ WalkEvent.unused entry_id :: post →
      (post = [] ∧
        cfbf_walk_dir_tree header (some dir_chain) callback fuel cookie =
          Run.done (-1, (walkLogged dir_chain
            (cfbf_get_sector_size header / sizeofDirEntry)
            callback fuel 0 none 0 cookie []).state))) := by
  constructor
  · intro fuel entry_id parent depth s u hu hty
    obtain ⟨h0, hsec, hent⟩ := entryOf_some _ _ _ _ hu
    unfold cfbf_walk_dir_tree_from_chain
    rw [if_neg h0]
    dsimp only
    rw [if_neg hsec, hent]
    dsimp only
    rw [if_pos hty]
  · intro fuel cookie pre post entry_id hlog
    have hstop := wellStopped_stop _
      (walkLogged_wellStopped dir_chain (cfbf_get_sector_size header / sizeofDirEntry)
        callback fuel 0 none 0 cookie []) pre post _ (-1) hlog rfl
    refine ⟨hstop.1, ?_⟩
    unfold cfbf_walk_dir_tree
    dsimp only
    rw [← walkLogged_toRun dir_chain _ callback fuel 0 none 0 cookie []]
    unfold WalkLog.toRun
    rw [hstop.2]

/-- C16 (amended) on `unusedLinkDir`: the unused entry 2 is the last event. -/
theorem walk_dir_tree_unused_stop_witness :
    cfbf_walk_dir_tree e1Header (some unusedLinkDir) recordCall 4 [] =
      Run.done (-1, [(0, none, 0), (1, some 0, 1)]) := by
  have h := (walk_dir_tree_unused_stop e1Header unusedLinkDir recordCall).2 4 []
    [WalkEvent.callback 0 1, WalkEvent.callback 1 1] [] 2 (by decide)
  exact h.2.trans (by decide)

/-! ### C17: entries of an invalid object type -/

/-- The lookup only returns entries of type 1, 2 or 5. -/
theorem find_path_type (dir_chain : List (List DirEntry)) (eps : Nat) :
    ∀ (fuel link : Nat) (path : List Nat) (e : Nat),
      cfbf_find_path_in_tree dir_chain eps fuel link path = Run.done (some e) →
      ∃ ent, entryOf dir_chain eps e = some ent ∧ typeInUse ent := by
  intro fuel
  induction fuel with
  | zero => intro link path e h; simp [cfbf_find_path_in_tree] at h
  | succ fuel ih =>
    intro link path e h
    unfold cfbf_find_path_in_tree at h
    by_cases h0 : eps = 0
    · rw [if_pos h0] at h; cases h
    · rw [if_neg h0] at h
      dsimp only at h
      by_cases hn : link = CFBF_NOSTREAM
      · rw [if_pos hn] at h; cases h
      · rw [if_neg hn] at h
        cases hent : dirEntryAt dir_chain ((link / eps) % 2 ^ 32) (link % eps) with
        | none => rw [hent] at h; cases h
        | some ent =>
          rw [hent] at h
          dsimp only at h
          by_cases hty : ent.object_type ≠ 1 ∧ ent.object_type ≠ 2 ∧ ent.object_type ≠ 5
          · rw [if_pos hty] at h; cases h
          · rw [if_neg hty] at h
            cases hm : nameMatches ent path (pathComponent path).1 with
            | none => rw [hm] at h; cases h
            | some b =>
              rw [hm] at h
              cases b with
              | true =>
                dsimp only at h
                by_cases hlast : (pathComponent path).2 = true
                · rw [if_pos hlast] at h
                  cases h
                  refine ⟨ent, by rw [entryOf_eq _ _ _ h0]; exact hent, ?_⟩
                  unfold typeInUse
                  omega
                · rw [if_neg hlast] at h
                  exact ih _ _ _ h
              | false =>
                dsimp only at h
                cases hleft : cfbf_find_path_in_tree dir_chain eps fuel
                    ent.left_sibling_id path with
                | fault => rw [hleft] at h; cases h
                | outOfFuel => rw [hleft] at h; cases h
                | done r =>
                  rw [hleft] at h
                  cases r with
                  | none => dsimp only at h; exact ih _ _ _ h
                  | some x =>
                    dsimp only at h
                    cases h
                    exact ih _ _ _ hleft

/-- C17 (as stated, refuted): in `badTypeDir` entry 1 has the object type 3.
The walk invokes the callback on it (second invocation); and the lookup of
`Root Entry/B` gives not-found although the stream `B` is entry 2, the right
sibling of entry 1. -/
theorem dir_ops_invalid_type_counterexample :
    cfbf_walk_dir_tree e1Header (some badTypeDir) recordCall 4 [] =
      Run.done (1, [(0, none, 0), (1, some 0, 1), (2, some 0, 1)]) ∧
    cfbf_find_path_in_tree badTypeDir 4 5 0
      [82, 111, 111, 116, 32, 69, 110, 116, 114, 121, 47, 66] = Run.done none ∧
    (entryOf badTypeDir 4 1).map (fun e => e.object_type) = some 3 ∧
    (entryOf badTypeDir 4 1).map (fun e => e.right_sibling_id) = some 2 ∧
    (entryOf badTypeDir 4 2).map (fun e => entryName e) = some [66] := by
  decide

/-- At an entry whose object type is not 1, 2 or 5 the lookup answers
not-found in that very call: it makes no recursive call, so the child and
sibling links of the entry are not looked at. -/
theorem find_path_invalid_type_stops (dir_chain : List (List DirEntry)) (eps : Nat)
    (fuel entry_id : Nat) (path : List Nat) (ent : DirEntry)
    (hid : entry_id ≠ CFBF_NOSTREAM)
    (hent : entryOf dir_chain eps entry_id = some ent) (hty : ¬ typeInUse ent) :
    cfbf_find_path_in_tree dir_chain eps (fuel + 1) entry_id path = Run.done none := by
  obtain ⟨h0, _, hat⟩ := entryOf_some _ _ _ _ hent
  unfold cfbf_find_path_in_tree
  rw [if_neg h0]
  dsimp only
  rw [if_neg hid, hat]
  dsimp only
  rw [if_pos (by unfold typeInUse at hty; omega)]

/-- C17 (amended): `cfbf_find_path_in_tree` never returns an entry whose
object type is outside {1, 2, 5}; called on an entry of such a type (inside the
directory chain) it answers not-found in that very call, whatever the fuel left
for recursive calls, so it does not look at the sibling links of the entry.
`cfbf_walk_dir_tree` treats an entry of any non-zero object type like an entry
in use: on a finite tree of entries of non-zero type with a callback that
always continues, it invokes the callback on every entry of the tree, of
whatever type, in the order of `DTree.calls`, so the child and sibling links of
an entry of invalid type are traversed. -/
theorem dir_ops_invalid_type (dir_chain : List (List DirEntry)) (eps : Nat) :
    (∀ (fuel link : Nat) (path : List Nat) (e : Nat),
      cfbf_find_path_in_tree dir_chain eps fuel link path = Run.done (some e) →
      ∃ ent, entryOf dir_chain eps e = some ent ∧ typeInUse ent) ∧
    (∀ (fuel entry_id : Nat) (path : List Nat) (ent : DirEntry),
      entry_id ≠ CFBF_NOSTREAM → entryOf dir_chain eps entry_id = some ent →
      ¬ typeInUse ent →
      cfbf_find_path_in_tree dir_chain eps (fuel + 1) entry_id path = Run.done none) ∧
    (∀ (σ : Type) (callback : σ → DirEntry → Option Nat → Nat → Int → Int × σ)
      (t : DTree) (fuel : Nat) (cookie : σ),
      t.Rep dir_chain eps (fun e => e.object_type ≠ 0) 0 →
      (∀ s e p i d, 0 < (callback s e p i d).1) →
      t.height ≤ fuel →
      cfbf_walk_dir_tree_from_chain dir_chain eps callback fuel 0 none 0 cookie =
        Run.done (1, applyCalls dir_chain eps callback cookie (t.calls none 0))) := by
  refine ⟨find_path_type dir_chain eps, ?_, ?_⟩
  · intro fuel entry_id path ent hid hent hty
    exact find_path_invalid_type_stops dir_chain eps fuel entry_id path ent hid hent hty
  · intro σ callback t fuel cookie hrep hcb hfuel
    have h := walk_from_chain_tree dir_chain eps callback (fun e => e.object_type ≠ 0)
      (fun _ he => he) hcb t 0 none 0 cookie fuel hrep hfuel
    rw [if_pos (by decide)] at h
    exact h

theorem badTypeTree_rep :
    badTypeTree.Rep badTypeDir 4 (fun e => e.object_type ≠ 0) 0 := by
  refine ⟨rfl, by decide, _, rfl, by decide, ?_, rfl, rfl⟩
  refine ⟨rfl, by decide, _, rfl, by decide, rfl, rfl, ?_⟩
  exact ⟨rfl, by decide, _, rfl, by decide, rfl, rfl, rfl⟩

/-- C17 (amended) on `badTypeDir`: the lookup of `Root Entry` returns entry 0,
of type 5; the lookup called on entry 1, of type 3, answers not-found with fuel
for this one call only, although the right sibling of entry 1 is named `B`; and
the walk invokes the callback on the entry of type 3 and on its right
sibling. -/
theorem dir_ops_invalid_type_witness :
    (cfbf_find_path_in_tree badTypeDir 4 1 0
        [82, 111, 111, 116, 32, 69, 110, 116, 114, 121] = Run.done (some 0) ∧
      ∃ ent, entryOf badTypeDir 4 0 = some ent ∧ typeInUse ent) ∧
    cfbf_find_path_in_tree badTypeDir 4 1 1 [66] = Run.done none ∧
    cfbf_walk_dir_tree_from_chain badTypeDir 4 recordCall 4 0 none 0 [] =
      Run.done (1, [(0, none, 0), (1, some 0, 1), (2, some 0, 1)]) := by
  have hroot : cfbf_find_path_in_tree badTypeDir 4 1 0
      [82, 111, 111, 116, 32, 69, 110, 116, 114, 121] = Run.done (some 0) := by decide
  have htype := (dir_ops_invalid_type badTypeDir 4).1 1 0 _ 0 hroot
  have hfind := (dir_ops_invalid_type badTypeDir 4).2.1 0 1 [66]
    { storageEntry 88 CFBF_NOSTREAM 2 CFBF_NOSTREAM with object_type := 3 }
    (by decide) (by decide) (by decide)
  have h := (dir_ops_invalid_type badTypeDir 4).2.2 _ recordCall badTypeTree 4 []
    badTypeTree_rep (fun _ _ _ _ _ => by simp [recordCall]) (by decide)
  exact ⟨⟨hroot, htype⟩, hfind, h.trans (by decide)⟩

/-! ### C11: the counts of DIFAT sectors and FAT pages -/

theorem difatListedPages_cons (c seen v : Nat) (rest : List Nat) :
    difatListedPages c seen (v :: rest) =
      if v = CFBF_FREESECT ∧ seen ≥ c then difatListedPages c seen rest
      else 1 + difatListedPages c (seen + 1) rest := rfl

theorem difatListedPages_append (c : Nat) :
    ∀ (a b : List Nat) (seen : Nat),
      difatListedPages c seen (a ++ b) =
        difatListedPages c seen a +
          difatListedPages c (seen + difatListedPages c seen a) b := by
  intro a
  induction a with
  | nil => intro b seen; simp [difatListedPages]
  | cons v a ih =>
    intro b seen
    rw [List.cons_append, difatListedPages_cons, difatListedPages_cons]
    by_cases hv : v = CFBF_FREESECT ∧ seen ≥ c
    · rw [if_pos hv, if_pos hv]
      exact ih b seen
    · rw [if_neg hv, if_neg hv, ih b (seen + 1)]
      have e : seen + (1 + difatListedPages c (seen + 1) a) =
          seen + 1 + difatListedPages c (seen + 1) a := by omega
      rw [e]
      omega

/-- The loop over the slots of a DIFAT sector returns, and counts the listed
page numbers. -/
theorem walk_difat_slots_count (cfbf : CfbfFile) (n offset : Nat) :
    ∀ (l : List Nat) (rv : Int) (m : List WalkSector) (seen : Nat),
      (∀ i ∈ l, (cfbf.file_sect (offset + 4 * i)).isSome = true) →
      ∃ rv1 m1, cfbf_walk_difat_slots cfbf n offset l rv m seen =
        Run.done (rv1, m1, seen + difatListedPages cfbf.header.csectFat seen
          (l.map (fun i => (cfbf.file_sect (offset + 4 * i)).getD 0))) := by
  intro l
  induction l with
  | nil => intro rv m seen _; exact ⟨rv, m, rfl⟩
  | cons i l ih =>
    intro rv m seen hl
    have hi := hl i (List.mem_cons_self _ _)
    have hl1 : ∀ j ∈ l, (cfbf.file_sect (offset + 4 * j)).isSome = true :=
      fun j hj => hl j (List.mem_cons_of_mem _ hj)
    obtain ⟨v, hv⟩ := Option.isSome_iff_exists.mp hi
    unfold cfbf_walk_difat_slots
    rw [hv]
    dsimp only
    rw [List.map_cons, hv, difatListedPages_cons, Option.getD_some]
    by_cases hp : v = CFBF_FREESECT ∧ seen ≥ cfbf.header.csectFat
    · rw [if_pos hp, if_pos hp]
      exact ih rv m seen hl1
    · rw [if_neg hp, if_neg hp]
      obtain ⟨rv1, m1, h1⟩ := ih
        (if (visit_sector m n v 0 none CFBF_FATSECT).1 < 0 then -1 else rv)
        (visit_sector m n v 0 none CFBF_FATSECT).2 (seen + 1) hl1
      refine ⟨rv1, m1, ?_⟩
      rw [h1]
      have e : seen + (1 + difatListedPages cfbf.header.csectFat (seen + 1)
          (l.map (fun i => (cfbf.file_sect (offset + 4 * i)).getD 0))) =
          seen + 1 + difatListedPages cfbf.header.csectFat (seen + 1)
          (l.map (fun i => (cfbf.file_sect (offset + 4 * i)).getD 0)) := by omega
      rw [e]

/-- The loop over the DIFAT chain returns when the chain ends, and counts
its sectors and their listed page numbers. -/
theorem walk_difat_count (cfbf : CfbfFile) (n : Nat) :
    ∀ (fuel start : Nat) (st : DifatState) (sectors slots : List Nat),
      difatChain cfbf fuel start = some (sectors, slots) →
      ∃ rv m, cfbf_walk_difat cfbf n fuel start st =
        Run.done { retval := rv, sector_map := m,
                   num_difat_sectors_seen := st.num_difat_sectors_seen + sectors.length,
                   num_fat_sectors_seen := st.num_fat_sectors_seen +
                     difatListedPages cfbf.header.csectFat st.num_fat_sectors_seen slots } := by
  intro fuel
  induction fuel with
  | zero => intro start st sectors slots h; simp [difatChain] at h
  | succ fuel ih =>
    intro start st sectors slots h
    unfold difatChain at h
    unfold cfbf_walk_difat
    by_cases he : start = CFBF_END_OF_CHAIN
    · rw [if_pos he] at h
      rw [if_pos he]
      cases h
      exact ⟨st.retval, st.sector_map, by simp [difatListedPages]⟩
    · rw [if_neg he] at h
      rw [if_neg he]
      dsimp only
      cases hsec : difatSector cfbf start with
      | none => rw [hsec] at h; cases h
      | some p =>
        obtain ⟨sl, next⟩ := p
        rw [hsec] at h
        dsimp only at h
        cases hrest : difatChain cfbf fuel next with
        | none => rw [hrest] at h; cases h
        | some q =>
          obtain ⟨secs1, more⟩ := q
          rw [hrest] at h
          dsimp only at h
          cases h
          unfold difatSector at hsec
          cases hptr : cfbf_get_sector_ptr cfbf.header cfbf.file_size start with
          | none => rw [hptr] at hsec; cases hsec
          | some offset =>
            rw [hptr] at hsec
            dsimp only at hsec ⊢
            by_cases hn : cfbf_get_sector_size cfbf.header / 4 = 0
            · rw [if_pos hn] at hsec; cases hsec
            · rw [if_neg hn] at hsec
              rw [if_neg hn]
              by_cases hall : (List.range (cfbf_get_sector_size cfbf.header / 4)).all
                  (fun i => (cfbf.file_sect (offset + 4 * i)).isSome) = true
              · rw [if_pos hall] at hsec
                cases hsec
                rw [List.all_eq_true] at hall
                have hslots : ∀ i ∈ List.range (cfbf_get_sector_size cfbf.header / 4 - 1),
                    (cfbf.file_sect (offset + 4 * i)).isSome = true := by
                  intro i hi
                  apply hall
                  rw [List.mem_range] at hi ⊢
                  omega
                have hlast := hall (cfbf_get_sector_size cfbf.header / 4 - 1)
                  (by rw [List.mem_range]; omega)
                obtain ⟨nx, hnx⟩ := Option.isSome_iff_exists.mp hlast
                obtain ⟨rv1, m1, h1⟩ := walk_difat_slots_count cfbf n offset _
                  (if (visit_sector st.sector_map n start 0 none CFBF_DIFSECT).1 < 0
                    then -1 else st.retval)
                  (visit_sector st.sector_map n start 0 none CFBF_DIFSECT).2
                  st.num_fat_sectors_seen hslots
                rw [h1]
                dsimp only
                rw [hnx]
                dsimp only
                rw [hnx, Option.getD_some] at hrest
                obtain ⟨rv2, m2, h2⟩ := ih nx
                  { retval := rv1, sector_map := m1,
                    num_difat_sectors_seen := st.num_difat_sectors_seen + 1,
                    num_fat_sectors_seen := st.num_fat_sectors_seen +
                      difatListedPages cfbf.header.csectFat st.num_fat_sectors_seen
                        ((List.range (cfbf_get_sector_size cfbf.header / 4 - 1)).map
                          (fun i => (cfbf.file_sect (offset + 4 * i)).getD 0)) }
                  secs1 more hrest
                refine ⟨rv2, m2, ?_⟩
                rw [h2, difatListedPages_append, List.length_cons]
                dsimp only
                congr 2
                · omega
                · omega
              · rw [if_neg hall] at hsec; cases hsec

/-- C11: for every file whose directory stage (the walk of the directory
chain and of the directory entries) ends without failure and whose DIFAT chain
from `sectDifStart` ends, `cfbf_walk` runs to its end; its count of DIFAT
sectors is the number of sectors of the chain, its count of FAT pages is
`min 109 csectFat` plus the number of DIFAT-listed page numbers (`FREESECT`
slots met when `csectFat` pages have been counted are not counted); and it
returns -1 whenever the first count differs from `csectDif` or the second from
`csectFat`. -/
theorem walk_counts_difat_and_fat (cfbf : CfbfFile) (fuel : Nat)
    (sectors slots : List Nat)
    (hdir : (walkDirStage cfbf fuel).isSome = true)
    (hchain : difatChain cfbf fuel cfbf.header.sectDifStart = some (sectors, slots)) :
    ∃ rv m nu nnu,
      cfbf_walk cfbf fuel =
        Run.done (WalkOutcome.finished rv m sectors.length
          (min 109 cfbf.header.csectFat +
            difatListedPages cfbf.header.csectFat (min 109 cfbf.header.csectFat) slots)
          nu nnu) ∧
      ((sectors.length ≠ cfbf.header.csectDif ∨
        min 109 cfbf.header.csectFat +
          difatListedPages cfbf.header.csectFat (min 109 cfbf.header.csectFat) slots ≠
            cfbf.header.csectFat) → rv = -1) := by
  have hmin : walkNumStartFatSectors cfbf.header = min 109 cfbf.header.csectFat := by
    unfold walkNumStartFatSectors
    split <;> omega
  unfold walkDirStage at hdir
  unfold cfbf_walk
  dsimp only
  cases hd : cfbf.dir_chain with
  | none => rw [hd] at hdir; cases hdir
  | some dir_chain =>
    rw [hd] at hdir
    dsimp only at hdir ⊢
    cases h0 : cfbf_walk_entry cfbf (List.replicate (walkNumSectors cfbf) WalkSector.zero)
        (walkNumSectors cfbf)
        (fake_dir_entry_for_dir_chain cfbf.header dir_chain.length) fuel with
    | fault => rw [h0] at hdir; cases hdir
    | outOfFuel => rw [h0] at hdir; cases hdir
    | done r0 =>
      rw [h0] at hdir
      dsimp only at hdir ⊢
      by_cases hr0 : r0.exit.retval < 0
      · rw [if_pos hr0] at hdir; cases hdir
      · rw [if_neg hr0] at hdir
        rw [if_neg hr0]
        cases h1 : cfbf_walk_dir_entries cfbf (walkNumSectors cfbf) fuel
            (dirSlots dir_chain (cfbf_get_sector_size cfbf.header / sizeofDirEntry)) 0
            r0.sector_map with
        | fault => rw [h1] at hdir; cases hdir
        | outOfFuel => rw [h1] at hdir; cases hdir
        | done st1 =>
          rw [h1] at hdir
          dsimp only at hdir ⊢
          by_cases hf : st1.failed = true
          · rw [if_pos hf] at hdir; cases hdir
          · rw [if_neg hf]
            obtain ⟨rv, m, hw⟩ := walk_difat_count cfbf (walkNumSectors cfbf) fuel
              cfbf.header.sectDifStart
              { retval := (cfbf_walk_header_fat cfbf.fat (walkNumSectors cfbf)
                  (cfbf.header.sectFat.take (walkNumStartFatSectors cfbf.header))
                  st1.retval st1.sector_map).1,
                sector_map := (cfbf_walk_header_fat cfbf.fat (walkNumSectors cfbf)
                  (cfbf.header.sectFat.take (walkNumStartFatSectors cfbf.header))
                  st1.retval st1.sector_map).2,
                num_difat_sectors_seen := 0,
                num_fat_sectors_seen := walkNumStartFatSectors cfbf.header }
              sectors slots hchain
            rw [hw]
            dsimp only
            rw [hmin, Nat.zero_add]
            refine ⟨_, _, _, _, rfl, ?_⟩
            intro hne
            by_cases hf2 : min 109 cfbf.header.csectFat +
                difatListedPages cfbf.header.csectFat (min 109 cfbf.header.csectFat) slots ≠
                  cfbf.header.csectFat
            · rw [if_pos hf2]
            · rw [if_neg hf2, if_pos (hne.resolve_right hf2)]

set_option maxRecDepth 100000 in
/-- C11 on the E2 container (`csectFat = 200`, `csectDif = 1`, one DIFAT
sector listing 91 pages, then `FREESECT` padding and `ENDOFCHAIN` in its last
slot): the walk counts exactly 1 DIFAT sector and 200 FAT pages. -/
theorem walk_counts_difat_and_fat_witness :
    ∃ rv m nu nnu,
      cfbf_walk e2File 3 = Run.done (WalkOutcome.finished rv m 1 200 nu nnu) := by
  obtain ⟨rv, m, nu, nnu, h, _⟩ := walk_counts_difat_and_fat e2File 3 [109]
    ((List.range 91).map (fun i => 110 + i) ++ List.replicate 36 CFBF_FREESECT)
    (by decide) (by decide)
  have hc : min 109 e2File.header.csectFat +
      difatListedPages e2File.header.csectFat (min 109 e2File.header.csectFat)
        ((List.range 91).map (fun i => 110 + i) ++ List.replicate 36 CFBF_FREESECT) = 200 := by
    decide
  rw [hc] at h
  exact ⟨rv, m, nu, nnu, h⟩

/-! ### C12: the value returned by the sector walk -/

theorem walk_dir_entries_retval (cfbf : CfbfFile) (n fuel : Nat) :
    ∀ (l : List (Option DirEntry)) (rv : Int) (m : List WalkSector) (st : WalkState),
      cfbf_walk_dir_entries cfbf n fuel l rv m = Run.done st →
      st.retval = rv ∨ st.retval = -1 := by
  intro l
  induction l with
  | nil => intro rv m st h; unfold cfbf_walk_dir_entries at h; cases h; exact Or.inl rfl
  | cons x l ih =>
    intro rv m st h
    cases x with
    | none => unfold cfbf_walk_dir_entries at h; cases h
    | some ent =>
      unfold cfbf_walk_dir_entries at h
      split at h
      · exact ih _ _ _ h
      · split at h
        · split at h
          · cases h; exact Or.inr rfl
          · split at h
            · exact ih _ _ _ h
            · split at h
              · split at h
                · cases h; exact Or.inr rfl
                · exact ih _ _ _ h
              · cases h
              · cases h
        · split at h
          · exact ih _ _ _ h
          · rcases ih _ _ _ h with h1 | h1
            · exact Or.inr h1
            · exact Or.inr h1

theorem walk_header_fat_retval (fat : Fat) (n : Nat) :
    ∀ (l : List Nat) (rv : Int) (m : List WalkSector),
      (cfbf_walk_header_fat fat n l rv m).1 = rv ∨
        (cfbf_walk_header_fat fat n l rv m).1 = -1 := by
  intro l
  induction l with
  | nil => intro rv m; exact Or.inl rfl
  | cons x l ih =>
    intro rv m
    unfold cfbf_walk_header_fat
    dsimp only
    by_cases h1 : fat.get_sector_entry x ≠ CFBF_FATSECT
    · rw [if_pos h1]
      exact Or.inr (walk_header_fat_sticky _ _ _ _)
    · rw [if_neg h1]
      by_cases h2 : (visit_sector m n x 0 none CFBF_FATSECT).1 < 0
      · rw [if_pos h2]
        exact Or.inr (walk_header_fat_sticky _ _ _ _)
      · rw [if_neg h2]
        exact ih _ _

theorem walk_difat_slots_retval (cfbf : CfbfFile) (n offset : Nat) :
    ∀ (l : List Nat) (rv : Int) (m : List WalkSector) (seen : Nat)
      (r : Int × List WalkSector × Nat),
      cfbf_walk_difat_slots cfbf n offset l rv m seen = Run.done r →
      r.1 = rv ∨ r.1 = -1 := by
  intro l
  induction l with
  | nil => intro rv m seen r h; cases h; exact Or.inl rfl
  | cons i l ih =>
    intro rv m seen r h
    unfold cfbf_walk_difat_slots at h
    cases hf : cfbf.file_sect (offset + 4 * i) with
    | none => rw [hf] at h; cases h
    | some fat_sect =>
      rw [hf] at h
      dsimp only at h
      split at h
      · exact ih _ _ _ _ h
      · by_cases h2 : (visit_sector m n fat_sect 0 none CFBF_FATSECT).1 < 0
        · rw [if_pos h2] at h
          exact Or.inr (walk_difat_slots_sticky _ _ _ _ _ _ _ h)
        · rw [if_neg h2] at h
          exact ih _ _ _ _ h

theorem walk_difat_retval (cfbf : CfbfFile) (n : Nat) :
    ∀ (fuel difat_sect : Nat) (st d : DifatState),
      cfbf_walk_difat cfbf n fuel difat_sect st = Run.done d →
      d.retval = st.retval ∨ d.retval = -1 := by
  intro fuel
  induction fuel with
  | zero => intro difat_sect st d h; simp [cfbf_walk_difat] at h
  | succ fuel ih =>
    intro difat_sect st d h
    unfold cfbf_walk_difat at h
    split at h
    · cases h; exact Or.inl rfl
    · dsimp only at h
      split at h
      · cases h; exact Or.inr rfl
      · split at h
        · cases h
        · split at h
          · rename_i retval2 sector_map2 seen2 hslots
            split at h
            · cases h
            · rcases walk_difat_slots_retval _ _ _ _ _ _ _ _ hslots with h1 | h1
              · dsimp only at h1
                rcases ih _ _ _ h with h2 | h2
                · dsimp only at h2
                  rw [h2, h1]
                  by_cases h3 : (visit_sector st.sector_map n difat_sect 0 none
                      CFBF_DIFSECT).1 < 0
                  · rw [if_pos h3]; exact Or.inr rfl
                  · rw [if_neg h3]; exact Or.inl rfl
                · exact Or.inr h2
              · dsimp only at h1
                subst h1
                exact Or.inr (walk_difat_sticky _ _ _ _ _ _ rfl h)
          · cases h
          · cases h

/-- The stages of `cfbf_walk`: either the directory stage fails and the walk
returns -1, or the walk runs to its end and its value is fixed by the two count
checks and the value left by the DIFAT stage. -/
theorem walk_stages (cfbf : CfbfFile) (fuel : Nat) (out : WalkOutcome)
    (h : cfbf_walk cfbf fuel = Run.done out) :
    (walkDirStage cfbf fuel = none ∧ out.retval = -1) ∨
    (∃ st1 d, walkDirStage cfbf fuel = some st1 ∧
      walkDifatStage cfbf fuel st1 = Run.done d ∧
      out = WalkOutcome.finished
        (if d.num_fat_sectors_seen ≠ cfbf.header.csectFat then -1
          else if d.num_difat_sectors_seen ≠ cfbf.header.csectDif then -1 else d.retval)
        d.sector_map d.num_difat_sectors_seen d.num_fat_sectors_seen
        (unvisitedSectors d.sector_map (walkNumSectors cfbf)).length
        (unvisitedNotUnused cfbf.fat d.sector_map (walkNumSectors cfbf)).length) := by
  unfold cfbf_walk at h
  unfold walkDirStage walkDifatStage walkHeaderStage
  dsimp only at h
  cases hd : cfbf.dir_chain with
  | none =>
    rw [hd] at h
    dsimp only at h
    cases h
    exact Or.inl ⟨rfl, rfl⟩
  | some dir_chain =>
    rw [hd] at h
    dsimp only at h ⊢
    cases h0 : cfbf_walk_entry cfbf (List.replicate (walkNumSectors cfbf) WalkSector.zero)
        (walkNumSectors cfbf)
        (fake_dir_entry_for_dir_chain cfbf.header dir_chain.length) fuel with
    | fault => rw [h0] at h; cases h
    | outOfFuel => rw [h0] at h; cases h
    | done r0 =>
      rw [h0] at h
      dsimp only at h ⊢
      by_cases hr0 : r0.exit.retval < 0
      · rw [if_pos hr0] at h
        rw [if_pos hr0]
        cases h
        exact Or.inl ⟨rfl, rfl⟩
      · rw [if_neg hr0] at h
        rw [if_neg hr0]
        cases h1 : cfbf_walk_dir_entries cfbf (walkNumSectors cfbf) fuel
            (dirSlots dir_chain (cfbf_get_sector_size cfbf.header / sizeofDirEntry)) 0
            r0.sector_map with
        | fault => rw [h1] at h; cases h
        | outOfFuel => rw [h1] at h; cases h
        | done st1 =>
          rw [h1] at h
          dsimp only at h ⊢
          by_cases hf : st1.failed = true
          · rw [if_pos hf] at h
            rw [if_pos hf]
            cases h
            exact Or.inl ⟨rfl, rfl⟩
          · rw [if_neg hf] at h
            rw [if_neg hf]
            right
            cases hw : cfbf_walk_difat cfbf (walkNumSectors cfbf) fuel
                cfbf.header.sectDifStart
                { retval := (cfbf_walk_header_fat cfbf.fat (walkNumSectors cfbf)
                    (cfbf.header.sectFat.take (walkNumStartFatSectors cfbf.header))
                    st1.retval st1.sector_map).1,
                  sector_map := (cfbf_walk_header_fat cfbf.fat (walkNumSectors cfbf)
                    (cfbf.header.sectFat.take (walkNumStartFatSectors cfbf.header))
                    st1.retval st1.sector_map).2,
                  num_difat_sectors_seen := 0,
                  num_fat_sectors_seen := walkNumStartFatSectors cfbf.header } with
            | fault => rw [hw] at h; cases h
            | outOfFuel => rw [hw] at h; cases h
            | done d =>
              rw [hw] at h
              dsimp only at h
              cases h
              exact ⟨st1, d, rfl, hw, rfl⟩

/-- The value of `cfbf_walk` by its stages: it is 0 or -1, and it is 0 exactly
when the directory stage ends without failure and with the value 0, the stage
of the header-listed FAT pages leaves the value 0 and every one of these pages
has the FAT entry `FATSECT`, the DIFAT stage leaves the value 0, and the two
counts equal `csectDif` and `csectFat`. -/
theorem walk_retval_stages (cfbf : CfbfFile) (fuel : Nat) (out : WalkOutcome)
    (h : cfbf_walk cfbf fuel = Run.done out) :
    (out.retval = 0 ∨ out.retval = -1) ∧
    (out.retval = 0 ↔
      ∃ st1 d, walkDirStage cfbf fuel = some st1 ∧ st1.retval = 0 ∧
        (walkHeaderStage cfbf st1).1 = 0 ∧
        (∀ p ∈ cfbf.header.sectFat.take (walkNumStartFatSectors cfbf.header),
          cfbf.fat.get_sector_entry p = CFBF_FATSECT) ∧
        walkDifatStage cfbf fuel st1 = Run.done d ∧ d.retval = 0 ∧
        d.num_difat_sectors_seen = cfbf.header.csectDif ∧
        d.num_fat_sectors_seen = cfbf.header.csectFat) := by
  rcases walk_stages cfbf fuel out h with ⟨hnone, hm1⟩ | ⟨st1, d, hst1, hd, hout⟩
  · refine ⟨Or.inr hm1, ?_, ?_⟩
    · intro h0
      rw [hm1] at h0
      exact absurd h0 (by decide)
    · rintro ⟨st1, d, hst1, _⟩
      rw [hnone] at hst1
      cases hst1
  · have hA : st1.retval = 0 ∨ st1.retval = -1 := by
      unfold walkDirStage at hst1
      split at hst1
      · cases hst1
      · split at hst1
        · split at hst1
          · cases hst1
          · split at hst1
            · rename_i st hde
              split at hst1
              · cases hst1
              · cases hst1
                exact walk_dir_entries_retval _ _ _ _ _ _ _ hde
            · cases hst1
        · cases hst1
    have hB := walk_header_fat_retval cfbf.fat (walkNumSectors cfbf)
      (cfbf.header.sectFat.take (walkNumStartFatSectors cfbf.header))
      st1.retval st1.sector_map
    have hB1 : (walkHeaderStage cfbf st1).1 = st1.retval ∨
        (walkHeaderStage cfbf st1).1 = -1 := hB
    have hD : d.retval = (walkHeaderStage cfbf st1).1 ∨ d.retval = -1 :=
      walk_difat_retval _ _ _ _ _ _ hd
    have hret : out.retval =
        (if d.num_fat_sectors_seen ≠ cfbf.header.csectFat then -1
          else if d.num_difat_sectors_seen ≠ cfbf.header.csectDif then -1
          else d.retval) := by
      rw [hout]; rfl
    refine ⟨?_, ?_, ?_⟩
    · rw [hret]
      split
      · exact Or.inr rfl
      · split
        · exact Or.inr rfl
        · rcases hD with h1 | h1
          · rw [h1]
            rcases hB1 with h2 | h2
            · rw [h2]; exact hA
            · exact Or.inr h2
          · exact Or.inr h1
    · intro h0
      rw [hret] at h0
      by_cases hf : d.num_fat_sectors_seen ≠ cfbf.header.csectFat
      · rw [if_pos hf] at h0; exact absurd h0 (by decide)
      · rw [if_neg hf] at h0
        by_cases hdif : d.num_difat_sectors_seen ≠ cfbf.header.csectDif
        · rw [if_pos hdif] at h0; exact absurd h0 (by decide)
        · rw [if_neg hdif] at h0
          have hh : (walkHeaderStage cfbf st1).1 = 0 := by
            rcases hD with h1 | h1
            · rw [← h1]; exact h0
            · rw [h1] at h0; exact absurd h0 (by decide)
          have hs : st1.retval = 0 := by
            rcases hB1 with h2 | h2
            · rw [← h2]; exact hh
            · rw [h2] at hh; exact absurd hh (by decide)
          refine ⟨st1, d, hst1, hs, hh, ?_, hd, h0, not_not.mp hdif, not_not.mp hf⟩
          intro p hp
          by_contra hne
          have hm := walk_header_fat_checks cfbf.fat (walkNumSectors cfbf) p hne _
            st1.retval st1.sector_map hp
          have hm1 : (walkHeaderStage cfbf st1).1 = -1 := hm
          rw [hm1] at hh
          exact absurd hh (by decide)
    · rintro ⟨st2, d2, hst2, _, _, _, hd2, hr2, hnd, hnf⟩
      rw [hst1] at hst2
      cases hst2
      rw [hd] at hd2
      cases hd2
      rw [hret, if_neg (not_not.mpr hnf), if_neg (not_not.mpr hnd)]
      exact hr2

/-! ### C27: `cfbf_walk_entry` terminates -/

/-- C27: with a table sector size `s ≥ 1`, `cfbf_walk_entry` returns within
`ceil (streamSize / s) + 1` iterations of its loop (fuel for that many
iterations is enough, and it examines at most that many sectors), whatever the
allocation table; and when the chain from `startSector` never reaches
`ENDOFCHAIN`, it returns -1. -/
theorem walk_entry_terminates (cfbf : CfbfFile) (sector_map : List WalkSector)
    (num_sectors : Nat) (ent : DirEntry) (fuel : Nat)
    (hs : 1 ≤ (walkEntryTable cfbf ent).sector_size)
    (hfuel : ceilDiv ent.stream_size (walkEntryTable cfbf ent).sector_size + 1 ≤ fuel) :
    ∃ r, cfbf_walk_entry cfbf sector_map num_sectors ent fuel = Run.done r ∧
      r.sectors_examined ≤
        ceilDiv ent.stream_size (walkEntryTable cfbf ent).sector_size + 1 ∧
      ((∀ i, chainSector (walkEntryTable cfbf ent) ent.start_sector i ≠
          CFBF_END_OF_CHAIN) → r.exit.retval = -1) := by
  obtain ⟨r, hr, hex, hspec⟩ := walk_entry_loop_spec (walkEntryTable cfbf ent)
    (walkEntryUsesMini cfbf ent) num_sectors ent hs ent.start_sector fuel 0
    ent.start_sector sector_map 0 0 CFBF_END_OF_CHAIN 0 rfl (by simp) (by omega)
    (by intro i hi; omega) (by omega) rfl
  refine ⟨r, hr, hex, fun hcyc => ?_⟩
  have hnok : r.exit ≠ WalkEntryExit.ok := by
    intro hok
    have hrej : r.exit ≠ WalkEntryExit.visitRejected := by rw [hok]; decide
    exact hcyc _ (((hspec hrej).1.1 hok).1)
  cases hx : r.exit with
  | ok => exact absurd hx hnok
  | visitRejected => rfl
  | moreSectors => rfl
  | lengthMismatch => rfl

theorem cycleFile_chain (i : Nat) :
    chainSector (walkEntryTable cycleFile cycleStream) cycleStream.start_sector i = 3 := by
  induction i with
  | zero => rfl
  | succ i ih => rw [chainSector_succ, ih]; rfl

/-- C27 on a FAT where sector 3 is its own successor: the walk of a stream
of 5000 bytes that starts there returns -1 after at most 11 sectors. -/
theorem walk_entry_terminates_witness :
    ∃ r, cfbf_walk_entry cycleFile (List.replicate 4 WalkSector.zero) 4 cycleStream 11 =
        Run.done r ∧
      r.sectors_examined ≤ 11 ∧ r.exit.retval = -1 := by
  obtain ⟨r, hr, hex, hfail⟩ := walk_entry_terminates cycleFile
    (List.replicate 4 WalkSector.zero) 4 cycleStream 11 (by decide) (by decide)
  have hc : ceilDiv cycleStream.stream_size
      (walkEntryTable cycleFile cycleStream).sector_size + 1 = 11 := by decide
  rw [hc] at hex
  exact ⟨r, hr, hex, hfail (fun i => by rw [cycleFile_chain]; decide)⟩

/-! ### C23: entry ids beyond the directory chain -/

/-- C23 (violated by the code): the directory `outOfChainDir` has one sector
of four entries and its root entry has the child id 9. The lookup of
`Root Entry/A` follows the child id and reads page `9 / 4 = 2` of a chain of
one page, a read outside the directory chain, instead of answering not-found;
`cfbf_walk_dir_tree_from_chain` refuses the same id with -1. -/
theorem find_path_reads_outside_chain :
    outOfChainDir.length = 1 ∧
    (entryOf outOfChainDir 4 0).map (fun e => e.child_id) = some 9 ∧
    dirEntryAt outOfChainDir (9 / 4) (9 % 4) = none ∧
    cfbf_find_path_in_tree outOfChainDir 4 5 0
      [82, 111, 111, 116, 32, 69, 110, 116, 114, 121, 47, 65] = Run.fault ∧
    cfbf_walk_dir_tree_from_chain outOfChainDir 4 recordCall 5 9 (some 0) 1 [] =
      Run.done (-1, []) := by
  decide

/-! ### C22: the allocation table of the stream dump -/

/-- C22 (violated by the code): for an empty stream (type 2, `streamSize = 0`)
and the cutoff 4096, the dump of `main` passes `use_mini = 1` to
`cfbf_follow_chain`, while `cfbf_dir_stored_in_mini_stream` answers 0 and
`cfbf_dir_entry_get_sector_ptrs` reads the chain from the main FAT. -/
theorem dump_empty_stream_uses_mini :
    emptyStream.object_type = 2 ∧ emptyStream.stream_size = 0 ∧
    mainDump e1Header (some emptyStream) =
      DumpAction.followChain CFBF_END_OF_CHAIN 0 true ∧
    cfbf_dir_stored_in_mini_stream e1Header emptyStream = 0 ∧
    cfbf_dir_entry_get_sector_ptrs e1Header emptyStream =
      (ChainSource.cfbf_get_chain_ptrs, 512) := by
  decide

/-- For a stream that is not empty, the dump of `main` selects the MiniFAT
exactly when `cfbf_dir_stored_in_mini_stream` holds, as
`cfbf_dir_entry_get_sector_ptrs` does. -/
theorem dump_nonempty_stream_table (header : Header) (e : DirEntry)
    (h2 : e.object_type = 2) (hpos : 0 < e.stream_size) :
    mainDump header (some e) =
      DumpAction.followChain e.start_sector e.stream_size
        (decide (cfbf_dir_stored_in_mini_stream header e = 1)) ∧
    ((cfbf_dir_entry_get_sector_ptrs header e).1 =
        ChainSource.cfbf_get_chain_ptrs_from_mini_stream ↔
      cfbf_dir_stored_in_mini_stream header e = 1) := by
  have h5 : ¬ e.object_type = 5 := by omega
  have hn2 : ¬ e.object_type ≠ 2 := by simp [h2]
  unfold mainDump cfbf_dir_entry_get_sector_ptrs cfbf_dir_stored_in_mini_stream
  dsimp only
  rw [if_neg h5, if_neg hn2]
  by_cases hc : e.stream_size < header.ulMiniSectorCutoff
  · simp [h2, hpos, hc]
  · simp [hc]

/-! ### C29: `visit_sector` marks a sector at most once -/

theorem mark_wellMarked (c : VisitCall) :
    c.mark.is_visited = true ∧ c.mark.WellMarked := by
  unfold VisitCall.mark WalkSector.WellMarked WalkSector.kinds
  cases c.ent with
  | some e => simp
  | none =>
    dsimp only
    split
    · simp
    · split <;> simp

theorem mapOk_zero (n : Nat) : MapOk n (List.replicate n WalkSector.zero) := by
  refine ⟨List.length_replicate _ _, fun S hS => ?_⟩
  rw [List.getD_eq_getElem?_getD, List.getElem?_replicate_of_lt hS, Option.getD_some]
  exact ⟨fun _ => rfl, (fun h => by cases h), by decide⟩

/-- On a well-marked map a call fails exactly when the sector is off the map
or visited, and leaves the map as it is; otherwise it returns 0 and writes the
mark of the call over the all-zero element of the sector. -/
theorem visitCall_mapOk (n : Nat) (m : List WalkSector) (c : VisitCall)
    (hm : MapOk n m) :
    (((n ≤ c.sector_num ∨ (m.getD c.sector_num WalkSector.zero).is_visited = true) ∧
        visitCall n m c = (-1, m)) ∨
      (c.sector_num < n ∧
        (m.getD c.sector_num WalkSector.zero).is_visited = false ∧
        m.getD c.sector_num WalkSector.zero = WalkSector.zero ∧
        visitCall n m c = (0, m.set c.sector_num c.mark))) ∧
    MapOk n (visitCall n m c).2 := by
  have hcases : ((n ≤ c.sector_num ∨
        (m.getD c.sector_num WalkSector.zero).is_visited = true) ∧
        visitCall n m c = (-1, m)) ∨
      (c.sector_num < n ∧
        (m.getD c.sector_num WalkSector.zero).is_visited = false ∧
        m.getD c.sector_num WalkSector.zero = WalkSector.zero ∧
        visitCall n m c = (0, m.set c.sector_num c.mark)) := by
    unfold visitCall visit_sector
    by_cases h1 : c.sector_num ≥ n
    · rw [if_pos h1]; exact Or.inl ⟨Or.inl h1, rfl⟩
    · rw [if_neg h1]
      dsimp only
      have hw := hm.2 c.sector_num (by omega)
      by_cases h3 : (m.getD c.sector_num WalkSector.zero).is_visited = true
      · left
        refine ⟨Or.inr h3, ?_⟩
        by_cases h2 : (m.getD c.sector_num WalkSector.zero).entry.isSome = true
        · rw [if_pos h2]
        · rw [if_neg h2, if_pos h3]
      · have h3f : (m.getD c.sector_num WalkSector.zero).is_visited = false := by
          simpa using h3
        have hz := hw.1 h3f
        right
        refine ⟨by omega, h3f, hz, ?_⟩
        rw [hz]
        rw [if_neg (by decide), if_neg (by decide)]
        unfold VisitCall.mark
        cases c.ent with
        | some e => rfl
        | none =>
          dsimp only
          split
          · rfl
          · split <;> rfl
  refine ⟨hcases, ?_⟩
  rcases hcases with ⟨_, h⟩ | ⟨hlt, _, _, h⟩
  · rw [h]; exact hm
  · rw [h]
    refine ⟨by rw [List.length_set]; exact hm.1, fun S hS => ?_⟩
    rw [List.getD_eq_getElem?_getD]
    by_cases hs : c.sector_num = S
    · rw [← hs, List.getElem?_set_self (by rw [hm.1]; exact hlt)]
      exact (mark_wellMarked c).2
    · rw [List.getElem?_set_ne hs, ← List.getD_eq_getElem?_getD]
      exact hm.2 S hS

/-- After a sequence of calls the map is well marked, and a sector is visited
exactly when it was visited before or a call of the sequence on it returned
0. -/
theorem visitCalls_history (n : Nat) :
    ∀ (cs : List VisitCall) (m0 : List WalkSector), MapOk n m0 →
      MapOk n (visitCalls n cs m0).2 ∧
      ∀ S, S < n →
        ((((visitCalls n cs m0).2).getD S WalkSector.zero).is_visited = true ↔
          ((m0.getD S WalkSector.zero).is_visited = true ∨
            ∃ (j : Nat) (c : VisitCall), cs[j]? = some c ∧ c.sector_num = S ∧
              (visitCalls n cs m0).1[j]? = some 0)) := by
  intro cs
  induction cs with
  | nil =>
    intro m0 hm
    refine ⟨hm, fun S _ => ?_⟩
    simp [visitCalls]
  | cons c cs ih =>
    intro m0 hm
    obtain ⟨hcases, hok⟩ := visitCall_mapOk n m0 c hm
    obtain ⟨hok2, hhist⟩ := ih (visitCall n m0 c).2 hok
    have e1 : (visitCalls n (c :: cs) m0).2 =
        (visitCalls n cs (visitCall n m0 c).2).2 := rfl
    have e2 : (visitCalls n (c :: cs) m0).1 =
        (visitCall n m0 c).1 :: (visitCalls n cs (visitCall n m0 c).2).1 := rfl
    rw [e1, e2]
    refine ⟨hok2, fun S hS => ?_⟩
    rw [hhist S hS]
    rcases hcases with ⟨_, hfail⟩ | ⟨hlt, hnv, _, hsucc⟩
    · rw [hfail]
      constructor
      · rintro (h | ⟨j, c1, hj, hc1, hr⟩)
        · exact Or.inl h
        · exact Or.inr ⟨j + 1, c1, by rw [List.getElem?_cons_succ]; exact hj, hc1,
            by rw [List.getElem?_cons_succ]; exact hr⟩
      · rintro (h | ⟨j, c1, hj, hc1, hr⟩)
        · exact Or.inl h
        · cases j with
          | zero =>
            rw [List.getElem?_cons_zero] at hr
            have hr1 : (-1 : Int) = 0 := Option.some.inj hr
            exact absurd hr1 (by decide)
          | succ j =>
            rw [List.getElem?_cons_succ] at hj hr
            exact Or.inr ⟨j, c1, hj, hc1, hr⟩
    · rw [hsucc]
      dsimp only
      constructor
      · rintro (h | ⟨j, c1, hj, hc1, hr⟩)
        · rw [List.getD_eq_getElem?_getD] at h
          by_cases hs : c.sector_num = S
          · exact Or.inr ⟨0, c, by simp, hs, by simp⟩
          · rw [List.getElem?_set_ne hs, ← List.getD_eq_getElem?_getD] at h
            exact Or.inl h
        · exact Or.inr ⟨j + 1, c1, by rw [List.getElem?_cons_succ]; exact hj, hc1,
            by rw [List.getElem?_cons_succ]; exact hr⟩
      · rintro (h | ⟨j, c1, hj, hc1, hr⟩)
        · left
          rw [List.getD_eq_getElem?_getD]
          by_cases hs : c.sector_num = S
          · rw [← hs] at h
            rw [h] at hnv; cases hnv
          · rw [List.getElem?_set_ne hs, ← List.getD_eq_getElem?_getD]
            exact h
        · cases j with
          | zero =>
            left
            simp only [List.getElem?_cons_zero, Option.some.injEq] at hj
            subst hj
            rw [List.getD_eq_getElem?_getD, ← hc1,
              List.getElem?_set_self (by rw [hm.1]; exact hlt)]
            exact (mark_wellMarked c).1
          | succ j =>
            rw [List.getElem?_cons_succ] at hj hr
            exact Or.inr ⟨j, c1, hj, hc1, hr⟩

/-- C29 (as stated, refuted): a call without owning entry whose `special` is
neither `FATSECT` nor `DIFSECT` succeeds on an all-zero map and sets
`is_visited` only: no kind is recorded. -/
theorem visit_sector_no_kind_counterexample :
    visit_sector [WalkSector.zero] 1 0 0 none 0 =
      (0, [{ entry := none, sector_index := 0, is_difsect := false,
             is_fatsect := false, is_visited := true }]) ∧
    ({ entry := none, sector_index := 0, is_difsect := false, is_fatsect := false,
       is_visited := true } : WalkSector).kinds = 0 := by
  decide

/-- C29 (amended): start from the all-zero map of `n` sectors, make any
sequence `pre` of `visit_sector` calls and then the call `c`. The call returns
0 or -1; it returns -1 exactly when `sector_num ≥ n` or an earlier call of the
sequence on the same sector returned 0, and then the map is unchanged; when it
returns 0 the element of `sector_num` was all zero and only this element
changes, to the mark of the call: `is_visited` and the owning entry with its
index when an entry is given, else `is_fatsect` for `FATSECT`, else
`is_difsect` for `DIFSECT`, else no kind. The mark has exactly one kind when an
entry is given or `special` is `FATSECT` or `DIFSECT`. Every element of the map
has an owner only if visited and at most one kind. -/
theorem visit_sector_sequence (n : Nat) (pre : List VisitCall) (c : VisitCall) :
    ((visitCall n (visitCalls n pre (List.replicate n WalkSector.zero)).2 c).1 = 0 ∨
      (visitCall n (visitCalls n pre (List.replicate n WalkSector.zero)).2 c).1 = -1) ∧
    ((visitCall n (visitCalls n pre (List.replicate n WalkSector.zero)).2 c).1 = -1 ↔
      (n ≤ c.sector_num ∨
        ∃ (j : Nat) (c1 : VisitCall), pre[j]? = some c1 ∧ c1.sector_num = c.sector_num ∧
          (visitCalls n pre (List.replicate n WalkSector.zero)).1[j]? = some 0)) ∧
    ((visitCall n (visitCalls n pre (List.replicate n WalkSector.zero)).2 c).1 = -1 →
      (visitCall n (visitCalls n pre (List.replicate n WalkSector.zero)).2 c).2 =
        (visitCalls n pre (List.replicate n WalkSector.zero)).2) ∧
    ((visitCall n (visitCalls n pre (List.replicate n WalkSector.zero)).2 c).1 = 0 →
      ((visitCalls n pre (List.replicate n WalkSector.zero)).2.getD c.sector_num
          WalkSector.zero = WalkSector.zero ∧
        (visitCall n (visitCalls n pre (List.replicate n WalkSector.zero)).2 c).2 =
          (visitCalls n pre (List.replicate n WalkSector.zero)).2.set c.sector_num c.mark)) ∧
    (c.mark.is_visited = true ∧
      ((c.ent.isSome = true ∨ c.special = CFBF_FATSECT ∨ c.special = CFBF_DIFSECT) →
        c.mark.kinds = 1) ∧
      (∀ e, c.ent = some e → c.mark.entry = some e ∧ c.mark.sector_index = c.sector_index)) ∧
    (∀ w ∈ (visitCall n (visitCalls n pre (List.replicate n WalkSector.zero)).2 c).2,
      (w.entry.isSome = true → w.is_visited = true) ∧ w.kinds ≤ 1) := by
  obtain ⟨hok, hhist⟩ := visitCalls_history n pre _ (mapOk_zero n)
  obtain ⟨hcases, hok2⟩ := visitCall_mapOk n _ c hok
  have hzero : ∀ S, S < n →
      ((List.replicate n WalkSector.zero).getD S WalkSector.zero).is_visited ≠ true := by
    intro S hS
    rw [List.getD_eq_getElem?_getD, List.getElem?_replicate_of_lt hS]
    decide
  refine ⟨?_, ?_, ?_, ?_, ⟨(mark_wellMarked c).1, ?_, ?_⟩, ?_⟩
  · rcases hcases with ⟨_, h⟩ | ⟨_, _, _, h⟩
    · rw [h]; exact Or.inr rfl
    · rw [h]; exact Or.inl rfl
  · rcases hcases with ⟨hor, h⟩ | ⟨hlt, hnv, _, h⟩
    · rw [h]
      refine ⟨fun _ => ?_, fun _ => rfl⟩
      rcases hor with hge | hv
      · exact Or.inl hge
      · by_cases hlt : c.sector_num < n
        · rcases (hhist _ hlt).1 hv with h0 | hj
          · exact absurd h0 (hzero _ hlt)
          · exact Or.inr hj
        · exact Or.inl (by omega)
    · rw [h]
      dsimp only
      refine ⟨fun hc => absurd hc (by decide), fun hor => ?_⟩
      rcases hor with hge | hj
      · omega
      · have hv := (hhist _ hlt).2 (Or.inr hj)
        rw [hv] at hnv; cases hnv
  · intro hfail
    rcases hcases with ⟨_, h⟩ | ⟨_, _, _, h⟩
    · rw [h]
    · rw [h] at hfail
      dsimp only at hfail
      exact absurd hfail (by decide)
  · intro hsucc
    rcases hcases with ⟨_, h⟩ | ⟨_, _, hz, h⟩
    · rw [h] at hsucc
      dsimp only at hsucc
      exact absurd hsucc (by decide)
    · exact ⟨hz, by rw [h]⟩
  · intro hkind
    unfold VisitCall.mark WalkSector.kinds
    cases hent : c.ent with
    | some e => simp
    | none =>
      rw [hent] at hkind
      dsimp only
      by_cases hf : c.special = CFBF_FATSECT
      · rw [if_pos hf]; simp
      · rw [if_neg hf]
        by_cases hd : c.special = CFBF_DIFSECT
        · rw [if_pos hd]; simp
        · rcases hkind with h | h | h
          · cases h
          · exact absurd h hf
          · exact absurd h hd
  · intro e he
    unfold VisitCall.mark
    rw [he]
    exact ⟨rfl, rfl⟩
  · intro w hw
    obtain ⟨i, hi, hget⟩ := List.getElem_of_mem hw
    have hin : i < n := by rw [← hok2.1]; exact hi
    have hwm := hok2.2 i hin
    rw [List.getD_eq_getElem?_getD, List.getElem?_eq_getElem hi, Option.getD_some,
      hget] at hwm
    exact ⟨hwm.2.1, hwm.2.2⟩

/-- C29 (amended) on a map of two sectors: after a successful call that marks
sector 0 as a FAT page, a second call on sector 0 returns -1. -/
theorem visit_sector_sequence_witness :
    (visitCall 2
      (visitCalls 2 [{ sector_num := 0, sector_index := 0, ent := none,
                       special := CFBF_FATSECT }]
        (List.replicate 2 WalkSector.zero)).2
      { sector_num := 0, sector_index := 0, ent := some e1StreamA, special := 0 }).1 = -1 :=
  (visit_sector_sequence 2
    [{ sector_num := 0, sector_index := 0, ent := none, special := CFBF_FATSECT }]
    { sector_num := 0, sector_index := 0, ent := some e1StreamA, special := 0 }).2.1.mpr
    (Or.inr ⟨0, _, rfl, rfl, by decide⟩)

/-! ### C25: when the DIFAT chain is walked -/

theorem visit_sector_no_difsect (m : List WalkSector) (n s idx : Nat)
    (ent : Option DirEntry) (sp : Nat)
    (hsp : ent.isSome = true ∨ sp = CFBF_FATSECT) (hm : noDifsect m) :
    noDifsect (visit_sector m n s idx ent sp).2 := by
  unfold visit_sector
  by_cases h1 : s ≥ n
  · rw [if_pos h1]; exact hm
  · rw [if_neg h1]
    dsimp only
    by_cases h2 : (m.getD s WalkSector.zero).entry.isSome = true
    · rw [if_pos h2]; exact hm
    · rw [if_neg h2]
      by_cases h3 : (m.getD s WalkSector.zero).is_visited = true
      · rw [if_pos h3]; exact hm
      · rw [if_neg h3]
        have hold : (m.getD s WalkSector.zero).is_difsect = false := by
          rw [List.getD_eq_getElem?_getD]
          cases hg : m[s]? with
          | none => rfl
          | some w => exact hm w (List.getElem?_mem hg)
        intro w hw
        rcases List.mem_or_eq_of_mem_set hw with hin | heq
        · exact hm w hin
        · rw [heq]
          cases ent with
          | some e => exact hold
          | none =>
            rcases hsp with hc | hc
            · cases hc
            · dsimp only
              rw [if_pos hc]
              exact hold

theorem walk_entry_loop_no_difsect (fat : Fat) (use_mini : Bool) (num_sectors : Nat)
    (ent : DirEntry) :
    ∀ (fuel sect : Nat) (m : List WalkSector) (idx b last ex : Nat)
      (r : WalkEntryResult),
      cfbf_walk_entry_loop fat use_mini num_sectors ent fuel sect m idx b last ex =
        Run.done r →
      noDifsect m → noDifsect r.sector_map := by
  intro fuel
  induction fuel with
  | zero => intro sect m idx b last ex r h; simp [cfbf_walk_entry_loop] at h
  | succ fuel ih =>
    intro sect m idx b last ex r h hm
    unfold cfbf_walk_entry_loop at h
    by_cases heoc : sect = CFBF_END_OF_CHAIN
    · rw [if_pos heoc] at h
      cases h; exact hm
    · rw [if_neg heoc] at h
      dsimp only at h
      have hv : noDifsect (if use_mini = true then ((0 : Int), m)
          else visit_sector m num_sectors sect idx (some ent) 0).2 := by
        split
        · exact hm
        · exact visit_sector_no_difsect _ _ _ _ _ _ (Or.inl rfl) hm
      generalize (if use_mini = true then ((0 : Int), m)
        else visit_sector m num_sectors sect idx (some ent) 0) = v at h hv
      by_cases hneg : v.1 < 0
      · rw [if_pos hneg] at h
        cases h; exact hv
      · rw [if_neg hneg] at h
        by_cases hge : b ≥ ent.stream_size
        · rw [if_pos hge] at h
          cases h; exact hv
        · rw [if_neg hge] at h
          exact ih _ _ _ _ _ _ _ h hv

theorem walk_dir_entries_no_difsect (cfbf : CfbfFile) (n fuel : Nat) :
    ∀ (l : List (Option DirEntry)) (rv : Int) (m : List WalkSector) (st : WalkState),
      cfbf_walk_dir_entries cfbf n fuel l rv m = Run.done st →
      noDifsect m → noDifsect st.sector_map := by
  intro l
  induction l with
  | nil => intro rv m st h hm; unfold cfbf_walk_dir_entries at h; cases h; exact hm
  | cons x l ih =>
    intro rv m st h hm
    cases x with
    | none => unfold cfbf_walk_dir_entries at h; cases h
    | some ent =>
      unfold cfbf_walk_dir_entries at h
      split at h
      · exact ih _ _ _ h hm
      · split at h
        · split at h
          · cases h; exact hm
          · split at h
            · exact ih _ _ _ h hm
            · split at h
              · rename_i r hw
                have hr : noDifsect r.sector_map :=
                  walk_entry_loop_no_difsect _ _ _ _ _ _ _ _ _ _ _ _ hw hm
                split at h
                · cases h; exact hr
                · exact ih _ _ _ h hr
              · cases h
              · cases h
        · split at h
          · exact ih _ _ _ h hm
          · exact ih _ _ _ h hm

theorem walk_header_fat_no_difsect (fat : Fat) (n : Nat) :
    ∀ (l : List Nat) (rv : Int) (m : List WalkSector),
      noDifsect m → noDifsect (cfbf_walk_header_fat fat n l rv m).2 := by
  intro l
  induction l with
  | nil => intro rv m hm; exact hm
  | cons x l ih =>
    intro rv m hm
    unfold cfbf_walk_header_fat
    exact ih _ _ (visit_sector_no_difsect _ _ _ _ _ _ (Or.inr rfl) hm)

/-- The loop over the directory entries does not read the file through
`file_sect`. -/
theorem walk_dir_entries_file_sect (cfbf : CfbfFile) (f : Nat → Option Nat)
    (n fuel : Nat) :
    ∀ (l : List (Option DirEntry)) (rv : Int) (m : List WalkSector),
      cfbf_walk_dir_entries { cfbf with file_sect := f } n fuel l rv m =
        cfbf_walk_dir_entries cfbf n fuel l rv m := by
  intro l
  induction l with
  | nil => intro rv m; rfl
  | cons x l ih =>
    intro rv m
    cases x with
    | none => rfl
    | some ent =>
      unfold cfbf_walk_dir_entries
      have hw : cfbf_walk_entry { cfbf with file_sect := f } m n ent fuel =
          cfbf_walk_entry cfbf m n ent fuel := rfl
      rw [hw]
      simp only [ih]

theorem walk_difat_end (cfbf : CfbfFile) (n fuel : Nat) (st : DifatState) :
    cfbf_walk_difat cfbf n (fuel + 1) CFBF_END_OF_CHAIN st = Run.done st := by
  unfold cfbf_walk_difat
  rw [if_pos rfl]

set_option maxRecDepth 100000 in
/-- C25 (as stated, refuted): `smallDifatFile` has `csectFat = 1 ≤ 109` and
`sectDifStart = 2`. `cfbf_walk` marks sector 2 as a DIFAT sector, counts one
DIFAT sector and returns 0; and it reads the sector: when the bytes of the
sector cannot be read the walk does not return. -/
theorem walk_small_fat_reads_difat :
    smallDifatFile.header.csectFat ≤ 109 ∧
    cfbf_walk smallDifatFile 3 = Run.done
      (WalkOutcome.finished 0
        [{ entry := none, sector_index := 0, is_difsect := false, is_fatsect := true,
           is_visited := true },
         { entry := some (fake_dir_entry_for_dir_chain smallDifatFile.header 1),
           sector_index := 0, is_difsect := false, is_fatsect := false,
           is_visited := true },
         { entry := none, sector_index := 0, is_difsect := true, is_fatsect := false,
           is_visited := true }] 1 1 0 0) ∧
    cfbf_walk { smallDifatFile with file_sect := fun _ => none } 3 = Run.fault := by
  decide

/-- A walk that runs to its end has passed the directory stage and the DIFAT
stage. -/
theorem walk_finished_stages (cfbf : CfbfFile) (fuel : Nat) (rv : Int)
    (m : List WalkSector) (nd nf nu nnu : Nat)
    (h : cfbf_walk cfbf fuel = Run.done (WalkOutcome.finished rv m nd nf nu nnu)) :
    ∃ st1 d, walkDirStage cfbf fuel = some st1 ∧
      walkDifatStage cfbf fuel st1 = Run.done d ∧
      WalkOutcome.finished rv m nd nf nu nnu = WalkOutcome.finished
        (if d.num_fat_sectors_seen ≠ cfbf.header.csectFat then -1
          else if d.num_difat_sectors_seen ≠ cfbf.header.csectDif then -1 else d.retval)
        d.sector_map d.num_difat_sectors_seen d.num_fat_sectors_seen
        (unvisitedSectors d.sector_map (walkNumSectors cfbf)).length
        (unvisitedNotUnused cfbf.fat d.sector_map (walkNumSectors cfbf)).length := by
  rcases walk_stages cfbf fuel _ h with ⟨hnone, _⟩ | hfin
  · exfalso
    unfold cfbf_walk at h
    unfold walkDirStage at hnone
    dsimp only at h
    cases hd : cfbf.dir_chain with
    | none => rw [hd] at h; cases h
    | some dir_chain =>
      rw [hd] at h hnone
      dsimp only at h hnone
      cases h0 : cfbf_walk_entry cfbf
          (List.replicate (walkNumSectors cfbf) WalkSector.zero) (walkNumSectors cfbf)
          (fake_dir_entry_for_dir_chain cfbf.header dir_chain.length) fuel with
      | fault => rw [h0] at h; cases h
      | outOfFuel => rw [h0] at h; cases h
      | done r0 =>
        rw [h0] at h hnone
        dsimp only at h hnone
        by_cases hr0 : r0.exit.retval < 0
        · rw [if_pos hr0] at h; cases h
        · rw [if_neg hr0] at h hnone
          cases h1 : cfbf_walk_dir_entries cfbf (walkNumSectors cfbf) fuel
              (dirSlots dir_chain (cfbf_get_sector_size cfbf.header / sizeofDirEntry)) 0
              r0.sector_map with
          | fault => rw [h1] at h; cases h
          | outOfFuel => rw [h1] at h; cases h
          | done st1 =>
            rw [h1] at h hnone
            dsimp only at h hnone
            by_cases hf : st1.failed = true
            · rw [if_pos hf] at h; cases h
            · rw [if_neg hf] at hnone; cases hnone
  · exact hfin

theorem walk_difat_zero (cfbf : CfbfFile) (n s : Nat) (st : DifatState) :
    cfbf_walk_difat cfbf n 0 s st = Run.outOfFuel := rfl

/-- When `sectDifStart` is `ENDOFCHAIN`, `cfbf_walk` does not read the file
through `file_sect`. -/
theorem walk_file_sect (cfbf : CfbfFile) (f : Nat → Option Nat) (fuel : Nat)
    (hstart : cfbf.header.sectDifStart = CFBF_END_OF_CHAIN) :
    cfbf_walk { cfbf with file_sect := f } fuel = cfbf_walk cfbf fuel := by
  have hn : walkNumSectors { cfbf with file_sect := f } = walkNumSectors cfbf := rfl
  have hw : ∀ m n e k, cfbf_walk_entry { cfbf with file_sect := f } m n e k =
      cfbf_walk_entry cfbf m n e k := fun _ _ _ _ => rfl
  unfold cfbf_walk
  dsimp only
  rw [hn]
  simp only [hw, walk_dir_entries_file_sect, hstart]
  cases fuel with
  | zero => simp only [walk_difat_zero]
  | succ fuel => simp only [walk_difat_end]

/-! ### C28: a DIFAT chain that comes back to a visited sector -/

/-- After a directory stage without failure, `cfbf_walk` is its DIFAT stage
followed by the two count checks. -/
theorem walk_of_dir_stage (cfbf : CfbfFile) (fuel : Nat) (st1 : WalkState)
    (h : walkDirStage cfbf fuel = some st1) :
    cfbf_walk cfbf fuel =
      match walkDifatStage cfbf fuel st1 with
      | Run.fault => Run.fault
      | Run.outOfFuel => Run.outOfFuel
      | Run.done d =>
        Run.done
          (WalkOutcome.finished
            (if d.num_fat_sectors_seen ≠ cfbf.header.csectFat then -1
              else if d.num_difat_sectors_seen ≠ cfbf.header.csectDif then -1
              else d.retval)
            d.sector_map d.num_difat_sectors_seen d.num_fat_sectors_seen
            (unvisitedSectors d.sector_map (walkNumSectors cfbf)).length
            (unvisitedNotUnused cfbf.fat d.sector_map (walkNumSectors cfbf)).length) := by
  unfold walkDirStage at h
  unfold cfbf_walk walkDifatStage walkHeaderStage
  dsimp only
  cases hd : cfbf.dir_chain with
  | none => rw [hd] at h; cases h
  | some dir_chain =>
    rw [hd] at h
    dsimp only at h ⊢
    cases h0 : cfbf_walk_entry cfbf
        (List.replicate (walkNumSectors cfbf) WalkSector.zero) (walkNumSectors cfbf)
        (fake_dir_entry_for_dir_chain cfbf.header dir_chain.length) fuel with
    | fault => rw [h0] at h; cases h
    | outOfFuel => rw [h0] at h; cases h
    | done r0 =>
      rw [h0] at h
      dsimp only at h ⊢
      by_cases hr0 : r0.exit.retval < 0
      · rw [if_pos hr0] at h; cases h
      · rw [if_neg hr0] at h
        rw [if_neg hr0]
        cases h1 : cfbf_walk_dir_entries cfbf (walkNumSectors cfbf) fuel
            (dirSlots dir_chain (cfbf_get_sector_size cfbf.header / sizeofDirEntry)) 0
            r0.sector_map with
        | fault => rw [h1] at h; cases h
        | outOfFuel => rw [h1] at h; cases h
        | done st =>
          rw [h1] at h
          dsimp only at h ⊢
          by_cases hf : st.failed = true
          · rw [if_pos hf] at h; cases h
          · rw [if_neg hf] at h
            rw [if_neg hf]
            cases h
            rfl

theorem selfDifatFile_slots (i : Nat) (hi : i ∈ List.range 127) :
    (selfDifatFile.file_sect (1536 + 4 * i)).isSome = true := by
  rw [List.mem_range] at hi
  show (if 1536 + 4 * i = 2044 then some 2
    else if 1536 ≤ 1536 + 4 * i ∧ 1536 + 4 * i < 2048 then some CFBF_FREESECT
    else none).isSome = true
  split
  · rfl
  · rw [if_pos (by omega)]; rfl

/-- The DIFAT loop on `selfDifatFile` comes back to sector 2 at the end of
every iteration. -/
theorem walk_difat_self_link (n : Nat) :
    ∀ (fuel : Nat) (st : DifatState),
      cfbf_walk_difat selfDifatFile n fuel 2 st = Run.outOfFuel := by
  intro fuel
  induction fuel with
  | zero => intro st; rfl
  | succ fuel ih =>
    intro st
    have hptr : cfbf_get_sector_ptr selfDifatFile.header selfDifatFile.file_size 2 =
        some 1536 := by decide
    have hn : cfbf_get_sector_size selfDifatFile.header / 4 = 128 := by decide
    have hl : selfDifatFile.file_sect (1536 + 4 * (128 - 1)) = some 2 := by decide
    unfold cfbf_walk_difat
    rw [if_neg (by decide)]
    dsimp only
    rw [hptr]
    dsimp only
    rw [hn, if_neg (by decide)]
    obtain ⟨rv1, m1, h1⟩ := walk_difat_slots_count selfDifatFile n 1536 (List.range 127)
      (if (visit_sector st.sector_map n 2 0 none CFBF_DIFSECT).1 < 0 then -1 else st.retval)
      (visit_sector st.sector_map n 2 0 none CFBF_DIFSECT).2 st.num_fat_sectors_seen
      selfDifatFile_slots
    have h127 : 128 - 1 = 127 := rfl
    rw [hl]
    rw [h127, h1]
    exact ih _

theorem selfDifatFile_dir_stage (k : Nat) :
    (walkDirStage selfDifatFile (k + 2)).isSome = true := rfl

set_option maxRecDepth 100000 in
/-- C28 (violated by the code): in `selfDifatFile` the last slot of the DIFAT
sector 2 holds the number 2. The second visit of sector 2 is rejected by
`visit_sector`, which only sets `retval = -1`: the loop goes on, reads the same
link again, and never ends. For every amount of fuel the DIFAT loop is still
running when the fuel is used up, and so is `cfbf_walk`. -/
theorem walk_difat_self_link_never_ends :
    selfDifatFile.header.sectDifStart = 2 ∧
    cfbf_get_sector_ptr selfDifatFile.header selfDifatFile.file_size 2 = some 1536 ∧
    selfDifatFile.file_sect (1536 + 4 * 127) = some 2 ∧
    (visit_sector (visit_sector (List.replicate 3 WalkSector.zero) 3 2 0 none
      CFBF_DIFSECT).2 3 2 0 none CFBF_DIFSECT).1 = -1 ∧
    (∀ (fuel : Nat) (st : DifatState),
      cfbf_walk_difat selfDifatFile (walkNumSectors selfDifatFile) fuel
        selfDifatFile.header.sectDifStart st = Run.outOfFuel) ∧
    (∀ fuel, cfbf_walk selfDifatFile fuel = Run.outOfFuel) := by
  refine ⟨rfl, by decide, by decide, by decide, fun fuel st => walk_difat_self_link _ fuel st,
    fun fuel => ?_⟩
  rcases Nat.lt_or_ge fuel 2 with hlt | hge
  · interval_cases fuel
    · decide
    · decide
  · obtain ⟨k, rfl⟩ : ∃ k, fuel = k + 2 := ⟨fuel - 2, by omega⟩
    obtain ⟨st1, hst1⟩ := Option.isSome_iff_exists.mp (selfDifatFile_dir_stage k)
    rw [walk_of_dir_stage selfDifatFile (k + 2) st1 hst1]
    have hd : walkDifatStage selfDifatFile (k + 2) st1 = Run.outOfFuel :=
      walk_difat_self_link _ _ _
    rw [hd]

/-! ### C21: what `cfbf_open` checks -/

/-- C21 (as stated, refuted): `noBomFile` has the size of five sectors, the
signature in its first 8 bytes and `00 00` where the byte-order mark should be;
when the FAT, the MiniFAT and the mini-stream load, `cfbf_open` returns 0. -/
theorem open_accepts_wrong_byte_order_mark :
    noBomFile.bytes.take 8 = cfbfSignature ∧
    byteOrderMark noBomFile = [0, 0] ∧
    cfbf_open okEnv noBomFile = Run.done 0 := by
  decide

theorem take_set_of_le {α : Type} (l : List α) (k i : Nat) (a : α) (h : k ≤ i) :
    (l.set i a).take k = l.take k := by
  induction l generalizing k i with
  | nil => rfl
  | cons x l ih =>
    cases i with
    | zero =>
      have hk : k = 0 := by omega
      subst hk
      rfl
    | succ i =>
      cases k with
      | zero => rfl
      | succ k =>
        rw [List.set_cons_succ, List.take_succ_cons, List.take_succ_cons, ih k i (by omega)]

/-- C21 (amended): `cfbf_open` returns -1 for every file that is smaller
than the header and for every file whose first 8 bytes are not the signature;
the byte-order mark is not examined: changing the bytes at offsets `0x1c` and
`0x1d` does not change the result. -/
theorem open_checks (env : OpenEnv) (f : OpenFile) :
    (f.file_size < env.sizeof_header → cfbf_open env f = Run.done (-1)) ∧
    (f.bytes.take 8 ≠ cfbfSignature → cfbf_open env f = Run.done (-1)) ∧
    (∀ b0 b1 : Nat,
      cfbf_open env { f with bytes := (f.bytes.set 0x1c b0).set 0x1d b1 } =
        cfbf_open env f) := by
  refine ⟨?_, ?_, ?_⟩
  · intro h
    unfold cfbf_open
    by_cases h1 : env.stat_ok = false
    · rw [if_pos h1]
    · rw [if_neg h1]
      by_cases h2 : env.fd_ok = false
      · rw [if_pos h2]
      · rw [if_neg h2, if_pos h]
  · intro h
    unfold cfbf_open
    by_cases h1 : env.stat_ok = false
    · rw [if_pos h1]
    · rw [if_neg h1]
      by_cases h2 : env.fd_ok = false
      · rw [if_pos h2]
      · rw [if_neg h2]
        by_cases h3 : f.file_size < env.sizeof_header
        · rw [if_pos h3]
        · rw [if_neg h3]
          by_cases h4 : env.mmap_ok = false
          · rw [if_pos h4]
          · rw [if_neg h4, if_pos h]
  · intro b0 b1
    unfold cfbf_open
    dsimp only
    rw [take_set_of_le _ 8 0x1d b1 (by decide), take_set_of_le _ 8 0x1c b0 (by decide)]

/-- C21 (amended) on a file of 100 bytes: smaller than the header of 512
bytes, it is refused. -/
theorem open_checks_witness :
    cfbf_open okEnv { noBomFile with file_size := 100 } = Run.done (-1) :=
  (open_checks okEnv { noBomFile with file_size := 100 }).1 (by decide)

/-! ### C26: the number of header-listed FAT pages -/

/-- C26: for every 32-bit unsigned value of `csectFat`, the
`num_start_sectors` of `cfbf_open` and the `num_start_fat_sectors` of
`cfbf_walk` (computed with the conversions of C between `int` and the unsigned
type, and as the model of `cfbf_walk` uses it) are `min 109 csectFat`, hence
equal. -/
theorem num_start_sectors_min (header : Header) (h : header.csectFat < 2 ^ 32) :
    openNumStartSectors header = min 109 header.csectFat ∧
    walkNumStartFatSectorsC header.csectFat = ((min 109 header.csectFat : Nat) : Int) ∧
    walkNumStartFatSectors header = min 109 header.csectFat ∧
    (walkNumStartFatSectorsC header.csectFat = (openNumStartSectors header : Int)) := by
  have h1 : openNumStartSectors header = min 109 header.csectFat := by
    unfold openNumStartSectors
    dsimp only
    split <;> omega
  have h2 : walkNumStartFatSectorsC header.csectFat =
      ((min 109 header.csectFat : Nat) : Int) := by
    unfold walkNumStartFatSectorsC intToUnsigned unsignedToInt
    dsimp only
    have e109 : ((109 : Int) % 2 ^ 32).toNat = 109 := by decide
    rw [e109, Nat.mod_eq_of_lt h]
    by_cases hc : 109 > header.csectFat
    · rw [if_pos hc, if_pos (by omega)]
      congr 1
      omega
    · rw [if_neg hc]
      have : min 109 header.csectFat = 109 := by omega
      rw [this]
      rfl
  have h3 : walkNumStartFatSectors header = min 109 header.csectFat := by
    unfold walkNumStartFatSectors
    split <;> omega
  exact ⟨h1, h2, h3, by rw [h2, h1]⟩

/-- C26 at `csectFat = 0xFFFFFFFF`: both numbers are 109. -/
theorem num_start_sectors_min_witness :
    openNumStartSectors { e1Header with csectFat := 0xFFFFFFFF } = 109 ∧
    walkNumStartFatSectorsC 0xFFFFFFFF = 109 := by
  have h := num_start_sectors_min { e1Header with csectFat := 0xFFFFFFFF } (by decide)
  exact ⟨h.1, h.2.1⟩

/-! ### C30: the number of directory entries in a sector -/

/-- C30 (as stated, refuted): `smallSectorFile` has `uSectorShift = 6`.
When the FAT, the MiniFAT and the mini-stream load, `cfbf_open` returns 0; the
number of entries in a sector is `64 / 128 = 0`, and the lookup and the
directory walk divide by it. -/
theorem open_accepts_small_sector :
    cfbf_open okEnv smallSectorFile = Run.done 0 ∧
    cfbf_get_sector_size smallSectorFile.header / sizeofDirEntry = 0 ∧
    cfbf_dir_entry_find_path asciiEnv smallSectorFile.header (some [[e1Root]]) 5
      [82, 111, 111, 116, 32, 69, 110, 116, 114, 121] = Run.fault ∧
    cfbf_walk_dir_tree smallSectorFile.header (some [[e1Root]]) recordCall 5 [] =
      Run.fault := by
  decide

/-- C30 (amended): for a header whose `uSectorShift` is at most 30 (so that
`1 << uSectorShift` is defined), the number of directory entries in a sector,
`(1 << uSectorShift) / 128`, is at least 1 exactly when `uSectorShift ≥ 7`; then
the page index `entry_id / entries_per_sector` and the slot
`entry_id % entries_per_sector` are those of the entry: `entry_id` is
`page * entries_per_sector + slot` with `slot < entries_per_sector`. -/
theorem entries_per_sector_pos (header : Header) (h30 : header.uSectorShift ≤ 30) :
    (1 ≤ cfbf_get_sector_size header / sizeofDirEntry ↔ 7 ≤ header.uSectorShift) ∧
    (7 ≤ header.uSectorShift →
      ∀ entry_id : Nat,
        entry_id % (cfbf_get_sector_size header / sizeofDirEntry) <
          cfbf_get_sector_size header / sizeofDirEntry ∧
        entry_id = entry_id / (cfbf_get_sector_size header / sizeofDirEntry) *
          (cfbf_get_sector_size header / sizeofDirEntry) +
          entry_id % (cfbf_get_sector_size header / sizeofDirEntry)) := by
  have hiff : 1 ≤ cfbf_get_sector_size header / sizeofDirEntry ↔
      7 ≤ header.uSectorShift := by
    unfold cfbf_get_sector_size sizeofDirEntry
    have h128 : (128 : Nat) = 2 ^ 7 := rfl
    rw [h128]
    constructor
    · intro h
      by_contra hlt
      have hlt2 : header.uSectorShift < 7 := by omega
      have : 2 ^ header.uSectorShift < 2 ^ 7 := Nat.pow_lt_pow_right (by decide) hlt2
      have := Nat.div_eq_of_lt this
      omega
    · intro h
      have : 2 ^ 7 ≤ 2 ^ header.uSectorShift := Nat.pow_le_pow_right (by decide) h
      exact (Nat.one_le_div_iff (by decide)).2 this
  refine ⟨hiff, fun h7 entry_id => ?_⟩
  have hpos := hiff.2 h7
  exact ⟨Nat.mod_lt _ hpos, (Nat.div_add_mod' entry_id _).symm⟩

/-- C30 (amended) on the header of E1 (sector size 512): 4 entries in a
sector. -/
theorem entries_per_sector_pos_witness :
    1 ≤ cfbf_get_sector_size e1Header / sizeofDirEntry :=
  (entries_per_sector_pos e1Header (by decide)).1.2 (by decide)

/-! ### C24: leading slashes of a path -/

/-- C24 (as stated, refuted): in the directory of E1,
`cfbf_dir_entry_find_path` finds entry 0 for `Root Entry` and nothing for
`/Root Entry`: the empty first component of the second path matches no
entry. -/
theorem find_path_leading_slash_counterexample :
    cfbf_dir_entry_find_path asciiEnv e1Header e1File.dir_chain 5
      [82, 111, 111, 116, 32, 69, 110, 116, 114, 121] = Run.done (some 0) ∧
    cfbf_dir_entry_find_path asciiEnv e1Header e1File.dir_chain 5
      (47 :: [82, 111, 111, 116, 32, 69, 110, 116, 114, 121]) = Run.done none := by
  decide

theorem skipLeadingSlashes_replicate (k : Nat) (path : List Nat) :
    skipLeadingSlashes (List.replicate k 47 ++ path) = skipLeadingSlashes path := by
  induction k with
  | zero => rfl
  | succ k ih =>
    have hstep : ∀ s : List Nat, skipLeadingSlashes (47 :: s) = skipLeadingSlashes s :=
      fun _ => rfl
    rw [List.replicate_succ, List.cons_append, hstep]
    exact ih

/-- C24 (amended): the leading slashes are removed by `main` from the
argument of `-r`, before `cfbf_dir_entry_find_path` is called: for every path
and every `k`, the lookup made for `-r` with the path prefixed with `k`
slashes is the lookup made for `-r` with the path, whatever the directory. -/
theorem dump_lookup_strips_slashes (env : IconvEnv) (header : Header)
    (dir_chain : Option (List (List DirEntry))) (fuel : Nat) (path : List Nat)
    (k : Nat) :
    skipLeadingSlashes (List.replicate k 47 ++ path) = skipLeadingSlashes path ∧
    mainDumpLookup env header dir_chain fuel (List.replicate k 47 ++ path) =
      mainDumpLookup env header dir_chain fuel path := by
  refine ⟨skipLeadingSlashes_replicate k path, ?_⟩
  unfold mainDumpLookup
  rw [skipLeadingSlashes_replicate]

/-! ### C31: the size of the UTF-16 buffer -/

theorem utf8Encode1_length_pos (c : Nat) : 1 ≤ (utf8Encode1 c).length := by
  unfold utf8Encode1
  split
  · simp
  · split
    · simp
    · split <;> simp

theorem utf16Encode1_length_le (c : Nat) :
    (utf16Encode1 c).length ≤ (utf8Encode1 c).length := by
  unfold utf16Encode1 utf8Encode1
  by_cases h1 : c < 0x80
  · rw [if_pos h1, if_pos (by omega)]
  · rw [if_neg h1]
    by_cases h2 : c < 0x800
    · rw [if_pos h2, if_pos (by omega)]; simp
    · rw [if_neg h2]
      by_cases h3 : c < 0x10000
      · rw [if_pos h3, if_pos h3]; simp
      · rw [if_neg h3, if_neg h3]; simp

theorem utf16Encode_length_le (cs : List Nat) :
    (utf16Encode cs).length ≤ (utf8Encode cs).length := by
  induction cs with
  | nil => simp [utf16Encode, utf8Encode]
  | cons c cs ih =>
    unfold utf16Encode utf8Encode at *
    rw [List.flatMap_cons, List.flatMap_cons, List.length_append, List.length_append]
    have := utf16Encode1_length_le c
    omega

theorem utf8Encode_length_pos (cs : List Nat) (h : cs ≠ []) :
    1 ≤ (utf8Encode cs).length := by
  cases cs with
  | nil => exact absurd rfl h
  | cons c cs =>
    unfold utf8Encode
    rw [List.flatMap_cons, List.length_append]
    have := utf8Encode1_length_pos c
    omega

/-- The bytes written fit into the buffer exactly when the path is not
empty. -/
theorem utf16_buffer_enough_iff (cs : List Nat) :
    utf16BytesWritten (utf16Encode cs) ≤ utf16BufferSize (utf8Encode cs) ↔ cs ≠ [] := by
  unfold utf16BytesWritten utf16BufferSize
  constructor
  · intro h hnil
    subst hnil
    simp [utf16Encode, utf8Encode] at h
  · intro h
    have h1 := utf16Encode_length_le cs
    have h2 := utf8Encode_length_pos cs h
    omega

/-- For a path that is not empty and that `iconv` converts, the buffer of
`cfbf_dir_entry_find_path` holds the converted path and its terminator, and
the function is the lookup of the converted path from entry 0. -/
theorem find_path_buffer_enough (env : IconvEnv) (header : Header)
    (chain : List (List DirEntry)) (fuel : Nat) (cs : List Nat)
    (hm : env.malloc_ok = true) (ho : env.iconv_open_ok = true)
    (hconv : env.iconv (utf8Encode cs) = some (utf16Encode cs)) (hne : cs ≠ []) :
    cfbf_dir_entry_find_path env header (some chain) fuel (utf8Encode cs) =
      cfbf_find_path_in_tree chain (cfbf_get_sector_size header / sizeofDirEntry)
        fuel 0 (utf16Encode cs) := by
  have hfit := (utf16_buffer_enough_iff cs).2 hne
  unfold utf16BytesWritten utf16BufferSize at hfit
  unfold cfbf_dir_entry_find_path
  dsimp only
  rw [if_neg (by rw [hm]; decide), if_neg (by rw [ho]; decide), hconv]
  dsimp only
  rw [if_neg (by omega)]

/-- C31 (violated by the code): for the empty path the buffer has
`4 * 0 = 0` bytes and the terminator written after the converted path takes 2
bytes: `cfbf_dir_entry_find_path` writes outside the buffer. The same happens
for `-r /`, which `main` turns into the empty path. -/
theorem find_path_empty_path_overflows :
    utf8Encode [] = [] ∧ utf16Encode [] = [] ∧
    utf16BufferSize (utf8Encode []) = 0 ∧
    utf16BytesWritten (utf16Encode []) = 2 ∧
    asciiEnv.iconv [] = some [] ∧
    cfbf_dir_entry_find_path asciiEnv e1Header e1File.dir_chain 5 [] = Run.fault ∧
    mainDumpLookup asciiEnv e1Header e1File.dir_chain 5 [47] = Run.fault := by
  decide

/-! ### C25: what the walk does with the sector `sectDifStart` -/

/-- A successful `visit_sector` leaves every visited element of the map as it
is: it rewrites an element that was not visited, and a rejection rewrites
nothing. -/
theorem visit_sector_keeps_visited (m : List WalkSector) (n s idx : Nat)
    (ent : Option DirEntry) (sp S : Nat)
    (h : (m.getD S WalkSector.zero).is_visited = true) :
    (visit_sector m n s idx ent sp).2.getD S WalkSector.zero =
      m.getD S WalkSector.zero := by
  rcases visit_sector_cases m n s idx ent sp with ⟨_, h2, _⟩ | ⟨_, _, _, hv, w, hw, _⟩
  · rw [h2]
  · rw [hw]
    by_cases hs : s = S
    · subst hs
      rw [h] at hv; cases hv
    · rw [List.getD_eq_getElem?_getD, List.getD_eq_getElem?_getD,
        List.getElem?_set_ne hs]

/-- The call `visit_sector (..., NULL, CFBF_DIFSECT)` on a sector of the map
that is not marked marks it as a DIFAT sector. -/
theorem visit_sector_marks_difsect (m : List WalkSector) (n s idx : Nat)
    (hs : s < n) (hlen : n ≤ m.length)
    (he : (m.getD s WalkSector.zero).entry = none)
    (hv : (m.getD s WalkSector.zero).is_visited = false) :
    ((visit_sector m n s idx none CFBF_DIFSECT).2.getD s WalkSector.zero).is_difsect = true ∧
    ((visit_sector m n s idx none CFBF_DIFSECT).2.getD s WalkSector.zero).is_visited = true := by
  unfold visit_sector
  rw [if_neg (by omega)]
  dsimp only
  rw [he, hv]
  rw [if_neg (by simp), if_neg (by simp), if_neg (by decide), if_pos rfl]
  dsimp only
  rw [List.getD_eq_getElem?_getD, List.getElem?_set_self (by omega)]
  exact ⟨rfl, rfl⟩

theorem walk_difat_slots_keeps (cfbf : CfbfFile) (n offset : Nat) :
    ∀ (l : List Nat) (rv : Int) (m : List WalkSector) (seen : Nat)
      (rv1 : Int) (m1 : List WalkSector) (seen1 : Nat),
      cfbf_walk_difat_slots cfbf n offset l rv m seen = Run.done (rv1, m1, seen1) →
      ∀ S, (m.getD S WalkSector.zero).is_visited = true →
        m1.getD S WalkSector.zero = m.getD S WalkSector.zero := by
  intro l
  induction l with
  | nil =>
    intro rv m seen rv1 m1 seen1 h S _
    unfold cfbf_walk_difat_slots at h
    cases h
    rfl
  | cons i l ih =>
    intro rv m seen rv1 m1 seen1 h S hS
    unfold cfbf_walk_difat_slots at h
    cases hr : cfbf.file_sect (offset + 4 * i) with
    | none => rw [hr] at h; cases h
    | some v =>
      rw [hr] at h
      dsimp only at h
      by_cases hp : v = CFBF_FREESECT ∧ seen ≥ cfbf.header.csectFat
      · rw [if_pos hp] at h
        exact ih _ _ _ _ _ _ h S hS
      · rw [if_neg hp] at h
        have hk := visit_sector_keeps_visited m n v 0 none CFBF_FATSECT S hS
        rw [ih _ _ _ _ _ _ h S (by rw [hk]; exact hS), hk]

theorem walk_difat_keeps (cfbf : CfbfFile) (n : Nat) :
    ∀ (fuel start : Nat) (st d : DifatState),
      cfbf_walk_difat cfbf n fuel start st = Run.done d →
      ∀ S, (st.sector_map.getD S WalkSector.zero).is_visited = true →
        d.sector_map.getD S WalkSector.zero = st.sector_map.getD S WalkSector.zero := by
  intro fuel
  induction fuel with
  | zero => intro start st d h; unfold cfbf_walk_difat at h; cases h
  | succ fuel ih =>
    intro start st d h S hS
    unfold cfbf_walk_difat at h
    by_cases he : start = CFBF_END_OF_CHAIN
    · rw [if_pos he] at h
      cases h
      rfl
    · rw [if_neg he] at h
      dsimp only at h
      have hk := visit_sector_keeps_visited st.sector_map n start 0 none CFBF_DIFSECT S hS
      cases hptr : cfbf_get_sector_ptr cfbf.header cfbf.file_size start with
      | none =>
        rw [hptr] at h
        dsimp only at h
        cases h
        exact hk
      | some offset =>
        rw [hptr] at h
        dsimp only at h
        by_cases hn : cfbf_get_sector_size cfbf.header / 4 = 0
        · rw [if_pos hn] at h; cases h
        · rw [if_neg hn] at h
          cases hsl : cfbf_walk_difat_slots cfbf n offset
              (List.range (cfbf_get_sector_size cfbf.header / 4 - 1))
              (if (visit_sector st.sector_map n start 0 none CFBF_DIFSECT).1 < 0
                then -1 else st.retval)
              (visit_sector st.sector_map n start 0 none CFBF_DIFSECT).2
              st.num_fat_sectors_seen with
          | fault => rw [hsl] at h; cases h
          | outOfFuel => rw [hsl] at h; cases h
          | done p =>
            obtain ⟨rv2, m2, seen2⟩ := p
            rw [hsl] at h
            dsimp only at h
            have hk2 := walk_difat_slots_keeps cfbf n offset _ _ _ _ _ _ _ hsl S
              (by rw [hk]; exact hS)
            cases hnx : cfbf.file_sect
                (offset + 4 * (cfbf_get_sector_size cfbf.header / 4 - 1)) with
            | none => rw [hnx] at h; cases h
            | some next =>
              rw [hnx] at h
              dsimp only at h
              have h3 := ih next _ d h S (by dsimp only; rw [hk2, hk]; exact hS)
              rw [h3]
              dsimp only
              rw [hk2, hk]

/-- The loop over the slots of a DIFAT sector returns or faults. -/
theorem walk_difat_slots_fuel (cfbf : CfbfFile) (n offset : Nat) :
    ∀ (l : List Nat) (rv : Int) (m : List WalkSector) (seen : Nat),
      cfbf_walk_difat_slots cfbf n offset l rv m seen ≠ Run.outOfFuel := by
  intro l
  induction l with
  | nil => intro rv m seen h; unfold cfbf_walk_difat_slots at h; cases h
  | cons i l ih =>
    intro rv m seen h
    unfold cfbf_walk_difat_slots at h
    cases hr : cfbf.file_sect (offset + 4 * i) with
    | none => rw [hr] at h; cases h
    | some v =>
      rw [hr] at h
      dsimp only at h
      by_cases hp : v = CFBF_FREESECT ∧ seen ≥ cfbf.header.csectFat
      · rw [if_pos hp] at h
        exact ih _ _ _ h
      · rw [if_neg hp] at h
        exact ih _ _ _ h

/-- The loop over the slots of a DIFAT sector faults when one of the slots
cannot be read. -/
theorem walk_difat_slots_fault (cfbf : CfbfFile) (n offset : Nat) :
    ∀ (l : List Nat) (rv : Int) (m : List WalkSector) (seen : Nat) (i : Nat),
      i ∈ l → cfbf.file_sect (offset + 4 * i) = none →
      cfbf_walk_difat_slots cfbf n offset l rv m seen = Run.fault := by
  intro l
  induction l with
  | nil => intro rv m seen i hi; cases hi
  | cons j l ih =>
    intro rv m seen i hi hnone
    unfold cfbf_walk_difat_slots
    cases hr : cfbf.file_sect (offset + 4 * j) with
    | none => rfl
    | some v =>
      dsimp only
      have hil : i ∈ l := by
        rcases List.mem_cons.mp hi with hij | hil
        · subst hij
          rw [hnone] at hr; cases hr
        · exact hil
      by_cases hp : v = CFBF_FREESECT ∧ seen ≥ cfbf.header.csectFat
      · rw [if_pos hp]
        exact ih _ _ _ i hil hnone
      · rw [if_neg hp]
        exact ih _ _ _ i hil hnone

/-- The first iteration of the DIFAT loop reads every slot of its sector. -/
theorem walk_difat_reads (cfbf : CfbfFile) (n fuel start offset i : Nat)
    (st : DifatState) (he : start ≠ CFBF_END_OF_CHAIN)
    (hptr : cfbf_get_sector_ptr cfbf.header cfbf.file_size start = some offset)
    (hi : i < cfbf_get_sector_size cfbf.header / 4)
    (hnone : cfbf.file_sect (offset + 4 * i) = none) :
    cfbf_walk_difat cfbf n (fuel + 1) start st = Run.fault := by
  unfold cfbf_walk_difat
  rw [if_neg he]
  dsimp only
  rw [hptr]
  dsimp only
  rw [if_neg (by omega)]
  by_cases hlast : i = cfbf_get_sector_size cfbf.header / 4 - 1
  · cases hsl : cfbf_walk_difat_slots cfbf n offset
        (List.range (cfbf_get_sector_size cfbf.header / 4 - 1))
        (if (visit_sector st.sector_map n start 0 none CFBF_DIFSECT).1 < 0
          then -1 else st.retval)
        (visit_sector st.sector_map n start 0 none CFBF_DIFSECT).2
        st.num_fat_sectors_seen with
    | fault => rfl
    | outOfFuel => exact absurd hsl (walk_difat_slots_fuel _ _ _ _ _ _ _)
    | done p =>
      obtain ⟨rv2, m2, seen2⟩ := p
      dsimp only
      rw [← hlast, hnone]
  · rw [walk_difat_slots_fault cfbf n offset _ _ _ _ i
      (by rw [List.mem_range]; omega) hnone]

/-- The first iteration of the DIFAT loop marks its sector, and the mark
stays. -/
theorem walk_difat_marks (cfbf : CfbfFile) (n fuel start : Nat) (st d : DifatState)
    (he : start ≠ CFBF_END_OF_CHAIN) (hs : start < n) (hlen : n ≤ st.sector_map.length)
    (hent : (st.sector_map.getD start WalkSector.zero).entry = none)
    (hvis : (st.sector_map.getD start WalkSector.zero).is_visited = false)
    (h : cfbf_walk_difat cfbf n fuel start st = Run.done d) :
    (d.sector_map.getD start WalkSector.zero).is_difsect = true ∧
    (d.sector_map.getD start WalkSector.zero).is_visited = true := by
  have hmark := visit_sector_marks_difsect st.sector_map n start 0 hs hlen hent hvis
  cases fuel with
  | zero => unfold cfbf_walk_difat at h; cases h
  | succ fuel =>
    unfold cfbf_walk_difat at h
    rw [if_neg he] at h
    dsimp only at h
    cases hptr : cfbf_get_sector_ptr cfbf.header cfbf.file_size start with
    | none =>
      rw [hptr] at h
      dsimp only at h
      cases h
      exact hmark
    | some offset =>
      rw [hptr] at h
      dsimp only at h
      by_cases hn : cfbf_get_sector_size cfbf.header / 4 = 0
      · rw [if_pos hn] at h; cases h
      · rw [if_neg hn] at h
        cases hsl : cfbf_walk_difat_slots cfbf n offset
            (List.range (cfbf_get_sector_size cfbf.header / 4 - 1))
            (if (visit_sector st.sector_map n start 0 none CFBF_DIFSECT).1 < 0
              then -1 else st.retval)
            (visit_sector st.sector_map n start 0 none CFBF_DIFSECT).2
            st.num_fat_sectors_seen with
        | fault => rw [hsl] at h; cases h
        | outOfFuel => rw [hsl] at h; cases h
        | done p =>
          obtain ⟨rv2, m2, seen2⟩ := p
          rw [hsl] at h
          dsimp only at h
          have hk2 := walk_difat_slots_keeps cfbf n offset _ _ _ _ _ _ _ hsl start hmark.2
          cases hnx : cfbf.file_sect
              (offset + 4 * (cfbf_get_sector_size cfbf.header / 4 - 1)) with
          | none => rw [hnx] at h; cases h
          | some next =>
            rw [hnx] at h
            dsimp only at h
            have h3 := walk_difat_keeps cfbf n fuel next _ d h start
              (by dsimp only; rw [hk2]; exact hmark.2)
            rw [h3]
            dsimp only
            rw [hk2]
            exact hmark

theorem walk_dir_entries_length (cfbf : CfbfFile) (n fuel : Nat) :
    ∀ (l : List (Option DirEntry)) (rv : Int) (m : List WalkSector) (st : WalkState),
      cfbf_walk_dir_entries cfbf n fuel l rv m = Run.done st →
      st.sector_map.length = m.length := by
  intro l
  induction l with
  | nil => intro rv m st h; unfold cfbf_walk_dir_entries at h; cases h; rfl
  | cons x l ih =>
    intro rv m st h
    cases x with
    | none => unfold cfbf_walk_dir_entries at h; cases h
    | some ent =>
      unfold cfbf_walk_dir_entries at h
      split at h
      · exact ih _ _ _ h
      · split at h
        · split at h
          · cases h; rfl
          · split at h
            · exact ih _ _ _ h
            · split at h
              · rename_i r hw
                have hr : r.sector_map.length = m.length :=
                  (walk_entry_loop_preserves _ _ _ _ _ _ _ _ _ _ _ _ hw).1
                split at h
                · cases h; exact hr
                · exact (ih _ _ _ h).trans hr
              · cases h
              · cases h
        · split at h
          · exact ih _ _ _ h
          · exact ih _ _ _ h

theorem walk_header_fat_length (fat : Fat) (n : Nat) :
    ∀ (l : List Nat) (rv : Int) (m : List WalkSector),
      (cfbf_walk_header_fat fat n l rv m).2.length = m.length := by
  intro l
  induction l with
  | nil => intro rv m; rfl
  | cons x l ih =>
    intro rv m
    unfold cfbf_walk_header_fat
    exact (ih _ _).trans (visit_sector_length _ _ _ _ _ _)

/-- The map that the DIFAT stage starts from has one element for each sector
of the file. -/
theorem walk_header_stage_length (cfbf : CfbfFile) (fuel : Nat) (st1 : WalkState)
    (h : walkDirStage cfbf fuel = some st1) :
    (walkHeaderStage cfbf st1).2.length = walkNumSectors cfbf := by
  unfold walkHeaderStage
  rw [walk_header_fat_length]
  unfold walkDirStage at h
  cases hd : cfbf.dir_chain with
  | none => rw [hd] at h; cases h
  | some dir_chain =>
    rw [hd] at h
    dsimp only at h
    cases h0 : cfbf_walk_entry cfbf
        (List.replicate (walkNumSectors cfbf) WalkSector.zero) (walkNumSectors cfbf)
        (fake_dir_entry_for_dir_chain cfbf.header dir_chain.length) fuel with
    | fault => rw [h0] at h; cases h
    | outOfFuel => rw [h0] at h; cases h
    | done r0 =>
      rw [h0] at h
      dsimp only at h
      by_cases hr0 : r0.exit.retval < 0
      · rw [if_pos hr0] at h; cases h
      · rw [if_neg hr0] at h
        cases h1 : cfbf_walk_dir_entries cfbf (walkNumSectors cfbf) fuel
            (dirSlots dir_chain (cfbf_get_sector_size cfbf.header / sizeofDirEntry)) 0
            r0.sector_map with
        | fault => rw [h1] at h; cases h
        | outOfFuel => rw [h1] at h; cases h
        | done st =>
          rw [h1] at h
          dsimp only at h
          by_cases hf : st.failed = true
          · rw [if_pos hf] at h; cases h
          · rw [if_neg hf] at h
            cases h
            rw [walk_dir_entries_length _ _ _ _ _ _ _ h1,
              (walk_entry_loop_preserves _ _ _ _ _ _ _ _ _ _ _ _ h0).1,
              List.length_replicate]

/-- A directory stage that ends has used fuel. -/
theorem walk_dir_stage_fuel (cfbf : CfbfFile) (fuel : Nat) (st1 : WalkState)
    (h : walkDirStage cfbf fuel = some st1) : ∃ k, fuel = k + 1 := by
  cases fuel with
  | zero =>
    unfold walkDirStage at h
    cases hd : cfbf.dir_chain with
    | none => rw [hd] at h; cases h
    | some dir_chain =>
      rw [hd] at h
      have h0 : cfbf_walk_entry cfbf
          (List.replicate (walkNumSectors cfbf) WalkSector.zero) (walkNumSectors cfbf)
          (fake_dir_entry_for_dir_chain cfbf.header dir_chain.length) 0 =
          Run.outOfFuel := rfl
      dsimp only at h
      rw [h0] at h
      cases h
  | succ k => exact ⟨k, rfl⟩

/-- When `sectDifStart` is `ENDOFCHAIN`, a walk that returns has marked no
sector as a DIFAT sector and has counted no DIFAT sector. -/
theorem walk_end_of_chain_no_difat (cfbf : CfbfFile) (fuel : Nat) (out : WalkOutcome)
    (hstart : cfbf.header.sectDifStart = CFBF_END_OF_CHAIN)
    (h : cfbf_walk cfbf fuel = Run.done out) :
    noDifsect out.sector_map ∧
    (∀ rv m nd nf nu nnu, out = WalkOutcome.finished rv m nd nf nu nnu →
      nd = 0 ∧ nf = min 109 cfbf.header.csectFat) := by
  have hmin : walkNumStartFatSectors cfbf.header = min 109 cfbf.header.csectFat := by
    unfold walkNumStartFatSectors
    split <;> omega
  have hzero : noDifsect (List.replicate (walkNumSectors cfbf) WalkSector.zero) := by
    intro w hw
    rw [List.eq_of_mem_replicate hw]
    rfl
  refine ⟨?_, ?_⟩
  · unfold cfbf_walk at h
    dsimp only at h
    cases hd : cfbf.dir_chain with
    | none =>
      rw [hd] at h
      dsimp only at h
      cases h
      intro w hw
      cases hw
    | some dir_chain =>
      rw [hd] at h
      dsimp only at h
      cases h0 : cfbf_walk_entry cfbf
          (List.replicate (walkNumSectors cfbf) WalkSector.zero) (walkNumSectors cfbf)
          (fake_dir_entry_for_dir_chain cfbf.header dir_chain.length) fuel with
      | fault => rw [h0] at h; cases h
      | outOfFuel => rw [h0] at h; cases h
      | done r0 =>
        have hr0m : noDifsect r0.sector_map :=
          walk_entry_loop_no_difsect _ _ _ _ _ _ _ _ _ _ _ _ h0 hzero
        rw [h0] at h
        dsimp only at h
        by_cases hr0 : r0.exit.retval < 0
        · rw [if_pos hr0] at h
          cases h
          exact hr0m
        · rw [if_neg hr0] at h
          cases h1 : cfbf_walk_dir_entries cfbf (walkNumSectors cfbf) fuel
              (dirSlots dir_chain (cfbf_get_sector_size cfbf.header / sizeofDirEntry)) 0
              r0.sector_map with
          | fault => rw [h1] at h; cases h
          | outOfFuel => rw [h1] at h; cases h
          | done st1 =>
            have hst1m : noDifsect st1.sector_map :=
              walk_dir_entries_no_difsect _ _ _ _ _ _ _ h1 hr0m
            rw [h1] at h
            dsimp only at h
            by_cases hf : st1.failed = true
            · rw [if_pos hf] at h
              cases h
              exact hst1m
            · rw [if_neg hf, hstart] at h
              cases fuel with
              | zero => unfold cfbf_walk_entry cfbf_walk_entry_loop at h0; cases h0
              | succ fuel =>
                rw [walk_difat_end] at h
                dsimp only at h
                cases h
                exact walk_header_fat_no_difsect _ _ _ _ _ hst1m
  · intro rv m nd nf nu nnu hout
    rw [hout] at h
    obtain ⟨st1, d, _, hd, hfin⟩ := walk_finished_stages cfbf fuel _ _ _ _ _ _ h
    unfold walkDifatStage at hd
    rw [hstart] at hd
    cases fuel with
    | zero => unfold cfbf_walk_difat at hd; cases hd
    | succ fuel =>
      rw [walk_difat_end] at hd
      cases hd
      cases hfin
      exact ⟨rfl, hmin⟩

/-- When `sectDifStart` is not `ENDOFCHAIN` and the directory stage ends
without failure, the DIFAT loop is entered: a slot of the sector that cannot
be read makes the walk fault; a sector past the end of the file makes it
return -1 with no DIFAT sector counted; a sector of the map that steps 1 to 3
left unmarked is marked as a DIFAT sector; and the walk returns when the chain
ends, with at least one DIFAT sector counted. -/
theorem walk_enters_difat (cfbf : CfbfFile) (fuel : Nat) (st1 : WalkState)
    (hstart : cfbf.header.sectDifStart ≠ CFBF_END_OF_CHAIN)
    (hdir : walkDirStage cfbf fuel = some st1) :
    (∀ offset i,
      cfbf_get_sector_ptr cfbf.header cfbf.file_size cfbf.header.sectDifStart =
        some offset →
      i < cfbf_get_sector_size cfbf.header / 4 →
      cfbf.file_sect (offset + 4 * i) = none →
      cfbf_walk cfbf fuel = Run.fault) ∧
    (cfbf_get_sector_ptr cfbf.header cfbf.file_size cfbf.header.sectDifStart = none →
      ∃ m nf nu nnu,
        cfbf_walk cfbf fuel = Run.done (WalkOutcome.finished (-1) m 0 nf nu nnu)) ∧
    (cfbf.header.sectDifStart < walkNumSectors cfbf →
      ((walkHeaderStage cfbf st1).2.getD cfbf.header.sectDifStart
        WalkSector.zero).entry = none →
      ((walkHeaderStage cfbf st1).2.getD cfbf.header.sectDifStart
        WalkSector.zero).is_visited = false →
      ∀ out, cfbf_walk cfbf fuel = Run.done out →
        (out.sector_map.getD cfbf.header.sectDifStart WalkSector.zero).is_difsect = true ∧
        (out.sector_map.getD cfbf.header.sectDifStart WalkSector.zero).is_visited = true) ∧
    (∀ sectors slots,
      difatChain cfbf fuel cfbf.header.sectDifStart = some (sectors, slots) →
      0 < sectors.length ∧
      ∃ rv m nf nu nnu,
        cfbf_walk cfbf fuel =
          Run.done (WalkOutcome.finished rv m sectors.length nf nu nnu)) := by
  have hwalk := walk_of_dir_stage cfbf fuel st1 hdir
  obtain ⟨k, hk⟩ := walk_dir_stage_fuel cfbf fuel st1 hdir
  refine ⟨?_, ?_, ?_, ?_⟩
  · intro offset i hptr hi hnone
    rw [hwalk]
    unfold walkDifatStage
    rw [hk, walk_difat_reads cfbf _ k _ offset i _ hstart hptr hi hnone]
  · intro hptr
    rw [hwalk]
    unfold walkDifatStage
    rw [hk]
    unfold cfbf_walk_difat
    rw [if_neg hstart]
    dsimp only
    rw [hptr]
    dsimp only
    have hrv : (if walkNumStartFatSectors cfbf.header ≠ cfbf.header.csectFat then (-1 : Int)
        else if 0 ≠ cfbf.header.csectDif then -1 else -1) = -1 := by
      split
      · rfl
      · split
        · rfl
        · rfl
    rw [hrv]
    exact ⟨_, _, _, _, rfl⟩
  · intro hs hent hvis out hout
    rw [hwalk] at hout
    cases hd : walkDifatStage cfbf fuel st1 with
    | fault => rw [hd] at hout; cases hout
    | outOfFuel => rw [hd] at hout; cases hout
    | done d =>
      rw [hd] at hout
      dsimp only at hout
      cases hout
      unfold walkDifatStage at hd
      exact walk_difat_marks cfbf _ fuel _ _ d hstart hs
        (by dsimp only; rw [walk_header_stage_length cfbf fuel st1 hdir]) hent hvis hd
  · intro sectors slots hchain
    constructor
    · rw [hk] at hchain
      unfold difatChain at hchain
      rw [if_neg hstart] at hchain
      cases hsec : difatSector cfbf cfbf.header.sectDifStart with
      | none => rw [hsec] at hchain; cases hchain
      | some p =>
        obtain ⟨sl, next⟩ := p
        rw [hsec] at hchain
        dsimp only at hchain
        cases hrest : difatChain cfbf k next with
        | none => rw [hrest] at hchain; cases hchain
        | some q =>
          obtain ⟨secs1, more⟩ := q
          rw [hrest] at hchain
          dsimp only at hchain
          cases hchain
          exact Nat.succ_pos _
    · rw [hwalk]
      unfold walkDifatStage
      obtain ⟨rv, m, hw⟩ := walk_difat_count cfbf (walkNumSectors cfbf) fuel
        cfbf.header.sectDifStart
        { retval := (walkHeaderStage cfbf st1).1, sector_map := (walkHeaderStage cfbf st1).2,
          num_difat_sectors_seen := 0,
          num_fat_sectors_seen := walkNumStartFatSectors cfbf.header }
        sectors slots hchain
      rw [hw]
      dsimp only
      rw [Nat.zero_add]
      exact ⟨_, _, _, _, _, rfl⟩

/-- C25 (amended): the DIFAT loop of `cfbf_walk` is gated by `sectDifStart`,
not by `csectFat`. For every file whose `sectDifStart` is `ENDOFCHAIN`,
whatever its `csectFat`, the walk reads nothing through the DIFAT (its result
is the same whatever the bytes of the sectors), and a walk that returns has
marked no sector as a DIFAT sector, has counted no DIFAT sector and only the
`min 109 csectFat` header-listed FAT pages. For every file whose `sectDifStart`
is not `ENDOFCHAIN` and whose directory stage (steps 1 and 2) ends without
failure, whatever its `csectFat`: if sector `sectDifStart` lies inside the file
the walk reads each of its slots (it faults when one of them cannot be read),
and if it lies past the end of the file the walk returns -1 with no DIFAT
sector counted; if `sectDifStart` is a sector of the map that steps 1 to 3 left
unmarked, a walk that returns has marked it as a DIFAT sector; and the walk
returns, with at least one DIFAT sector counted, whenever the DIFAT chain
ends. -/
theorem walk_without_difat (cfbf : CfbfFile) (fuel : Nat) :
    (cfbf.header.sectDifStart = CFBF_END_OF_CHAIN →
      (∀ f : Nat → Option Nat,
        cfbf_walk { cfbf with file_sect := f } fuel = cfbf_walk cfbf fuel) ∧
      (∀ out, cfbf_walk cfbf fuel = Run.done out →
        noDifsect out.sector_map ∧
        (∀ rv m nd nf nu nnu, out = WalkOutcome.finished rv m nd nf nu nnu →
          nd = 0 ∧ nf = min 109 cfbf.header.csectFat))) ∧
    (cfbf.header.sectDifStart ≠ CFBF_END_OF_CHAIN →
      ∀ st1, walkDirStage cfbf fuel = some st1 →
      (∀ offset i,
        cfbf_get_sector_ptr cfbf.header cfbf.file_size cfbf.header.sectDifStart =
          some offset →
        i < cfbf_get_sector_size cfbf.header / 4 →
        cfbf.file_sect (offset + 4 * i) = none →
        cfbf_walk cfbf fuel = Run.fault) ∧
      (cfbf_get_sector_ptr cfbf.header cfbf.file_size cfbf.header.sectDifStart = none →
        ∃ m nf nu nnu,
          cfbf_walk cfbf fuel = Run.done (WalkOutcome.finished (-1) m 0 nf nu nnu)) ∧
      (cfbf.header.sectDifStart < walkNumSectors cfbf →
        ((walkHeaderStage cfbf st1).2.getD cfbf.header.sectDifStart
          WalkSector.zero).entry = none →
        ((walkHeaderStage cfbf st1).2.getD cfbf.header.sectDifStart
          WalkSector.zero).is_visited = false →
        ∀ out, cfbf_walk cfbf fuel = Run.done out →
          (out.sector_map.getD cfbf.header.sectDifStart WalkSector.zero).is_difsect = true ∧
          (out.sector_map.getD cfbf.header.sectDifStart WalkSector.zero).is_visited = true) ∧
      (∀ sectors slots,
        difatChain cfbf fuel cfbf.header.sectDifStart = some (sectors, slots) →
        0 < sectors.length ∧
        ∃ rv m nf nu nnu,
          cfbf_walk cfbf fuel =
            Run.done (WalkOutcome.finished rv m sectors.length nf nu nnu))) :=
  ⟨fun hstart => ⟨fun f => walk_file_sect cfbf f fuel hstart,
      fun out h => walk_end_of_chain_no_difat cfbf fuel out hstart h⟩,
    fun hstart st1 hdir => walk_enters_difat cfbf fuel st1 hstart hdir⟩

set_option maxRecDepth 100000 in
/-- C25 (amended) on files of three sectors with `csectFat = 1`: `orphanFile`,
whose `sectDifStart` is `ENDOFCHAIN`, is walked without any sector marked as a
DIFAT sector; `smallDifatFile`, whose `sectDifStart` is 2, is walked with
sector 2 marked as a DIFAT sector; the walk of the same file faults when the
slots of sector 2 cannot be read; and with `sectDifStart = 7`, a sector past
the end of the file, the walk returns -1 with no DIFAT sector counted. -/
theorem walk_without_difat_witness :
    (∃ out, cfbf_walk orphanFile 3 = Run.done out ∧ noDifsect out.sector_map) ∧
    (∃ out, cfbf_walk smallDifatFile 3 = Run.done out ∧
      (out.sector_map.getD 2 WalkSector.zero).is_difsect = true) ∧
    cfbf_walk { smallDifatFile with file_sect := fun _ => none } 3 = Run.fault ∧
    (∃ m nf nu nnu,
      cfbf_walk { smallDifatFile with
          header := { smallDifatFile.header with sectDifStart := 7 } } 3 =
        Run.done (WalkOutcome.finished (-1) m 0 nf nu nnu)) := by
  have h : cfbf_walk orphanFile 3 = Run.done
      (WalkOutcome.finished 0
        [{ entry := none, sector_index := 0, is_difsect := false, is_fatsect := true,
           is_visited := true },
         { entry := some (fake_dir_entry_for_dir_chain orphanFile.header 1),
           sector_index := 0, is_difsect := false, is_fatsect := false,
           is_visited := true },
         WalkSector.zero] 0 1 1 1) := by decide
  have hdir : walkDirStage smallDifatFile 3 = some
      { retval := 0,
        sector_map :=
          [WalkSector.zero,
           { entry := some (fake_dir_entry_for_dir_chain smallDifatFile.header 1),
             sector_index := 0, is_difsect := false, is_fatsect := false,
             is_visited := true },
           WalkSector.zero],
        failed := false } := by decide
  have hdir2 : walkDirStage { smallDifatFile with file_sect := fun _ => none } 3 = some
      { retval := 0,
        sector_map :=
          [WalkSector.zero,
           { entry := some (fake_dir_entry_for_dir_chain smallDifatFile.header 1),
             sector_index := 0, is_difsect := false, is_fatsect := false,
             is_visited := true },
           WalkSector.zero],
        failed := false } := by decide
  have hdir3 : walkDirStage { smallDifatFile with
      header := { smallDifatFile.header with sectDifStart := 7 } } 3 = some
      { retval := 0,
        sector_map :=
          [WalkSector.zero,
           { entry := some (fake_dir_entry_for_dir_chain smallDifatFile.header 1),
             sector_index := 0, is_difsect := false, is_fatsect := false,
             is_visited := true },
           WalkSector.zero],
        failed := false } := by decide
  obtain ⟨_, _, hmark, hret⟩ :=
    (walk_without_difat smallDifatFile 3).2 (by decide) _ hdir
  obtain ⟨_, rv, m, nf, nu, nnu, hw⟩ := hret [2] (List.replicate 127 CFBF_FREESECT)
    (by decide)
  exact ⟨⟨_, h, ((walk_without_difat orphanFile 3).1 rfl).2 _ h |>.1⟩,
    ⟨_, hw, (hmark (by decide) (by decide) (by decide) _ hw).1⟩,
    ((walk_without_difat { smallDifatFile with file_sect := fun _ => none } 3).2
      (by decide) _ hdir2).1 1536 0 (by decide) (by decide) rfl,
    ((walk_without_difat { smallDifatFile with
        header := { smallDifatFile.header with sectDifStart := 7 } } 3).2
      (by decide) _ hdir3).2.1 (by decide)⟩

/-! ### C6 and C9: the walk of a chain whose sectors are accepted -/

/-- With the MiniFAT the loop of `cfbf_walk_entry` never leaves through the
rejection of a sector. -/
theorem walk_entry_loop_mini_exit (fat : Fat) (num_sectors : Nat) (ent : DirEntry) :
    ∀ (fuel sect : Nat) (m : List WalkSector) (idx b last ex : Nat)
      (r : WalkEntryResult),
      cfbf_walk_entry_loop fat true num_sectors ent fuel sect m idx b last ex =
        Run.done r → r.exit ≠ WalkEntryExit.visitRejected := by
  intro fuel
  induction fuel with
  | zero => intro sect m idx b last ex r h; simp [cfbf_walk_entry_loop] at h
  | succ fuel ih =>
    intro sect m idx b last ex r h
    unfold cfbf_walk_entry_loop at h
    by_cases heoc : sect = CFBF_END_OF_CHAIN
    · rw [if_pos heoc] at h
      cases h
      dsimp only
      split <;> simp
    · rw [if_neg heoc] at h
      simp only [if_true, lt_self_iff_false, if_false] at h
      by_cases hge : b ≥ ent.stream_size
      · rw [if_pos hge] at h
        cases h
        simp
      · rw [if_neg hge] at h
        exact ih _ _ _ _ _ _ _ h

/-- The element of a sector that is none of the sectors rewritten so far. -/
theorem getD_set_ne (m : List WalkSector) (s S : Nat) (w : WalkSector) (h : s ≠ S) :
    (m.set s w).getD S WalkSector.zero = m.getD S WalkSector.zero := by
  rw [List.getD_eq_getElem?_getD, List.getD_eq_getElem?_getD, List.getElem?_set_ne h]

theorem getD_set_self (m : List WalkSector) (s : Nat) (w : WalkSector)
    (h : s < m.length) : (m.set s w).getD s WalkSector.zero = w := by
  rw [List.getD_eq_getElem?_getD, List.getElem?_set_self h]
  rfl

/-- Invariant of the loop of `cfbf_walk_entry` on the main FAT, for a map of at
least `num_sectors` elements: after `k` iterations the first `k` sectors of the
chain were accepted and are visited, and the other elements of the map are
those of the map `m0` that the walk received. The loop then marks at least the
sectors up to the first that is `ENDOFCHAIN` or not accepted, and it leaves
through the rejection of a sector exactly when the chain is not accepted. -/
theorem walk_entry_loop_accepts (fat : Fat) (num_sectors : Nat) (ent : DirEntry)
    (hs : 1 ≤ fat.sector_size) (start : Nat) (m0 : List WalkSector)
    (hlen0 : num_sectors ≤ m0.length) :
    ∀ (fuel k sect : Nat) (m : List WalkSector) (idx b last ex : Nat)
      (r : WalkEntryResult),
      sect = chainSector fat start k → ex = k →
      b = min (k * fat.sector_size) ent.stream_size →
      k ≤ ceilDiv ent.stream_size fat.sector_size →
      (∀ i < k, chainSector fat start i ≠ CFBF_END_OF_CHAIN) →
      (∀ i < k, sectorAccepted fat m0 num_sectors start i) →
      m.length = m0.length →
      (∀ S, (∀ j < k, chainSector fat start j ≠ S) →
        m.getD S WalkSector.zero = m0.getD S WalkSector.zero) →
      (∀ j < k, (m.getD (chainSector fat start j) WalkSector.zero).is_visited = true) →
      cfbf_walk_entry_loop fat false num_sectors ent fuel sect m idx b last ex =
        Run.done r →
      (∀ K ≤ ceilDiv ent.stream_size fat.sector_size + 1,
        (∀ i < K, chainSector fat start i ≠ CFBF_END_OF_CHAIN ∧
          sectorAccepted fat m0 num_sectors start i) → K ≤ r.sectors_marked) ∧
      (r.exit = WalkEntryExit.visitRejected ↔
        ¬ chainAccepted fat m0 num_sectors start
          (ceilDiv ent.stream_size fat.sector_size)) := by
  intro fuel
  induction fuel with
  | zero =>
    intro k sect m idx b last ex r _ _ _ _ _ _ _ _ _ h
    simp [cfbf_walk_entry_loop] at h
  | succ fuel ih =>
    intro k sect m idx b last ex r hsect hex hb hk hprev hacc hlen hinv1 hinv2 h
    have hlt := lt_ceilDiv_iff ent.stream_size fat.sector_size k hs
    unfold cfbf_walk_entry_loop at h
    by_cases heoc : sect = CFBF_END_OF_CHAIN
    · rw [if_pos heoc] at h
      cases h
      have hne : (if b ≠ ent.stream_size then WalkEntryExit.lengthMismatch
          else WalkEntryExit.ok) ≠ WalkEntryExit.visitRejected := by
        split <;> simp
      have hck : chainSector fat start k = CFBF_END_OF_CHAIN := by rw [← hsect]; exact heoc
      refine ⟨?_, ?_⟩
      · intro K _ hK
        simp only [WalkEntryResult.sectors_marked, if_neg hne]
        by_contra hc
        exact (hK k (by omega)).1 hck
      · constructor
        · intro h1; exact absurd h1 hne
        · intro hna
          exfalso
          apply hna
          intro i _ hi
          by_cases hik : i < k
          · exact hacc i hik
          · exact absurd hck (hi k (by omega))
    · rw [if_neg heoc] at h
      simp only [Bool.false_eq_true, if_false] at h
      have hck : chainSector fat start k ≠ CFBF_END_OF_CHAIN := by rw [← hsect]; exact heoc
      have hprev1 : ∀ j ≤ k, chainSector fat start j ≠ CFBF_END_OF_CHAIN := by
        intro j hj
        rcases Nat.lt_or_eq_of_le hj with h1 | h1
        · exact hprev j h1
        · rw [h1]; exact hck
      rcases visit_sector_cases m num_sectors sect idx (some ent) 0 with
        ⟨h1, h2, hwhy⟩ | ⟨h1, hltn, hent, hvis, w, hw, hwv, _, _⟩
      · -- the sector is rejected
        rw [if_pos (by rw [h1]; decide), h2] at h
        cases h
        have hnacc : ¬ sectorAccepted fat m0 num_sectors start k := by
          intro ha
          obtain ⟨ha1, ha2, ha3, ha4⟩ := ha
          have hsame := hinv1 (chainSector fat start k) ha4
          rw [hsect, hsame] at hwhy
          rcases hwhy with hc | hc | hc
          · omega
          · rw [ha2] at hc; cases hc
          · rw [ha3] at hc; cases hc
        refine ⟨?_, ?_⟩
        · intro K _ hK
          simp only [WalkEntryResult.sectors_marked, if_true]
          by_contra hc
          exact hnacc (hK k (by omega)).2
        · constructor
          · intro _ hall
            exact hnacc (hall k hk hprev1)
          · intro _; rfl
      · -- the sector is accepted
        rw [if_neg (by rw [h1]; decide), hw] at h
        have hfresh : ∀ j < k, chainSector fat start j ≠ chainSector fat start k := by
          intro j hj hc
          have hv := hinv2 j hj
          rw [hc, ← hsect, hvis] at hv
          cases hv
        have hacck : sectorAccepted fat m0 num_sectors start k := by
          have hsame := hinv1 (chainSector fat start k) hfresh
          rw [← hsect] at hsame
          refine ⟨by rw [← hsect]; exact hltn, ?_, ?_, hfresh⟩
          · rw [← hsect, ← hsame]; exact hent
          · rw [← hsect, ← hsame]; exact hvis
        have hacc1 : ∀ i < k + 1, sectorAccepted fat m0 num_sectors start i := by
          intro i hi
          rcases Nat.lt_succ_iff_lt_or_eq.1 hi with hik | hik
          · exact hacc i hik
          · rw [hik]; exact hacck
        by_cases hge : b ≥ ent.stream_size
        · rw [if_pos hge] at h
          cases h
          have hne : WalkEntryExit.moreSectors ≠ WalkEntryExit.visitRejected := by simp
          have hkC : k = ceilDiv ent.stream_size fat.sector_size := by
            have h1 : ¬ k * fat.sector_size < ent.stream_size := by omega
            have h2 := mt hlt.1 h1
            omega
          refine ⟨?_, ?_⟩
          · intro K hK _
            simp only [WalkEntryResult.sectors_marked, if_neg hne]
            omega
          · constructor
            · intro h1; exact absurd h1 hne
            · intro hna
              exfalso
              apply hna
              intro i hi _
              exact hacc1 i (by omega)
        · rw [if_neg hge] at h
          have hklt : k * fat.sector_size < ent.stream_size := by omega
          have hk1 := hlt.2 hklt
          refine ih (k + 1) _ _ _ _ _ _ r ?_ ?_ ?_ ?_ ?_ hacc1 ?_ ?_ ?_ h
          · rw [chainSector_succ, ← hsect]
          · omega
          · rw [Nat.add_mul, Nat.one_mul]
            split <;> omega
          · omega
          · intro i hi
            exact hprev1 i (by omega)
          · rw [List.length_set]; exact hlen
          · intro S hS
            have hSk : sect ≠ S := by rw [hsect]; exact hS k (by omega)
            rw [getD_set_ne m sect S w hSk]
            exact hinv1 S (fun j hj => hS j (by omega))
          · intro j hj
            rcases Nat.lt_succ_iff_lt_or_eq.1 hj with hjk | hjk
            · have hne : sect ≠ chainSector fat start j := by
                rw [hsect]; exact Ne.symm (hfresh j hjk)
              rw [getD_set_ne m sect _ w hne]
              exact hinv2 j hjk
            · rw [hjk, ← hsect, getD_set_self m sect w (by omega)]
              exact hwv

/-- On the main FAT the loop of `cfbf_walk_entry` does not leave through the
rejection of a sector when the chain is accepted, whatever the length of the
map. -/
theorem walk_entry_loop_not_rejected (fat : Fat) (num_sectors : Nat) (ent : DirEntry)
    (hs : 1 ≤ fat.sector_size) (start : Nat) (m0 : List WalkSector)
    (hall : chainAccepted fat m0 num_sectors start
      (ceilDiv ent.stream_size fat.sector_size)) :
    ∀ (fuel k sect : Nat) (m : List WalkSector) (idx b last ex : Nat)
      (r : WalkEntryResult),
      sect = chainSector fat start k →
      b = min (k * fat.sector_size) ent.stream_size →
      k ≤ ceilDiv ent.stream_size fat.sector_size →
      (∀ i < k, chainSector fat start i ≠ CFBF_END_OF_CHAIN) →
      (∀ S, (∀ j < k, chainSector fat start j ≠ S) →
        m.getD S WalkSector.zero = m0.getD S WalkSector.zero) →
      cfbf_walk_entry_loop fat false num_sectors ent fuel sect m idx b last ex =
        Run.done r →
      r.exit ≠ WalkEntryExit.visitRejected := by
  intro fuel
  induction fuel with
  | zero =>
    intro k sect m idx b last ex r _ _ _ _ _ h
    simp [cfbf_walk_entry_loop] at h
  | succ fuel ih =>
    intro k sect m idx b last ex r hsect hb hk hprev hinv1 h
    have hlt := lt_ceilDiv_iff ent.stream_size fat.sector_size k hs
    unfold cfbf_walk_entry_loop at h
    by_cases heoc : sect = CFBF_END_OF_CHAIN
    · rw [if_pos heoc] at h
      cases h
      dsimp only
      split <;> simp
    · rw [if_neg heoc] at h
      simp only [Bool.false_eq_true, if_false] at h
      have hck : chainSector fat start k ≠ CFBF_END_OF_CHAIN := by rw [← hsect]; exact heoc
      have hprev1 : ∀ j ≤ k, chainSector fat start j ≠ CFBF_END_OF_CHAIN := by
        intro j hj
        rcases Nat.lt_or_eq_of_le hj with h1 | h1
        · exact hprev j h1
        · rw [h1]; exact hck
      obtain ⟨ha1, ha2, ha3, ha4⟩ := hall k hk hprev1
      have hsame := hinv1 (chainSector fat start k) ha4
      rcases visit_sector_cases m num_sectors sect idx (some ent) 0 with
        ⟨h1, h2, hwhy⟩ | ⟨h1, hltn, hent, hvis, w, hw, hwv, _, _⟩
      · exfalso
        rw [hsect, hsame] at hwhy
        rcases hwhy with hc | hc | hc
        · omega
        · rw [ha2] at hc; cases hc
        · rw [ha3] at hc; cases hc
      · rw [if_neg (by rw [h1]; decide), hw] at h
        by_cases hge : b ≥ ent.stream_size
        · rw [if_pos hge] at h
          cases h
          simp
        · rw [if_neg hge] at h
          have hklt : k * fat.sector_size < ent.stream_size := by omega
          have hk1 := hlt.2 hklt
          refine ih (k + 1) _ _ _ _ _ _ r ?_ ?_ ?_ ?_ ?_ h
          · rw [chainSector_succ, ← hsect]
          · rw [Nat.add_mul, Nat.one_mul]
            split <;> omega
          · omega
          · intro i hi
            exact hprev1 i (by omega)
          · intro S hS
            have hSk : sect ≠ S := by rw [hsect]; exact hS k (by omega)
            rw [getD_set_ne m sect S w hSk]
            exact hinv1 S (fun j hj => hS j (by omega))

/-- C6: with a table sector size `s ≥ 1` and enough fuel for the
`ceil (streamSize / s) + 1` iterations, `cfbf_walk_entry` returns. Provided no
sector of the chain is rejected by `visit_sector` (the walk follows the
MiniFAT, which calls `visit_sector` on no sector, or `chainAccepted` holds of
the main-FAT chain and the map that the walk received), it does not leave
through the rejection of a sector, it returns 0 exactly when the chain from
`startSector` has `ceil (streamSize / s)` sectors up to `ENDOFCHAIN`, and then
the byte count is `streamSize`; for `streamSize = 0` it returns 0 exactly when
`startSector` is `ENDOFCHAIN`, with zero bytes counted. The proviso is exact: on
the main FAT, with a map of at least `num_sectors` elements, the walk leaves
through the rejection of a sector, with -1, when the chain is not accepted. -/
theorem walk_entry_length (cfbf : CfbfFile) (sector_map : List WalkSector)
    (num_sectors : Nat) (ent : DirEntry) (fuel : Nat)
    (hs : 1 ≤ (walkEntryTable cfbf ent).sector_size)
    (hfuel : ceilDiv ent.stream_size (walkEntryTable cfbf ent).sector_size + 1 ≤ fuel) :
    ∃ r, cfbf_walk_entry cfbf sector_map num_sectors ent fuel = Run.done r ∧
      ((walkEntryUsesMini cfbf ent = true ∨
          chainAccepted cfbf.fat sector_map num_sectors ent.start_sector
            (ceilDiv ent.stream_size cfbf.fat.sector_size)) →
        (r.exit ≠ WalkEntryExit.visitRejected ∧
          (r.exit.retval = 0 ↔
            chainHasLength (walkEntryTable cfbf ent) ent.start_sector
              (ceilDiv ent.stream_size (walkEntryTable cfbf ent).sector_size)) ∧
          (r.exit.retval = 0 → r.bytes_read = ent.stream_size) ∧
          (ent.stream_size = 0 →
            ((r.exit.retval = 0 ↔ ent.start_sector = CFBF_END_OF_CHAIN) ∧
              (r.exit.retval = 0 → r.bytes_read = 0))))) ∧
      (walkEntryUsesMini cfbf ent = false → num_sectors ≤ sector_map.length →
        ¬ chainAccepted cfbf.fat sector_map num_sectors ent.start_sector
            (ceilDiv ent.stream_size cfbf.fat.sector_size) →
        r.exit = WalkEntryExit.visitRejected ∧ r.exit.retval = -1) := by
  obtain ⟨r, hr, _, hspec⟩ := walk_entry_loop_spec (walkEntryTable cfbf ent)
    (walkEntryUsesMini cfbf ent) num_sectors ent hs ent.start_sector fuel 0
    ent.start_sector sector_map 0 0 CFBF_END_OF_CHAIN 0 rfl (by simp) (by omega)
    (by intro i hi; omega) (by omega) rfl
  refine ⟨r, hr, ?_, ?_⟩
  · intro hacc
    have hrej : r.exit ≠ WalkEntryExit.visitRejected := by
      cases hu : walkEntryUsesMini cfbf ent with
      | true =>
        rw [hu] at hr
        exact walk_entry_loop_mini_exit _ _ _ _ _ _ _ _ _ _ _ hr
      | false =>
        have htab : walkEntryTable cfbf ent = cfbf.fat := by
          unfold walkEntryTable; rw [hu]; simp
        rw [hu] at hacc hr
        rw [htab] at hs hr
        have hall := hacc.resolve_left (by simp)
        exact walk_entry_loop_not_rejected cfbf.fat num_sectors ent hs ent.start_sector
          sector_map hall fuel 0 ent.start_sector sector_map 0 0 CFBF_END_OF_CHAIN 0 r
          rfl (by simp) (by omega) (by intro i hi; omega) (fun _ _ => rfl) hr
    obtain ⟨hiff, hbytes⟩ := hspec hrej
    rw [retval_eq_zero_iff]
    refine ⟨hrej, hiff, hbytes, fun h0 => ⟨?_, fun hok => by rw [hbytes hok, h0]⟩⟩
    rw [hiff, h0]
    unfold chainHasLength ceilDiv chainSector
    have : (0 + (walkEntryTable cfbf ent).sector_size - 1) /
        (walkEntryTable cfbf ent).sector_size = 0 := by
      apply Nat.div_eq_of_lt; omega
    rw [this]
    simp
  · intro hu hlen hna
    have htab : walkEntryTable cfbf ent = cfbf.fat := by
      unfold walkEntryTable; rw [hu]; simp
    rw [hu] at hr
    rw [htab] at hs hr
    have hx := ((walk_entry_loop_accepts cfbf.fat num_sectors ent hs ent.start_sector
      sector_map hlen fuel 0 ent.start_sector sector_map 0 0 CFBF_END_OF_CHAIN 0 r
      rfl rfl (by simp) (by omega) (by intro i hi; omega) (by intro i hi; omega) rfl
      (fun _ _ => rfl) (by intro i hi; omega) hr).2).2 hna
    exact ⟨hx, by rw [hx]; rfl⟩

/-- C6 at the root entry of the E1 container, whose chain is in the main FAT.
On the empty map of four sectors sector 3 is accepted, the chain has the one
sector that 128 bytes need, and the walk returns 0 with 128 bytes counted. On a
map whose sector 3 is already visited the chain is not accepted, and the walk
leaves through the rejection of the sector, with -1. -/
theorem walk_entry_length_witness :
    (chainAccepted e1File.fat (List.replicate 4 WalkSector.zero) 4 e1Root.start_sector
        (ceilDiv e1Root.stream_size e1File.fat.sector_size) ∧
      ∃ r, cfbf_walk_entry e1File (List.replicate 4 WalkSector.zero) 4 e1Root 2 =
          Run.done r ∧
        r.exit ≠ WalkEntryExit.visitRejected ∧ r.exit.retval = 0 ∧ r.bytes_read = 128) ∧
    (¬ chainAccepted e1File.fat
        (List.replicate 3 WalkSector.zero ++ [{ WalkSector.zero with is_visited := true }])
        4 e1Root.start_sector (ceilDiv e1Root.stream_size e1File.fat.sector_size) ∧
      ∃ r, cfbf_walk_entry e1File
          (List.replicate 3 WalkSector.zero ++ [{ WalkSector.zero with is_visited := true }])
          4 e1Root 2 = Run.done r ∧
        r.exit = WalkEntryExit.visitRejected ∧ r.exit.retval = -1) := by
  have hacc : chainAccepted e1File.fat (List.replicate 4 WalkSector.zero) 4
      e1Root.start_sector (ceilDiv e1Root.stream_size e1File.fat.sector_size) := by
    unfold chainAccepted sectorAccepted
    decide
  have hnacc : ¬ chainAccepted e1File.fat
      (List.replicate 3 WalkSector.zero ++ [{ WalkSector.zero with is_visited := true }])
      4 e1Root.start_sector (ceilDiv e1Root.stream_size e1File.fat.sector_size) := by
    unfold chainAccepted sectorAccepted
    decide
  obtain ⟨r, hr, h1, _⟩ := walk_entry_length e1File (List.replicate 4 WalkSector.zero) 4
    e1Root 2 (by decide) (by decide)
  obtain ⟨hrej, hiff, hbytes, _⟩ := h1 (Or.inr hacc)
  have hok : r.exit.retval = 0 := hiff.2 (by unfold chainHasLength; decide)
  obtain ⟨r2, hr2, _, h2⟩ := walk_entry_length e1File
    (List.replicate 3 WalkSector.zero ++ [{ WalkSector.zero with is_visited := true }]) 4
    e1Root 2 (by decide) (by decide)
  exact ⟨⟨hacc, r, hr, hrej, hok, hbytes hok⟩,
    ⟨hnacc, r2, hr2, h2 (by decide) (by decide) hnacc⟩⟩

/-- C9: `cfbf_walk_entry` returns (table sector size at least 1, enough fuel, a
map of `num_sectors < 2 ^ 32` elements at least). For a type-2 entry below the
mini cutoff it follows the MiniFAT: it returns 0 exactly when the chain from
`startSector` in the MiniFAT has `ceil (streamSize / s)` sectors, whatever the
main FAT holds, and it returns the sector map as it received it. For the other
entries it walks (the directory chain, of type 0, the root, of type 5, and the
streams of at least the cutoff size) it follows the main FAT, whatever the
MiniFAT holds: each sector on which it calls `visit_sector` with success (the
`i`-th sector of the main-FAT chain, `i ≤ ceil (streamSize / s)`, when the
sectors `0 .. i` of the chain are not `ENDOFCHAIN` and are accepted) is marked
in the returned map with the entry as owner, `i` as its index, and as visited;
the walk leaves through the rejection of a sector exactly when the chain is
not accepted, and otherwise returns 0 exactly when the main-FAT chain has
`ceil (streamSize / s)` sectors. -/
theorem walk_entry_table_and_marks (cfbf : CfbfFile) (sector_map : List WalkSector)
    (num_sectors : Nat) (ent : DirEntry) (fuel : Nat)
    (hs : 1 ≤ (walkEntryTable cfbf ent).sector_size)
    (hfuel : ceilDiv ent.stream_size (walkEntryTable cfbf ent).sector_size + 1 ≤ fuel)
    (hlen : num_sectors ≤ sector_map.length) (hn : num_sectors < 2 ^ 32) :
    ∃ r, cfbf_walk_entry cfbf sector_map num_sectors ent fuel = Run.done r ∧
      ((ent.object_type = 2 ∧ ent.stream_size < cfbf.header.ulMiniSectorCutoff) →
        (walkEntryTable cfbf ent = cfbf.mini_fat ∧ r.sector_map = sector_map ∧
          (∀ fat1 : Fat, cfbf_walk_entry { cfbf with fat := fat1 } sector_map
            num_sectors ent fuel = Run.done r) ∧
          (r.exit.retval = 0 ↔
            chainHasLength cfbf.mini_fat ent.start_sector
              (ceilDiv ent.stream_size cfbf.mini_fat.sector_size)))) ∧
      ((ent.object_type = 0 ∨ ent.object_type = 5 ∨
          cfbf.header.ulMiniSectorCutoff ≤ ent.stream_size) →
        (walkEntryTable cfbf ent = cfbf.fat ∧
          (∀ mini1 : Fat, cfbf_walk_entry { cfbf with mini_fat := mini1 } sector_map
            num_sectors ent fuel = Run.done r) ∧
          (∀ i ≤ ceilDiv ent.stream_size cfbf.fat.sector_size,
            (∀ j ≤ i, chainSector cfbf.fat ent.start_sector j ≠ CFBF_END_OF_CHAIN ∧
              sectorAccepted cfbf.fat sector_map num_sectors ent.start_sector j) →
            ∃ w, r.sector_map[chainSector cfbf.fat ent.start_sector i]? = some w ∧
              w.entry = some ent ∧ w.sector_index = i ∧ w.is_visited = true) ∧
          (r.exit = WalkEntryExit.visitRejected ↔
            ¬ chainAccepted cfbf.fat sector_map num_sectors ent.start_sector
              (ceilDiv ent.stream_size cfbf.fat.sector_size)) ∧
          (chainAccepted cfbf.fat sector_map num_sectors ent.start_sector
              (ceilDiv ent.stream_size cfbf.fat.sector_size) →
            (r.exit.retval = 0 ↔
              chainHasLength cfbf.fat ent.start_sector
                (ceilDiv ent.stream_size cfbf.fat.sector_size))))) := by
  obtain ⟨r, hr, _, hspec⟩ := walk_entry_loop_spec (walkEntryTable cfbf ent)
    (walkEntryUsesMini cfbf ent) num_sectors ent hs ent.start_sector fuel 0
    ent.start_sector sector_map 0 0 CFBF_END_OF_CHAIN 0 rfl (by simp) (by omega)
    (by intro i hi; omega) (by omega) rfl
  have hrun : cfbf_walk_entry cfbf sector_map num_sectors ent fuel = Run.done r := hr
  refine ⟨r, hrun, ?_, ?_⟩
  · intro hmini
    have hu : walkEntryUsesMini cfbf ent = true := by
      unfold walkEntryUsesMini
      simp only [decide_eq_true_eq]
      refine ⟨?_, ?_, hmini.2⟩ <;> omega
    have htab : walkEntryTable cfbf ent = cfbf.mini_fat := by
      unfold walkEntryTable; rw [if_pos hu]
    rw [hu] at hr
    refine ⟨htab, ?_, ?_, ?_⟩
    · exact walk_entry_loop_mini_map _ _ _ _ _ _ _ _ _ _ _ hr
    · intro fat1
      rw [← hrun]
      unfold cfbf_walk_entry
      have hu1 : walkEntryUsesMini { cfbf with fat := fat1 } ent = true := hu
      simp only [hu, hu1, if_true]
    · have hrej := walk_entry_loop_mini_exit _ _ _ _ _ _ _ _ _ _ _ hr
      rw [retval_eq_zero_iff, ← htab]
      exact (hspec hrej).1
  · intro hmain
    have hu : walkEntryUsesMini cfbf ent = false := by
      unfold walkEntryUsesMini
      simp only [decide_eq_false_iff_not]
      intro hc
      rcases hmain with h | h | h
      · exact hc.1 h
      · exact hc.2.1 h
      · omega
    have htab : walkEntryTable cfbf ent = cfbf.fat := by
      unfold walkEntryTable; rw [hu]; simp
    rw [hu] at hr
    rw [htab] at hs hr hspec
    have hacc := walk_entry_loop_accepts cfbf.fat num_sectors ent hs ent.start_sector
      sector_map hlen fuel 0 ent.start_sector sector_map 0 0 CFBF_END_OF_CHAIN 0 r
      rfl rfl (by simp) (by omega) (by intro i hi; omega) (by intro i hi; omega) rfl
      (fun _ _ => rfl) (by intro i hi; omega) hr
    have hmarks := walk_entry_loop_marks cfbf.fat num_sectors ent ent.start_sector hn fuel 0
      ent.start_sector sector_map 0 0 CFBF_END_OF_CHAIN 0 r rfl rfl rfl hlen
      (by intro i hi; omega) (by intro i hi; omega) hr
    refine ⟨htab, ?_, ?_, hacc.2, ?_⟩
    · intro mini1
      rw [← hrun]
      unfold cfbf_walk_entry
      have hu1 : walkEntryUsesMini { cfbf with mini_fat := mini1 } ent = false := hu
      simp only [hu, hu1, Bool.false_eq_true, if_false]
    · intro i hi hpre
      exact hmarks i (Nat.lt_of_succ_le (hacc.1 (i + 1) (by omega)
        (fun j hj => hpre j (by omega))))
    · intro hall
      have hrej : r.exit ≠ WalkEntryExit.visitRejected := fun hc => (hacc.2.1 hc) hall
      rw [retval_eq_zero_iff]
      exact (hspec hrej).1

/-- C9 on the E1 container. Stream `A` (type 2, 100 bytes, below the cutoff) is
walked on the MiniFAT, whose chain from mini-sector 0 has the two sectors that
100 bytes need: the walk returns 0 and the map is unchanged. The root entry
(type 5) is walked on the main FAT: sector 3, the first of its chain, is
accepted, and the returned map holds the root entry as its owner, 0 as its
index, and the visited mark. -/
theorem walk_entry_table_and_marks_witness :
    (∃ r, cfbf_walk_entry e1File (List.replicate 4 WalkSector.zero) 4 e1StreamA 3 =
        Run.done r ∧
      r.sector_map = List.replicate 4 WalkSector.zero ∧ r.exit.retval = 0) ∧
    (∃ r, cfbf_walk_entry e1File (List.replicate 4 WalkSector.zero) 4 e1Root 2 =
        Run.done r ∧
      ∃ w, r.sector_map[3]? = some w ∧ w.entry = some e1Root ∧ w.sector_index = 0 ∧
        w.is_visited = true) := by
  obtain ⟨r1, hr1, hmini, _⟩ := walk_entry_table_and_marks e1File
    (List.replicate 4 WalkSector.zero) 4 e1StreamA 3
    (by decide) (by decide) (by decide) (by decide)
  obtain ⟨_, hmap, _, hiff⟩ := hmini (by decide)
  obtain ⟨r2, hr2, _, hmain⟩ := walk_entry_table_and_marks e1File
    (List.replicate 4 WalkSector.zero) 4 e1Root 2
    (by decide) (by decide) (by decide) (by decide)
  obtain ⟨_, _, hmarks, _, _⟩ := hmain (by decide)
  have hacc0 : ∀ j ≤ 0, chainSector e1File.fat e1Root.start_sector j ≠ CFBF_END_OF_CHAIN ∧
      sectorAccepted e1File.fat (List.replicate 4 WalkSector.zero) 4
        e1Root.start_sector j := by
    unfold sectorAccepted
    decide
  exact ⟨⟨r1, hr1, hmap, hiff.2 (by unfold chainHasLength; decide)⟩,
    ⟨r2, hr2, hmarks 0 (by decide) hacc0⟩⟩

/-! ### C12: the anomalies of a walk and the value it returns -/

end Cfbf
